import Mathlib

/-!
# QuantLib `Solver1D`: bracketing and validation logic

A shallow embedding of `ql/solver1d.cpp`, in two layers.

In the first layer C++ `double` values are exact rationals (`ℚ`) and `int` values are
integers: every comparison and branch of the source is kept, while rounding, infinities
and NaN are outside the model.  The objective function is a pure function `ℚ → ℚ`; each
call of it is recorded, in order, in a trace of evaluation points, so that "how often and
where `f` is evaluated" can be stated.  The pure virtual refinement step `solve_` is a
parameter.  This layer carries the statements on the order of the checks, on the kinds of
error and on the evaluations of `f`.

In the second layer (`Double`, `Machine`) a `double` is a finite number, an infinity or a
NaN, every arithmetic operation is rounded by a rounding `R`, of which `binary64` is that of
IEEE 754, and an `int` has 32 bits.  This layer carries the statements that depend on what
the machine computes: the sign test on the product `fxMin_*fxMax_`, the midpoint, the
widening of the bracket and the counter of evaluations.
-/

namespace QuantLib

/-- The constant `growthFactor = 1.6` of `solver1d.cpp`. -/
def growthFactor : ℚ := 8 / 5

/-- Modelled from the spec: the constant `QL_EPSILON` (the spec's `machineEpsilon`) comes from
`ql/qldefines.hpp`, which is not among the sources; it is the machine epsilon of an
IEEE double, `2^-52`. -/
def QL_EPSILON : ℚ := 1 / 2 ^ 52

/-- The macro `QL_FABS` (`std::fabs`). -/
abbrev QL_FABS (x : ℚ) : ℚ := |x|

/-- The macro `QL_MAX` (`std::max`). -/
abbrev QL_MAX (a b : ℚ) : ℚ := max a b

/-- The macro `QL_MIN` (`std::min`). -/
abbrev QL_MIN (a b : ℚ) : ℚ := min a b

/-- Modelled from the spec: the class declaration (`ql/solver1d.hpp`) is not among the sources.
The fields are the mutable solver state of the spec's data model (`root`, `xMin`,
`xMax`, `fxMin`, `fxMax`, `evaluationNumber`) and the configuration inputs
(`maxEvaluations`, the two bounds and their enabling flags). -/
structure Solver1D where
  root : ℚ
  xMin : ℚ
  xMax : ℚ
  fxMin : ℚ
  fxMax : ℚ
  evaluationNumber : Int
  maxEvaluations : Int
  lowBound : ℚ
  hiBound : ℚ
  lowBoundEnforced : Bool
  hiBoundEnforced : Bool

/-- The spec's error kinds (section 7). -/
inductive ErrorKind
  | InvalidRange
  | BoundViolation
  | GuessOutOfRange
  | RootNotBracketed
  | BracketingFailed
  | MaxEvaluationsExceeded
  deriving DecidableEq

/-- The errors thrown by `solver1d.cpp`, one constructor per `QL_REQUIRE`/`throw`,
carrying the numbers that the message text prints. -/
inductive SolverError
  /-- Message "invalid range: xMin_ (..) >= xMax_ (..)" -/
  | invalidRange (xMin xMax : ℚ)
  /-- Message "xMin_ (..) < enforced low bound (..)" -/
  | belowLowBound (xMin lowBound : ℚ)
  /-- Message "xMax_ (..) > enforced hi bound (..)" -/
  | aboveHiBound (xMax hiBound : ℚ)
  /-- Message "root not bracketed: f[..,..] -> [..,..]" -/
  | rootNotBracketed (xMin xMax fxMin fxMax : ℚ)
  /-- Message "Solver1D: guess (..) < xMin_ (..)" -/
  | guessBelowXMin (guess xMin : ℚ)
  /-- Message "Solver1D: guess (..) > xMax_ (..)" -/
  | guessAboveXMax (guess xMax : ℚ)
  /-- Message "unable to bracket root in .. function evaluations (last bracket attempt: f[..,..] -> [..,..])" -/
  | unableToBracket (maxEvaluations : Int) (xMin xMax fxMin fxMax : ℚ)
  /-- An error raised by the refinement step (`solve_`) itself. -/
  | maxEvaluationsExceeded (maxEvaluations : Int)

/-- The error kind of the spec to which each thrown error belongs. -/
def SolverError.kind : SolverError → ErrorKind
  | .invalidRange _ _ => .InvalidRange
  | .belowLowBound _ _ => .BoundViolation
  | .aboveHiBound _ _ => .BoundViolation
  | .rootNotBracketed _ _ _ _ => .RootNotBracketed
  | .guessBelowXMin _ _ => .GuessOutOfRange
  | .guessAboveXMax _ _ => .GuessOutOfRange
  | .unableToBracket _ _ _ _ _ => .BracketingFailed
  | .maxEvaluationsExceeded _ => .MaxEvaluationsExceeded

/-- How the code of an entry point (everything except the body of `solve_`) ends:
by `return x`, by a thrown error, or by the tail call `solve_(f, accuracy)`. -/
inductive Step
  | returned (x : ℚ)
  | failed (e : SolverError)
  | refine (accuracy : ℚ)

/-- The end of an entry point: how it ended, the solver fields at that moment and the
points at which `f` was evaluated, in order. -/
structure Outcome where
  result : Step
  state : Solver1D
  evals : List ℚ

/-- The entry point ended by throwing an error of kind `k`. -/
def Outcome.FailsWith (o : Outcome) (k : ErrorKind) : Prop :=
  ∃ e, o.result = .failed e ∧ e.kind = k

/-- The entry point ended by calling `solve_`. -/
def Outcome.Refines (o : Outcome) : Prop :=
  ∃ accuracy, o.result = .refine accuracy

/-- The pure virtual `solve_(f, xAccuracy)`: it sees the objective, the accuracy and
the solver fields, and returns a value or throws. -/
abbrev RefineHook := (ℚ → ℚ) → ℚ → Solver1D → Except SolverError ℚ

/-- The result seen by the caller of `solve`: the entry point's own return or error, or
whatever `solve_` gives on the state handed to it. -/
def Outcome.finish (hook : RefineHook) (f : ℚ → ℚ) (o : Outcome) : Except SolverError ℚ :=
  match o.result with
  | .returned x => .ok x
  | .failed e => .error e
  | .refine accuracy => hook f accuracy o.state

/-- The stated contract of `solve_` for the objective `f`: a value it returns has
`|f(x)| <= accuracy` for the accuracy it was passed. -/
def RefineHook.MeetsContract (hook : RefineHook) (f : ℚ → ℚ) : Prop :=
  ∀ (accuracy : ℚ) (s : Solver1D) (x : ℚ), hook f accuracy s = .ok x → |f x| ≤ accuracy

namespace Solver1D

/-- Modelled from the spec: `enforceBounds_` is declared in `ql/solver1d.hpp`, which is not among
the sources; a candidate beyond an enforced bound is clamped to that bound. -/
def enforceBounds_ (s : Solver1D) (x : ℚ) : ℚ :=
  if s.lowBoundEnforced = true ∧ x < s.lowBound then s.lowBound
  else if s.hiBoundEnforced = true ∧ x > s.hiBound then s.hiBound
  else x

/-! ## `solve(f, xAccuracy, guess, xMin, xMax)` -/

namespace ExplicitBracket

/-- The body of `Solver1D::solve(f, xAccuracy, guess, xMin, xMax)` up to its end
(`return`, a failed `QL_REQUIRE`, or the call of `solve_`). -/
def entry (f : ℚ → ℚ) (s : Solver1D) (xAccuracy guess xMin xMax : ℚ) : Outcome :=
  let s := { s with xMin := xMin }
  let s := { s with xMax := xMax }
  if ¬ (s.xMin < s.xMax) then
    ⟨.failed (.invalidRange s.xMin s.xMax), s, []⟩
  else if ¬ (s.lowBoundEnforced = false ∨ s.xMin ≥ s.lowBound) then
    ⟨.failed (.belowLowBound s.xMin s.lowBound), s, []⟩
  else if ¬ (s.hiBoundEnforced = false ∨ s.xMax ≤ s.hiBound) then
    ⟨.failed (.aboveHiBound s.xMax s.hiBound), s, []⟩
  else
    let s := { s with fxMin := f s.xMin }
    if QL_FABS s.fxMin < xAccuracy then
      ⟨.returned s.xMin, s, [xMin]⟩
    else
      let s := { s with fxMax := f s.xMax }
      if QL_FABS s.fxMax < xAccuracy then
        ⟨.returned s.xMax, s, [xMin, xMax]⟩
      else
        let s := { s with evaluationNumber := 2 }
        if ¬ (s.fxMin * s.fxMax < 0) then
          ⟨.failed (.rootNotBracketed s.xMin s.xMax s.fxMin s.fxMax), s, [xMin, xMax]⟩
        else if ¬ (guess > s.xMin) then
          ⟨.failed (.guessBelowXMin guess s.xMin), s, [xMin, xMax]⟩
        else if ¬ (guess < s.xMax) then
          ⟨.failed (.guessAboveXMax guess s.xMax), s, [xMin, xMax]⟩
        else
          let s := { s with root := guess }
          ⟨.refine (QL_MAX (QL_FABS xAccuracy) QL_EPSILON), s, [xMin, xMax]⟩

/-- The whole call `solve(f, xAccuracy, guess, xMin, xMax)` with `solve_ = hook`. -/
def solve (hook : RefineHook) (f : ℚ → ℚ) (s : Solver1D)
    (xAccuracy guess xMin xMax : ℚ) : Except SolverError ℚ :=
  (entry f s xAccuracy guess xMin xMax).finish hook f

end ExplicitBracket

/-! ## `solve(f, xAccuracy, guess, step)` -/

namespace GuessStep

/-- One pass through the body of the `while` loop (lines 66-89), entered with the loop
condition true: either the call ends (`Sum.inl`), or the bracket is widened and the loop
goes on with a new `flipflop`, new fields and a longer trace (`Sum.inr`). -/
def loopBody (f : ℚ → ℚ) (xAccuracy : ℚ) (flipflop : Int) (s : Solver1D) (evals : List ℚ) :
    Outcome ⊕ (Int × Solver1D × List ℚ) :=
  if s.fxMin * s.fxMax ≤ 0 then
    if s.fxMin = 0 then .inl ⟨.returned s.xMin, s, evals⟩
    else if s.fxMax = 0 then .inl ⟨.returned s.xMax, s, evals⟩
    else
      let s := { s with root := (s.xMax + s.xMin) / 2 }
      .inl ⟨.refine (QL_MAX (QL_FABS xAccuracy) QL_EPSILON), s, evals⟩
  else if QL_FABS s.fxMin < QL_FABS s.fxMax then
    let s := { s with xMin := s.enforceBounds_ (s.xMin + growthFactor * (s.xMin - s.xMax)) }
    let s := { s with fxMin := f s.xMin }
    .inr (flipflop, { s with evaluationNumber := s.evaluationNumber + 1 }, evals ++ [s.xMin])
  else if QL_FABS s.fxMin > QL_FABS s.fxMax then
    let s := { s with xMax := s.enforceBounds_ (s.xMax + growthFactor * (s.xMax - s.xMin)) }
    let s := { s with fxMax := f s.xMax }
    .inr (flipflop, { s with evaluationNumber := s.evaluationNumber + 1 }, evals ++ [s.xMax])
  else if flipflop = -1 then
    let s := { s with xMin := s.enforceBounds_ (s.xMin + growthFactor * (s.xMin - s.xMax)) }
    let s := { s with fxMin := f s.xMin }
    let s := { s with evaluationNumber := s.evaluationNumber + 1 }
    .inr (1, { s with evaluationNumber := s.evaluationNumber + 1 }, evals ++ [s.xMin])
  else if flipflop = 1 then
    let s := { s with xMax := s.enforceBounds_ (s.xMax + growthFactor * (s.xMax - s.xMin)) }
    let s := { s with fxMax := f s.xMax }
    .inr (-1, { s with evaluationNumber := s.evaluationNumber + 1 }, evals ++ [s.xMax])
  else
    .inr (flipflop, { s with evaluationNumber := s.evaluationNumber + 1 }, evals)

/-- The error thrown after the loop (lines 92-98). -/
def bracketingError (s : Solver1D) : SolverError :=
  .unableToBracket s.maxEvaluations s.xMin s.xMax s.fxMin s.fxMax

/-- The `while (evaluationNumber_ <= maxEvaluations_)` loop and the `throw` after it.  The
first argument bounds the number of passes; `none` means the bound was too small. -/
def bracketLoop (f : ℚ → ℚ) (xAccuracy : ℚ) :
    Nat → Int → Solver1D → List ℚ → Option Outcome
  | 0, _, s, evals =>
    if s.evaluationNumber ≤ s.maxEvaluations then none
    else some ⟨.failed (bracketingError s), s, evals⟩
  | fuel + 1, flipflop, s, evals =>
    if s.evaluationNumber ≤ s.maxEvaluations then
      match loopBody f xAccuracy flipflop s evals with
      | .inl out => some out
      | .inr (flipflop, s, evals) => bracketLoop f xAccuracy fuel flipflop s evals
    else some ⟨.failed (bracketingError s), s, evals⟩

/-- The number of passes that always suffices: `evaluationNumber_` starts at 2 and grows
in every pass. -/
def loopBound (s : Solver1D) : Nat := (s.maxEvaluations - 1).toNat

/-- The body of `Solver1D::solve(f, xAccuracy, guess, step)` up to its end (`return`,
`throw`, or the call of `solve_`). -/
def entry (f : ℚ → ℚ) (s : Solver1D) (xAccuracy guess step : ℚ) : Option Outcome :=
  let flipflop : Int := -1
  let s := { s with root := guess }
  let s := { s with fxMax := f s.root }
  if QL_FABS s.fxMax ≤ xAccuracy then
    some ⟨.returned s.root, s, [guess]⟩
  else if s.fxMax > 0 then
    let s := { s with xMin := s.enforceBounds_ (s.root - step) }
    let s := { s with fxMin := f s.xMin }
    let s := { s with xMax := s.root }
    let s := { s with evaluationNumber := 2 }
    bracketLoop f xAccuracy (loopBound s) flipflop s [guess, s.xMin]
  else
    let s := { s with xMin := s.root }
    let s := { s with fxMin := s.fxMax }
    let s := { s with xMax := s.enforceBounds_ (s.root + step) }
    let s := { s with fxMax := f s.xMax }
    let s := { s with evaluationNumber := 2 }
    bracketLoop f xAccuracy (loopBound s) flipflop s [guess, s.xMax]

/-- The whole call `solve(f, xAccuracy, guess, step)` with `solve_ = hook`. -/
def solve (hook : RefineHook) (f : ℚ → ℚ) (s : Solver1D)
    (xAccuracy guess step : ℚ) : Option (Except SolverError ℚ) :=
  (entry f s xAccuracy guess step).map (Outcome.finish hook f)

end GuessStep

/-! ## Concrete objects used at concrete inputs -/

/-- A solver with no bound enforced and a budget of 100 evaluations. -/
def plainSolver : Solver1D :=
  { root := 0, xMin := 0, xMax := 0, fxMin := 0, fxMax := 0, evaluationNumber := 0,
    maxEvaluations := 100, lowBound := 0, hiBound := 0,
    lowBoundEnforced := false, hiBoundEnforced := false }

/-- A solver with both bounds enforced, `[0, 10]`, and a budget of 100 evaluations. -/
def boundedSolver : Solver1D :=
  { plainSolver with lowBound := 0, hiBound := 10,
                     lowBoundEnforced := true, hiBoundEnforced := true }

/-- A refinement step that returns the accuracy it was passed when that is not negative
(and throws otherwise). -/
def accuracyHook : RefineHook := fun _ accuracy s =>
  if 0 ≤ accuracy then .ok accuracy else .error (.maxEvaluationsExceeded s.maxEvaluations)

/-- A refinement step that returns `3` when the accuracy is not negative. -/
def threeHook : RefineHook := fun _ accuracy s =>
  if 0 ≤ accuracy then .ok 3 else .error (.maxEvaluationsExceeded s.maxEvaluations)

/-- Both endpoints of `[xMin, xMax]` respect the bounds that are enforced. -/
def BracketWithinBounds (s : Solver1D) (xMin xMax : ℚ) : Prop :=
  (s.lowBoundEnforced = true → s.lowBound ≤ xMin) ∧
  (s.hiBoundEnforced = true → xMax ≤ s.hiBound)

/-- The point `x` respects the bounds that are enforced. -/
def WithinBounds (s : Solver1D) (x : ℚ) : Prop :=
  (s.lowBoundEnforced = true → s.lowBound ≤ x) ∧
  (s.hiBoundEnforced = true → x ≤ s.hiBound)

namespace ExplicitBracket

/-- The fields after the assignments `xMin_ = xMin; xMax_ = xMax`. -/
def afterRange (s : Solver1D) (xMin xMax : ℚ) : Solver1D :=
  { s with xMin := xMin, xMax := xMax }

/-- The fields after both endpoint evaluations and `evaluationNumber_ = 2`. -/
def afterEvaluations (f : ℚ → ℚ) (s : Solver1D) (xMin xMax : ℚ) : Solver1D :=
  { s with xMin := xMin, xMax := xMax, fxMin := f xMin, fxMax := f xMax,
           evaluationNumber := 2 }

end ExplicitBracket

namespace GuessStep

/-- The stored endpoint values are the values of the objective at the stored endpoints. -/
def ValuesAtEndpoints (f : ℚ → ℚ) (s : Solver1D) : Prop :=
  s.fxMin = f s.xMin ∧ s.fxMax = f s.xMax

end GuessStep

/-- The bound configuration of `s'` is that of `s`. -/
def SameBounds (s s' : Solver1D) : Prop :=
  s'.lowBound = s.lowBound ∧ s'.hiBound = s.hiBound ∧
  s'.lowBoundEnforced = s.lowBoundEnforced ∧ s'.hiBoundEnforced = s.hiBoundEnforced

/-- The solver `s` with its six mutable fields overwritten. -/
def withState (s : Solver1D) (root xMin xMax fxMin fxMax : ℚ) (evaluationNumber : Int) :
    Solver1D :=
  { s with root := root, xMin := xMin, xMax := xMax, fxMin := fxMin, fxMax := fxMax,
           evaluationNumber := evaluationNumber }

namespace GuessStep

/-- The fields when the `while` loop is first reached (lines 53-64), in the case where the
early exit of line 51 is not taken. -/
def initialBracket (f : ℚ → ℚ) (s : Solver1D) (guess step : ℚ) : Solver1D :=
  if 0 < f guess then
    { s with root := guess, fxMax := f guess,
             xMin := s.enforceBounds_ (guess - step),
             fxMin := f (s.enforceBounds_ (guess - step)),
             xMax := guess, evaluationNumber := 2 }
  else
    { s with root := guess, xMin := guess, fxMin := f guess,
             xMax := s.enforceBounds_ (guess + step),
             fxMax := f (s.enforceBounds_ (guess + step)), evaluationNumber := 2 }

/-- The two evaluation points before the `while` loop. -/
def initialEvals (f : ℚ → ℚ) (s : Solver1D) (guess step : ℚ) : List ℚ :=
  if 0 < f guess then [guess, s.enforceBounds_ (guess - step)]
  else [guess, s.enforceBounds_ (guess + step)]

/-- The variables of the `while` loop: `flipflop`, the solver fields, the trace. -/
abbrev LoopVars := Int × Solver1D × List ℚ

/-- The loop variables when the `while` loop is first reached. -/
def initialVars (f : ℚ → ℚ) (s : Solver1D) (guess step : ℚ) : LoopVars :=
  (-1, initialBracket f s guess step, initialEvals f s guess step)

/-- One widening pass of the loop: the loop condition holds at `v`, and the body goes on
with `v'`. -/
def Pass (f : ℚ → ℚ) (xAccuracy : ℚ) (v v' : LoopVars) : Prop :=
  v.2.1.evaluationNumber ≤ v.2.1.maxEvaluations ∧
  loopBody f xAccuracy v.1 v.2.1 v.2.2 = .inr v'

/-- The loop variables `v` occur at the start of some pass (or at the exit) of the loop of
the call `solve(f, xAccuracy, guess, step)`. -/
def Reached (f : ℚ → ℚ) (s : Solver1D) (xAccuracy guess step : ℚ) (v : LoopVars) : Prop :=
  ¬ QL_FABS (f guess) ≤ xAccuracy ∧
  Relation.ReflTransGen (Pass f xAccuracy) (initialVars f s guess step) v

/-- The loop variables `v` occur in the call `solve(f, xAccuracy, guess, step)` after
exactly `passes` widening passes of the loop, `ties` of which found `|fxMin| = |fxMax|`. -/
inductive ReachedAfter (f : ℚ → ℚ) (s : Solver1D) (xAccuracy guess step : ℚ) :
    Nat → Nat → LoopVars → Prop
  | init (h : ¬ QL_FABS (f guess) ≤ xAccuracy) :
      ReachedAfter f s xAccuracy guess step 0 0 (initialVars f s guess step)
  | tiePass {passes ties : Nat} {v v' : LoopVars}
      (hr : ReachedAfter f s xAccuracy guess step passes ties v)
      (hp : Pass f xAccuracy v v') (ht : QL_FABS v.2.1.fxMin = QL_FABS v.2.1.fxMax) :
      ReachedAfter f s xAccuracy guess step (passes + 1) (ties + 1) v'
  | otherPass {passes ties : Nat} {v v' : LoopVars}
      (hr : ReachedAfter f s xAccuracy guess step passes ties v)
      (hp : Pass f xAccuracy v v') (ht : QL_FABS v.2.1.fxMin ≠ QL_FABS v.2.1.fxMax) :
      ReachedAfter f s xAccuracy guess step (passes + 1) ties v'

end GuessStep

end Solver1D

/-! ## Machine numbers

The definitions above take a `double` for an exact rational and an `int` for an integer.
What follows keeps what the machine does to them: a result is rounded to the format, a
result too large becomes an infinity, a result too small becomes zero, an invalid
operation gives a NaN, and an `int` has 32 bits. -/

/-- A C++ `double`: a finite number, an infinity or a NaN.  Which rationals the format
holds is decided by the rounding of the operations; the two zeros are one value. -/
inductive Double
  | finite (q : ℚ)
  | posInf
  | negInf
  | nan
  deriving DecidableEq

namespace Double

/-- The comparison `a < b` of two doubles; it is false when one of them is a NaN. -/
def lt : Double → Double → Bool
  | finite a, finite b => decide (a < b)
  | finite _, posInf => true
  | negInf, finite _ => true
  | negInf, posInf => true
  | _, _ => false

/-- The comparison `a <= b` of two doubles; it is false when one of them is a NaN. -/
def le : Double → Double → Bool
  | finite a, finite b => decide (a ≤ b)
  | finite _, posInf => true
  | negInf, finite _ => true
  | negInf, posInf => true
  | posInf, posInf => true
  | negInf, negInf => true
  | _, _ => false

/-- The comparison `a > b`. -/
def gt (a b : Double) : Bool := lt b a

/-- The comparison `a >= b`. -/
def ge (a b : Double) : Bool := le b a

/-- The comparison `a == b` of two doubles; a NaN is equal to nothing. -/
def eq : Double → Double → Bool
  | finite a, finite b => decide (a = b)
  | posInf, posInf => true
  | negInf, negInf => true
  | _, _ => false

/-- The unary minus, which is exact. -/
def neg : Double → Double
  | finite a => finite (-a)
  | posInf => negInf
  | negInf => posInf
  | nan => nan

/-- The function `std::fabs`, which is exact. -/
def fabs : Double → Double
  | finite a => finite |a|
  | posInf => posInf
  | negInf => posInf
  | nan => nan

/-- The function `std::max`: `(a < b) ? b : a`. -/
def max (a b : Double) : Double := if lt a b then b else a

/-- The sum `a + b`: the exact sum of two finite numbers is rounded by `R`. -/
def add (R : ℚ → Double) : Double → Double → Double
  | finite a, finite b => R (a + b)
  | finite _, posInf => posInf
  | finite _, negInf => negInf
  | posInf, finite _ => posInf
  | posInf, posInf => posInf
  | negInf, finite _ => negInf
  | negInf, negInf => negInf
  | _, _ => nan

/-- The difference `a - b`. -/
def sub (R : ℚ → Double) (a b : Double) : Double := add R a (neg b)

/-- The product `a * b`: the exact product of two finite numbers is rounded by `R`. -/
def mul (R : ℚ → Double) : Double → Double → Double
  | finite a, finite b => R (a * b)
  | finite a, posInf => if 0 < a then posInf else if a < 0 then negInf else nan
  | finite a, negInf => if 0 < a then negInf else if a < 0 then posInf else nan
  | posInf, finite b => if 0 < b then posInf else if b < 0 then negInf else nan
  | negInf, finite b => if 0 < b then negInf else if b < 0 then posInf else nan
  | posInf, posInf => posInf
  | posInf, negInf => negInf
  | negInf, posInf => negInf
  | negInf, negInf => posInf
  | _, _ => nan

/-- The quotient `a / b`: the exact quotient of two finite numbers is rounded by `R`; a
zero divisor (taken as `+0.0`) gives an infinity, or a NaN for `0.0 / 0.0`. -/
def div (R : ℚ → Double) : Double → Double → Double
  | finite a, finite b =>
    if b = 0 then (if 0 < a then posInf else if a < 0 then negInf else nan)
    else R (a / b)
  | finite _, posInf => finite 0
  | finite _, negInf => finite 0
  | posInf, finite b => if 0 ≤ b then posInf else negInf
  | negInf, finite b => if 0 ≤ b then negInf else posInf
  | _, _ => nan

/-- The double `x` is a value of the format whose rounding is `R`: an infinity, or a
finite number that `R` leaves as it is. -/
def InFormat (R : ℚ → Double) : Double → Prop
  | finite a => R a = finite a
  | posInf => True
  | negInf => True
  | nan => False

end Double

/-- Rounding to the nearest integer, a tie going to the even one. -/
def roundHalfEven (x : ℚ) : Int :=
  if x - ⌊x⌋ < 1 / 2 then ⌊x⌋
  else if 1 / 2 < x - ⌊x⌋ then ⌊x⌋ + 1
  else if ⌊x⌋ % 2 = 0 then ⌊x⌋
  else ⌊x⌋ + 1

/-- The exponent of the spacing of the binary64 numbers around `q`: 52 below the exponent
of the binade of `|q|`, which is not taken below `-1022`, that of the subnormal numbers. -/
def spacingExponent (q : ℚ) : Int := max (Int.log 2 |q|) (-1022) - 52

/-- The multiple of the spacing of the binary64 numbers around `q` that is nearest to `q`,
a tie going to the even multiple. -/
def nearestMultiple (q : ℚ) : ℚ :=
  roundHalfEven (q / 2 ^ spacingExponent q) * 2 ^ spacingExponent q

/-- The rounding of IEEE 754 binary64 (the C++ `double`), to nearest with ties to even:
the nearest multiple of the spacing, or an infinity when that is `2^1024` or more. -/
def binary64 (q : ℚ) : Double :=
  if q = 0 then .finite 0
  else if 2 ^ 1024 ≤ |nearestMultiple q| then (if 0 < q then .posInf else .negInf)
  else .finite (nearestMultiple q)

/-- No rounding at all: the arithmetic of the rationals. -/
def exactRounding (q : ℚ) : Double := .finite q

/-- The value that an `int` of 32 bits holds for the integer `z`: outside the range of
`int` the arithmetic wraps around (two's complement; the C++ standard leaves signed
overflow undefined). -/
def wrapInt (z : Int) : Int := (z + 2 ^ 31) % 2 ^ 32 - 2 ^ 31

/-! ## `ql/solver1d.cpp` on machine numbers -/

namespace Machine

/-- The constant `growthFactor = 1.6`: the literal is rounded to the format. -/
def growthFactor (R : ℚ → Double) : Double := R (8 / 5)

/-- Modelled from the spec: the constant `QL_EPSILON` (`ql/qldefines.hpp`, not among the sources), the
machine epsilon `2^-52` of a double. -/
def QL_EPSILON : Double := .finite (1 / 2 ^ 52)

/-- The macro `QL_FABS` (`std::fabs`). -/
abbrev QL_FABS (x : Double) : Double := Double.fabs x

/-- The macro `QL_MAX` (`std::max`). -/
abbrev QL_MAX (a b : Double) : Double := Double.max a b

/-- Modelled from the spec: the fields of the class `Solver1D` (`ql/solver1d.hpp`, not among the
sources), as doubles and `int`s. -/
structure Solver1D where
  root : Double
  xMin : Double
  xMax : Double
  fxMin : Double
  fxMax : Double
  evaluationNumber : Int
  maxEvaluations : Int
  lowBound : Double
  hiBound : Double
  lowBoundEnforced : Bool
  hiBoundEnforced : Bool

/-- The errors thrown by `solver1d.cpp`, one constructor per `QL_REQUIRE`/`throw`; the
numbers that the messages print are fields of the solver. -/
inductive Failure
  /-- Message "invalid range: xMin_ (..) >= xMax_ (..)" -/
  | invalidRange
  /-- Message "xMin_ (..) < enforced low bound (..)" -/
  | belowLowBound
  /-- Message "xMax_ (..) > enforced hi bound (..)" -/
  | aboveHiBound
  /-- Message "root not bracketed: f[..,..] -> [..,..]" -/
  | rootNotBracketed
  /-- Message "Solver1D: guess (..) < xMin_ (..)" -/
  | guessBelowXMin
  /-- Message "Solver1D: guess (..) > xMax_ (..)" -/
  | guessAboveXMax
  /-- Message "unable to bracket root in .. function evaluations (..)" -/
  | unableToBracket
  deriving DecidableEq

/-- The error kind of the spec to which each thrown error belongs. -/
def Failure.kind : Failure → ErrorKind
  | .invalidRange => .InvalidRange
  | .belowLowBound => .BoundViolation
  | .aboveHiBound => .BoundViolation
  | .rootNotBracketed => .RootNotBracketed
  | .guessBelowXMin => .GuessOutOfRange
  | .guessAboveXMax => .GuessOutOfRange
  | .unableToBracket => .BracketingFailed

/-- How the code of an entry point ends: by `return x`, by a thrown error, or by the tail
call `solve_(f, accuracy)`. -/
inductive Step
  | returned (x : Double)
  | failed (e : Failure)
  | refine (accuracy : Double)

/-- The end of an entry point: how it ended and the solver fields at that moment. -/
structure Outcome where
  result : Step
  state : Solver1D

/-- The entry point ended by throwing an error of kind `k`. -/
def Outcome.FailsWith (o : Outcome) (k : ErrorKind) : Prop :=
  ∃ e, o.result = .failed e ∧ e.kind = k

namespace Solver1D

/-- Modelled from the spec: `enforceBounds_` (`ql/solver1d.hpp`, not among the sources) clamps a
candidate beyond an enforced bound to that bound. -/
def enforceBounds_ (s : Solver1D) (x : Double) : Double :=
  if s.lowBoundEnforced = true ∧ Double.lt x s.lowBound = true then s.lowBound
  else if s.hiBoundEnforced = true ∧ Double.gt x s.hiBound = true then s.hiBound
  else x

/-- The point `x` respects the bounds that are enforced. -/
def WithinBounds (s : Solver1D) (x : Double) : Prop :=
  (s.lowBoundEnforced = true → Double.le s.lowBound x = true) ∧
  (s.hiBoundEnforced = true → Double.le x s.hiBound = true)

namespace ExplicitBracket

/-- The body of `Solver1D::solve(f, xAccuracy, guess, xMin, xMax)` up to its end
(`return`, a failed `QL_REQUIRE`, or the call of `solve_`), with the arithmetic rounded
by `R`. -/
def entry (R : ℚ → Double) (f : Double → Double) (s : Solver1D)
    (xAccuracy guess xMin xMax : Double) : Outcome :=
  let s := { s with xMin := xMin }
  let s := { s with xMax := xMax }
  if ¬ (Double.lt s.xMin s.xMax = true) then
    ⟨.failed .invalidRange, s⟩
  else if ¬ (s.lowBoundEnforced = false ∨ Double.ge s.xMin s.lowBound = true) then
    ⟨.failed .belowLowBound, s⟩
  else if ¬ (s.hiBoundEnforced = false ∨ Double.le s.xMax s.hiBound = true) then
    ⟨.failed .aboveHiBound, s⟩
  else
    let s := { s with fxMin := f s.xMin }
    if Double.lt (QL_FABS s.fxMin) xAccuracy = true then
      ⟨.returned s.xMin, s⟩
    else
      let s := { s with fxMax := f s.xMax }
      if Double.lt (QL_FABS s.fxMax) xAccuracy = true then
        ⟨.returned s.xMax, s⟩
      else
        let s := { s with evaluationNumber := 2 }
        if ¬ (Double.lt (Double.mul R s.fxMin s.fxMax) (.finite 0) = true) then
          ⟨.failed .rootNotBracketed, s⟩
        else if ¬ (Double.gt guess s.xMin = true) then
          ⟨.failed .guessBelowXMin, s⟩
        else if ¬ (Double.lt guess s.xMax = true) then
          ⟨.failed .guessAboveXMax, s⟩
        else
          let s := { s with root := guess }
          ⟨.refine (QL_MAX (QL_FABS xAccuracy) QL_EPSILON), s⟩

end ExplicitBracket

namespace GuessStep

/-- One pass through the body of the `while` loop (lines 66-89), entered with the loop
condition true: either the call ends (`Sum.inl`), or the bracket is widened and the loop
goes on with a new `flipflop` and new fields (`Sum.inr`). -/
def loopBody (R : ℚ → Double) (f : Double → Double) (xAccuracy : Double) (flipflop : Int)
    (s : Solver1D) : Outcome ⊕ (Int × Solver1D) :=
  if Double.le (Double.mul R s.fxMin s.fxMax) (.finite 0) = true then
    if Double.eq s.fxMin (.finite 0) = true then .inl ⟨.returned s.xMin, s⟩
    else if Double.eq s.fxMax (.finite 0) = true then .inl ⟨.returned s.xMax, s⟩
    else
      let s := { s with root := Double.div R (Double.add R s.xMax s.xMin) (.finite 2) }
      .inl ⟨.refine (QL_MAX (QL_FABS xAccuracy) QL_EPSILON), s⟩
  else if Double.lt (QL_FABS s.fxMin) (QL_FABS s.fxMax) = true then
    let candidate :=
      Double.add R s.xMin (Double.mul R (growthFactor R) (Double.sub R s.xMin s.xMax))
    let s := { s with xMin := s.enforceBounds_ candidate }
    let s := { s with fxMin := f s.xMin }
    .inr (flipflop, { s with evaluationNumber := wrapInt (s.evaluationNumber + 1) })
  else if Double.gt (QL_FABS s.fxMin) (QL_FABS s.fxMax) = true then
    let candidate :=
      Double.add R s.xMax (Double.mul R (growthFactor R) (Double.sub R s.xMax s.xMin))
    let s := { s with xMax := s.enforceBounds_ candidate }
    let s := { s with fxMax := f s.xMax }
    .inr (flipflop, { s with evaluationNumber := wrapInt (s.evaluationNumber + 1) })
  else if flipflop = -1 then
    let candidate :=
      Double.add R s.xMin (Double.mul R (growthFactor R) (Double.sub R s.xMin s.xMax))
    let s := { s with xMin := s.enforceBounds_ candidate }
    let s := { s with fxMin := f s.xMin }
    let s := { s with evaluationNumber := wrapInt (s.evaluationNumber + 1) }
    .inr (1, { s with evaluationNumber := wrapInt (s.evaluationNumber + 1) })
  else if flipflop = 1 then
    let candidate :=
      Double.add R s.xMax (Double.mul R (growthFactor R) (Double.sub R s.xMax s.xMin))
    let s := { s with xMax := s.enforceBounds_ candidate }
    let s := { s with fxMax := f s.xMax }
    .inr (-1, { s with evaluationNumber := wrapInt (s.evaluationNumber + 1) })
  else
    .inr (flipflop, { s with evaluationNumber := wrapInt (s.evaluationNumber + 1) })

/-- The `while (evaluationNumber_ <= maxEvaluations_)` loop and the `throw` after it.  The
first argument bounds the number of passes; `none` means that the loop was still running
after that many. -/
def bracketLoop (R : ℚ → Double) (f : Double → Double) (xAccuracy : Double) :
    Nat → Int → Solver1D → Option Outcome
  | 0, _, s =>
    if s.evaluationNumber ≤ s.maxEvaluations then none
    else some ⟨.failed .unableToBracket, s⟩
  | fuel + 1, flipflop, s =>
    if s.evaluationNumber ≤ s.maxEvaluations then
      match loopBody R f xAccuracy flipflop s with
      | .inl out => some out
      | .inr (flipflop, s) => bracketLoop R f xAccuracy fuel flipflop s
    else some ⟨.failed .unableToBracket, s⟩

/-- The fields when the `while` loop is first reached (lines 53-64), in the case where the
early exit of line 51 is not taken. -/
def initialBracket (R : ℚ → Double) (f : Double → Double) (s : Solver1D)
    (guess step : Double) : Solver1D :=
  if Double.gt (f guess) (.finite 0) = true then
    { s with root := guess, fxMax := f guess,
             xMin := s.enforceBounds_ (Double.sub R guess step),
             fxMin := f (s.enforceBounds_ (Double.sub R guess step)),
             xMax := guess, evaluationNumber := 2 }
  else
    { s with root := guess, xMin := guess, fxMin := f guess,
             xMax := s.enforceBounds_ (Double.add R guess step),
             fxMax := f (s.enforceBounds_ (Double.add R guess step)), evaluationNumber := 2 }

/-- The body of `Solver1D::solve(f, xAccuracy, guess, step)` up to its end (`return`,
`throw`, or the call of `solve_`), the loop making at most `passes` passes. -/
def entry (R : ℚ → Double) (f : Double → Double) (s : Solver1D)
    (xAccuracy guess step : Double) (passes : Nat) : Option Outcome :=
  let flipflop : Int := -1
  let s := { s with root := guess }
  let s := { s with fxMax := f s.root }
  if Double.le (QL_FABS s.fxMax) xAccuracy = true then
    some ⟨.returned s.root, s⟩
  else if Double.gt s.fxMax (.finite 0) = true then
    let s := { s with xMin := s.enforceBounds_ (Double.sub R s.root step) }
    let s := { s with fxMin := f s.xMin }
    let s := { s with xMax := s.root }
    let s := { s with evaluationNumber := 2 }
    bracketLoop R f xAccuracy passes flipflop s
  else
    let s := { s with xMin := s.root }
    let s := { s with fxMin := s.fxMax }
    let s := { s with xMax := s.enforceBounds_ (Double.add R s.root step) }
    let s := { s with fxMax := f s.xMax }
    let s := { s with evaluationNumber := 2 }
    bracketLoop R f xAccuracy passes flipflop s

/-- The variables of the `while` loop: `flipflop` and the solver fields. -/
abbrev LoopVars := Int × Solver1D

/-- One widening pass of the loop: the loop condition holds at `v`, and the body goes on
with `v'`. -/
def Pass (R : ℚ → Double) (f : Double → Double) (xAccuracy : Double) (v v' : LoopVars) : Prop :=
  v.2.evaluationNumber ≤ v.2.maxEvaluations ∧
  loopBody R f xAccuracy v.1 v.2 = .inr v'

/-- The loop variables `v` occur at the start of some pass (or at the exit) of the loop of
the call `solve(f, xAccuracy, guess, step)`. -/
def Reached (R : ℚ → Double) (f : Double → Double) (s : Solver1D)
    (xAccuracy guess step : Double) (v : LoopVars) : Prop :=
  ¬ (Double.le (Double.fabs (f guess)) xAccuracy = true) ∧
  Relation.ReflTransGen (Pass R f xAccuracy) (-1, initialBracket R f s guess step) v

end GuessStep

end Solver1D

/-- A solver with no bound enforced and a budget of 100 evaluations. -/
def plainSolver : Solver1D :=
  { root := .finite 0, xMin := .finite 0, xMax := .finite 0, fxMin := .finite 0,
    fxMax := .finite 0, evaluationNumber := 0, maxEvaluations := 100,
    lowBound := .finite 0, hiBound := .finite 0,
    lowBoundEnforced := false, hiBoundEnforced := false }

/-! ### Objectives used at concrete inputs -/

/-- The objective `f(x) = 2^-600 * x`, in binary64 arithmetic. -/
def tinySlope (x : Double) : Double := Double.mul binary64 (.finite (2 ^ (-600 : Int))) x

/-- The objective `f(x) = 2 x - 1`, in binary64 arithmetic. -/
def twiceMinusOne (x : Double) : Double :=
  Double.sub binary64 (Double.mul binary64 (.finite 2) x) (.finite 1)

/-- The objective `f(x) = x^2 - 4`, in binary64 arithmetic. -/
def squareMinusFour (x : Double) : Double :=
  Double.sub binary64 (Double.mul binary64 x x) (.finite 4)

end Machine

namespace Double

/-- The properties of a rounding to nearest on which the ordering of the bracket rests: it
is monotone, it leaves the numbers of the format as they are, zero is a number of the
format, and the double of a number of the format is in the format unless it overflows. -/
structure IsRounding (R : ℚ → Double) : Prop where
  monotone : ∀ a b : ℚ, a ≤ b → le (R a) (R b) = true
  idempotent : ∀ a b : ℚ, R a = finite b → R b = finite b
  zero : R 0 = finite 0
  doubling : ∀ a : ℚ, R a = finite a →
    R (2 * a) = finite (2 * a) ∨ R (2 * a) = posInf ∨ R (2 * a) = negInf

end Double

namespace Machine

namespace Solver1D

namespace GuessStep

/-- The candidate `xMin_+growthFactor*(xMin_ - xMax_)` of a widening pass (lines 74, 80). -/
def lowerCandidate (R : ℚ → Double) (s : Solver1D) : Double :=
  Double.add R s.xMin (Double.mul R (growthFactor R) (Double.sub R s.xMin s.xMax))

/-- The candidate `xMax_+growthFactor*(xMax_ - xMin_)` of a widening pass (lines 77, 85). -/
def upperCandidate (R : ℚ → Double) (s : Solver1D) : Double :=
  Double.add R s.xMax (Double.mul R (growthFactor R) (Double.sub R s.xMax s.xMin))

/-- The stored endpoint values are the values of the objective at the stored endpoints. -/
def ValuesAtEndpoints (f : Double → Double) (s : Solver1D) : Prop :=
  s.fxMin = f s.xMin ∧ s.fxMax = f s.xMax

end GuessStep

/-- The bracket of `t` is ordered around the guess `γ`: its endpoints are values of the
format, `xMin <= γ <= xMax`, and they respect the bounds that `s` enforces. -/
def Ordered (R : ℚ → Double) (s : Solver1D) (γ : ℚ) (t : Solver1D) : Prop :=
  Double.InFormat R t.xMin ∧ Double.InFormat R t.xMax ∧
  Double.le t.xMin (.finite γ) = true ∧ Double.le (.finite γ) t.xMax = true ∧
  (s.lowBoundEnforced = true → Double.le s.lowBound t.xMin = true) ∧
  (s.hiBoundEnforced = true → Double.le t.xMax s.hiBound = true)

/-- The configuration (bounds and budget) of `s'` is that of `s`. -/
def SameConfig (s s' : Solver1D) : Prop :=
  s'.lowBound = s.lowBound ∧ s'.hiBound = s.hiBound ∧
  s'.lowBoundEnforced = s.lowBoundEnforced ∧ s'.hiBoundEnforced = s.hiBoundEnforced ∧
  s'.maxEvaluations = s.maxEvaluations

end Solver1D

/-- The constant objective `f(x) = 1`. -/
def constantOne (_ : Double) : Double := .finite 1

/-- The constant objective `f(x) = 2^-600`. -/
def constantTiny (_ : Double) : Double := .finite (2 ^ (-600 : Int))

/-- The objective that is `-1` up to `2^1023` and `1` above it. -/
def stepAtHuge (x : Double) : Double :=
  if Double.le x (.finite (2 ^ (1023 : Int))) = true then .finite (-1) else .finite 1

/-- The objective `f(x) = x - 3`, in binary64 arithmetic. -/
def minusThree (x : Double) : Double := Double.sub binary64 x (.finite 3)

/-- The objective `f(x) = x + 5`, in binary64 arithmetic. -/
def plusFive (x : Double) : Double := Double.add binary64 x (.finite 5)

/-- The objective `f(x) = x`. -/
def identity (x : Double) : Double := x

end Machine

/-! ## `ql/Math/riskmeasures.hpp` -/

namespace Math

/-- The function objects of `ql/Math/normaldistribution.hpp`, which is not among the
sources, taken as parameters: `InvCumulativeNormalDistribution mean std x` stands for
`InvCumulativeNormalDistribution(mean, std)(x)` and `NormalDistribution mean std x` for
`NormalDistribution(mean, std)(x)`. -/
structure Distributions where
  InvCumulativeNormalDistribution : ℚ → ℚ → ℚ → ℚ
  NormalDistribution : ℚ → ℚ → ℚ → ℚ

/-- A use of a distribution object: its construction with `(mean, std)` and its
evaluation at `x`. -/
inductive DistributionCall
  | gInverse (mean std x : ℚ)
  | g (mean std x : ℚ)

/-- The errors thrown by the `QL_REQUIRE`s of `riskmeasures.hpp`, one per function, with
the percentile that the message prints ("percentile (..) out of range 90%-100%"). -/
inductive RiskMeasuresError
  | potentialUpsidePercentile (percentile : ℚ)
  | valueAtRiskPercentile (percentile : ℚ)
  | expectedShortfallPercentile (percentile : ℚ)

/-- The end of a call of a risk measure: the value or the error, and the uses of the
distribution objects made by the call, in order. -/
structure RiskOutcome where
  result : Except RiskMeasuresError ℚ
  calls : List DistributionCall

namespace RiskMeasures

/-- The function `RiskMeasures::potentialUpside(percentile, mean, std)`. -/
def potentialUpside (d : Distributions) (percentile mean std : ℚ) : RiskOutcome :=
  if ¬ (percentile < 1 ∧ percentile ≥ 9 / 10) then
    ⟨.error (.potentialUpsidePercentile percentile), []⟩
  else
    let gInverse := d.InvCumulativeNormalDistribution mean std
    ⟨.ok (QL_MAX (gInverse percentile) 0), [.gInverse mean std percentile]⟩

/-- The function `RiskMeasures::valueAtRisk(percentile, mean, std)`. -/
def valueAtRisk (d : Distributions) (percentile mean std : ℚ) : RiskOutcome :=
  if ¬ (percentile < 1 ∧ percentile ≥ 9 / 10) then
    ⟨.error (.valueAtRiskPercentile percentile), []⟩
  else
    let gInverse := d.InvCumulativeNormalDistribution mean std
    ⟨.ok (-QL_MIN (gInverse (1 - percentile)) 0), [.gInverse mean std (1 - percentile)]⟩

/-- The function `RiskMeasures::expectedShortfall(percentile, mean, std)`. -/
def expectedShortfall (d : Distributions) (percentile mean std : ℚ) : RiskOutcome :=
  if ¬ (percentile < 1 ∧ percentile ≥ 9 / 10) then
    ⟨.error (.expectedShortfallPercentile percentile), []⟩
  else
    let gInverse := d.InvCumulativeNormalDistribution mean std
    let var := gInverse (1 - percentile)
    let g := d.NormalDistribution mean std
    let result := mean - std * std * g var / (1 - percentile)
    ⟨.ok (-QL_MIN result 0), [.gInverse mean std (1 - percentile), .g mean std var]⟩

end RiskMeasures

/-- The call failed its precondition check. -/
def RiskOutcome.Fails (o : RiskOutcome) : Prop := ∃ e, o.result = .error e

/-- Distributions used at concrete inputs: a quantile function `mean + std * (4x - 2)` and
a density that is constantly `1/4`. -/
def sampleDistributions : Distributions :=
  { InvCumulativeNormalDistribution := fun mean std x => mean + std * (4 * x - 2),
    NormalDistribution := fun _ _ _ => 1 / 4 }

end Math

/-! ## `ql/termstructures/yield/forwardcurve.hpp` -/

/-- Dates, as serial day numbers. -/
abbrev Date := Int

/-- What the constructor of `InterpolatedForwardCurve<T>` uses and the sources do not
define, taken as parameters: `T::requiredPoints`, `dayCounter.yearFraction(d1, d2)` and
`close(x, y)` of `ql/math/comparison.hpp`. -/
structure CurveEnv where
  requiredPoints : Nat
  yearFraction : Date → Date → ℚ
  close : ℚ → ℚ → Bool

/-- The ways in which the constructor of `InterpolatedForwardCurve` does not construct a
curve: the failed `QL_REQUIRE`s, and the read of `dates.front()` on an empty vector. -/
inductive CurveError
  /-- No message: `dates.front()` (line 178) on an empty vector is undefined behaviour;
  nothing is said about what follows it. -/
  | frontOfEmpty
  /-- Message "not enough input dates given" -/
  | notEnoughDates
  /-- Message "dates/data count mismatch" -/
  | countMismatch
  /-- Message "invalid date (.., vs ..)" -/
  | invalidDate (date previous : Date)
  /-- Message "negative forward" -/
  | negativeForward
  /-- Message "two dates correspond to the same time under this curve's day count convention" -/
  | sameTime

/-- The members `dates_`, `data_` and `times_` of a constructed curve (the interpolation
object built from them at the end of the constructor is not part of the model). -/
structure InterpolatedForwardCurve where
  dates : List Date
  data : List ℚ
  times : List ℚ

namespace InterpolatedForwardCurve

/-- The loop `for (Size i=1; i<dates_.size(); ++i)` of the constructor (lines 189-200),
compiled without `QL_NEGATIVE_RATES`: the second argument is the index `i`, the third the
number of passes still to make, the fourth `times_`. -/
def timesLoop (env : CurveEnv) (dates : List Date) (data : List ℚ) :
    Nat → Nat → List ℚ → Except CurveError (List ℚ)
  | _, 0, times => .ok times
  | i, k + 1, times =>
    if ¬ (dates.getD i 0 > dates.getD (i - 1) 0) then
      .error (.invalidDate (dates.getD i 0) (dates.getD (i - 1) 0))
    else if ¬ (data.getD i 0 ≥ 0) then
      .error .negativeForward
    else
      let times := times.set i (env.yearFraction (dates.getD 0 0) (dates.getD i 0))
      if env.close (times.getD i 0) (times.getD (i - 1) 0) = true then
        .error .sameTime
      else
        timesLoop env dates data (i + 1) k times

/-- The constructor `InterpolatedForwardCurve(dates, forwards, dayCounter, calendar,
interpolator)` (lines 171-207).  The initialiser of the base class reads `dates.front()`
before the body makes any check. -/
def construct (env : CurveEnv) (dates : List Date) (forwards : List ℚ) :
    Except CurveError InterpolatedForwardCurve :=
  if dates = [] then .error .frontOfEmpty
  else if ¬ (dates.length ≥ env.requiredPoints) then .error .notEnoughDates
  else if ¬ (forwards.length = dates.length) then .error .countMismatch
  else
    let times := List.replicate dates.length (0 : ℚ)
    let times := times.set 0 0
    match timesLoop env dates forwards 1 (dates.length - 1) times with
    | .error e => .error e
    | .ok times => .ok ⟨dates, forwards, times⟩

end InterpolatedForwardCurve

/-- An environment for concrete inputs: two points required, the Actual/365 year fraction,
and `close` as equality. -/
def sampleCurveEnv : CurveEnv :=
  { requiredPoints := 2,
    yearFraction := fun d1 d2 => ((d2 - d1 : Int) : ℚ) / 365,
    close := fun x y => decide (x = y) }

/-! ## `ql/MonteCarlo/getcovariance.cpp` -/

/-- The class `Matrix` (`ql/Math/matrix.hpp`, not among the sources), with what the
constructor uses of it: the numbers of rows and columns and the entries `cov[i][j]`, which
are doubles. -/
structure Matrix where
  rows : Nat
  columns : Nat
  entry : Nat → Nat → Double

/-- The failed `QL_REQUIRE`s of the constructor of `CovarianceDecomposition`. -/
inductive CovarianceError
  /-- Message "input covariance matrix must be square" -/
  | notSquare
  /-- Message "invalid covariance matrix: c[i, j] = .. c[j, i] = .." -/
  | invalidCovariance (i j : Nat) (cij cji : Double)

/-- The members `variances_`, `standardDeviations_` and `correlationMatrix_`, as functions of
the indices. -/
structure CovarianceDecomposition where
  variances : Nat → Double
  standardDeviations : Nat → Double
  correlationMatrix : Nat → Nat → Double

namespace CovarianceDecomposition

/-- The assignment `a[i] = x`. -/
def setAt (a : Nat → Double) (i : Nat) (x : Double) : Nat → Double :=
  fun k => if k = i then x else a k

/-- The assignment `m[i][j] = x`. -/
def setAt2 (m : Nat → Nat → Double) (i j : Nat) (x : Double) : Nat → Nat → Double :=
  fun k l => if k = i ∧ l = j then x else m k l

/-- The condition `std::fabs(cov[i][j]-cov[j][i]) <= tolerance` of line 41, the difference
being rounded by `R`. -/
def withinTolerance (R : ℚ → Double) (cov : Matrix) (tolerance : Double) (i j : Nat) : Bool :=
  Double.le (Double.fabs (Double.sub R (cov.entry i j) (cov.entry j i))) tolerance

/-- The expression `cov[i][j]/(sd[i]*sd[j])` of lines 45-46 for the standard deviations
`sd`, the product and the quotient being rounded by `R`. -/
def quotient (R : ℚ → Double) (cov : Matrix) (sd : Nat → Double) (i j : Nat) : Double :=
  Double.div R (cov.entry i j) (Double.mul R (sd i) (sd j))

/-- The body of the inner loop (lines 40-47) for the indices `i`, `j`. -/
def innerBody (R : ℚ → Double) (cov : Matrix) (tolerance : Double) (i j : Nat)
    (d : CovarianceDecomposition) : Except CovarianceError CovarianceDecomposition :=
  if ¬ (withinTolerance R cov tolerance i j = true) then
    .error (.invalidCovariance i j (cov.entry i j) (cov.entry j i))
  else
    let c := quotient R cov d.standardDeviations i j
    let d := { d with correlationMatrix := setAt2 d.correlationMatrix i j c }
    .ok { d with correlationMatrix := setAt2 d.correlationMatrix j i (d.correlationMatrix i j) }

/-- The first `n` passes `j = 0, .., n-1` of the inner loop `for (j=0; j<i; j++)`, in
order. -/
def innerLoop (R : ℚ → Double) (cov : Matrix) (tolerance : Double) (i : Nat) :
    Nat → CovarianceDecomposition → Except CovarianceError CovarianceDecomposition
  | 0, d => .ok d
  | n + 1, d =>
    match innerLoop R cov tolerance i n d with
    | .error e => .error e
    | .ok d => innerBody R cov tolerance i n d

/-- The body of the outer loop (lines 36-47) for the index `i`; `sqrt` stands for
`std::sqrt`. -/
def outerBody (R : ℚ → Double) (sqrt : Double → Double) (cov : Matrix) (tolerance : Double)
    (i : Nat) (d : CovarianceDecomposition) :
    Except CovarianceError CovarianceDecomposition :=
  let d := { d with variances := setAt d.variances i (cov.entry i i) }
  let d := { d with standardDeviations := setAt d.standardDeviations i (sqrt (cov.entry i i)) }
  let d := { d with correlationMatrix := setAt2 d.correlationMatrix i i (.finite 1) }
  innerLoop R cov tolerance i i d

/-- The first `n` passes `i = 0, .., n-1` of the outer loop `for (i=0; i<size; i++)`, in
order. -/
def outerLoop (R : ℚ → Double) (sqrt : Double → Double) (cov : Matrix) (tolerance : Double) :
    Nat → CovarianceDecomposition → Except CovarianceError CovarianceDecomposition
  | 0, d => .ok d
  | n + 1, d =>
    match outerLoop R sqrt cov tolerance n d with
    | .error e => .error e
    | .ok d => outerBody R sqrt cov tolerance n d

/-- The constructor `CovarianceDecomposition(cov, tolerance)`, with the arithmetic rounded
by `R`; the members start from `initial` (the contents of the freshly allocated arrays). -/
def construct (R : ℚ → Double) (sqrt : Double → Double) (initial : CovarianceDecomposition)
    (cov : Matrix) (tolerance : Double) : Except CovarianceError CovarianceDecomposition :=
  let size := cov.rows
  if ¬ (size = cov.columns) then .error .notSquare
  else outerLoop R sqrt cov tolerance size initial

/-- The standard deviations that the constructor computes for `cov`. -/
def deviations (sqrt : Double → Double) (cov : Matrix) : Nat → Double :=
  fun i => sqrt (cov.entry i i)

/-- The decomposition for the covariance matrix `cov` and the square-root function `sqrt`
holds on the first `n` indices: variances, standard deviations, unit diagonal, the
lower triangle computed from `cov[i][j]`, and its mirror. -/
def DecomposesUpTo (R : ℚ → Double) (sqrt : Double → Double) (cov : Matrix) (n : Nat)
    (d : CovarianceDecomposition) : Prop :=
  (∀ i, i < n → d.variances i = cov.entry i i ∧
    d.standardDeviations i = sqrt (cov.entry i i) ∧ d.correlationMatrix i i = .finite 1) ∧
  (∀ i j, j < i → i < n →
    d.correlationMatrix i j = quotient R cov (deviations sqrt cov) i j ∧
    d.correlationMatrix j i = d.correlationMatrix i j)

/-- Row `i` has been started and its first `m` columns are done. -/
def RowUpTo (R : ℚ → Double) (sqrt : Double → Double) (cov : Matrix) (i m : Nat)
    (d : CovarianceDecomposition) : Prop :=
  DecomposesUpTo R sqrt cov i d ∧
  (d.variances i = cov.entry i i ∧ d.standardDeviations i = sqrt (cov.entry i i) ∧
    d.correlationMatrix i i = .finite 1) ∧
  (∀ j, j < m →
    d.correlationMatrix i j = quotient R cov (deviations sqrt cov) i j ∧
    d.correlationMatrix j i = d.correlationMatrix i j)

/-- The lower triangle of `cov` on the first `n` indices passes the test of line 41. -/
def SymmetricUpTo (R : ℚ → Double) (cov : Matrix) (tolerance : Double) (n : Nat) : Prop :=
  ∀ i j, j < i → i < n → withinTolerance R cov tolerance i j = true

end CovarianceDecomposition

/-- A square-root function for concrete inputs, right on `0`, `4` and `9`. -/
def sampleSqrt (x : Double) : Double :=
  if x = .finite 4 then .finite 2 else if x = .finite 9 then .finite 3 else .finite 0

/-- The covariance matrix `[[4, 2], [2, 9]]`. -/
def sampleCovariance : Matrix :=
  { rows := 2, columns := 2,
    entry := fun i j => if i = j then (if i = 0 then .finite 4 else .finite 9) else .finite 2 }

/-- The covariance matrix `[[0, 0], [0, 4]]`, whose first variance is zero. -/
def zeroVarianceCovariance : Matrix :=
  { rows := 2, columns := 2,
    entry := fun i j => if i = 1 ∧ j = 1 then .finite 4 else .finite 0 }

/-- Arrays and matrix filled with zeros. -/
def zeroDecomposition : CovarianceDecomposition :=
  { variances := fun _ => .finite 0, standardDeviations := fun _ => .finite 0,
    correlationMatrix := fun _ _ => .finite 0 }

/-! ## `ql/index.hpp` -/

/-- The class `TimeSeries<Real>` (not among the sources), with what `addFixings` uses of
it: a map from dates to values, copied by value. -/
abbrev TimeSeries := Date → Option ℚ

/-- The assignment `h[d] = v`. -/
def TimeSeries.insert (h : TimeSeries) (d : Date) (v : ℚ) : TimeSeries :=
  fun d' => if d' = d then some v else h d'

/-- The singleton `IndexManager::instance()` (`ql/Indexes/indexmanager.hpp`, not among the
sources), with what `addFixings` uses of it: the history stored under each tag. -/
abbrev IndexManager := String → TimeSeries

/-- The call `getHistory(tag)`. -/
def IndexManager.getHistory (m : IndexManager) (tag : String) : TimeSeries := m tag

/-- The call `setHistory(tag, h)`. -/
def IndexManager.setHistory (m : IndexManager) (tag : String) (h : TimeSeries) :
    IndexManager :=
  fun t => if t = tag then h else m t

/-- The pure virtual members of `Index` that `addFixings` calls. -/
structure Index where
  name : String
  isValidFixingDate : Date → Bool

/-- The failed `QL_REQUIRE` of `addFixings` ("Fixing date .. is not valid"). -/
inductive IndexError
  | invalidFixingDate (d : Date)

namespace Index

/-- The loop `while (dBegin != dEnd)` of `addFixings` (lines 70-75) on the local copy `h`;
the two iterators advance together, so the range is a list of (date, value) pairs. -/
def addFixingsLoop (index : Index) : List (Date × ℚ) → TimeSeries → Except IndexError TimeSeries
  | [], h => .ok h
  | (d, v) :: rest, h =>
    if ¬ (index.isValidFixingDate d = true) then .error (.invalidFixingDate d)
    else addFixingsLoop index rest (h.insert d v)

/-- The function `Index::addFixings(dBegin, dEnd, vBegin)`: the outcome of the call and the
index manager after it. -/
def addFixings (index : Index) (manager : IndexManager) (fixings : List (Date × ℚ)) :
    Except IndexError Unit × IndexManager :=
  let tag := index.name
  let h := manager.getHistory tag
  match addFixingsLoop index fixings h with
  | .error e => (.error e, manager)
  | .ok h => (.ok (), manager.setHistory tag h)

end Index

/-- An index for concrete inputs, whose valid fixing dates are the non-negative ones. -/
def sampleIndex : Index :=
  { name := "Euribor6M", isValidFixingDate := fun d => decide (0 ≤ d) }

/-- An index manager with no stored fixing. -/
def emptyManager : IndexManager := fun _ _ => none

namespace Solver1D

/-! ## Shared lemmas -/

theorem QL_EPSILON_pos : 0 < QL_EPSILON := by
  unfold QL_EPSILON; positivity

theorem effectiveAccuracy_pos (xAccuracy : ℚ) :
    0 < QL_MAX (QL_FABS xAccuracy) QL_EPSILON :=
  lt_max_of_lt_right QL_EPSILON_pos

theorem accuracyHook_meetsContract (f : ℚ → ℚ) (hf : ∀ x, f x = x) :
    accuracyHook.MeetsContract f := by
  intro accuracy s x h
  unfold accuracyHook at h
  split_ifs at h with h0
  cases h
  rw [hf, abs_of_nonneg h0]

namespace ExplicitBracket

/-- A value returned by the entry itself is one of the two endpoints, with `|f| < xAccuracy`. -/
theorem returned_lt (f : ℚ → ℚ) (s : Solver1D) (xAccuracy guess xMin xMax x : ℚ)
    (h : (entry f s xAccuracy guess xMin xMax).result = .returned x) :
    (x = xMin ∨ x = xMax) ∧ |f x| < xAccuracy := by
  simp only [entry] at h
  split_ifs at h <;> simp_all

/-- The accuracy handed to `solve_` is `max(|xAccuracy|, QL_EPSILON)`. -/
theorem refine_accuracy (f : ℚ → ℚ) (s : Solver1D) (xAccuracy guess xMin xMax acc : ℚ)
    (h : (entry f s xAccuracy guess xMin xMax).result = .refine acc) :
    acc = QL_MAX (QL_FABS xAccuracy) QL_EPSILON := by
  simp only [entry] at h
  split_ifs at h
  simp_all

/-- The entry in the case where every check passes. -/
theorem entry_of_bracket (f : ℚ → ℚ) (s : Solver1D) (xAccuracy guess xMin xMax : ℚ)
    (hlt : xMin < xMax) (hb : BracketWithinBounds s xMin xMax)
    (h1 : xAccuracy ≤ |f xMin|) (h2 : xAccuracy ≤ |f xMax|)
    (hs : f xMin * f xMax < 0) (hg1 : xMin < guess) (hg2 : guess < xMax) :
    entry f s xAccuracy guess xMin xMax =
      ⟨.refine (QL_MAX (QL_FABS xAccuracy) QL_EPSILON),
       { s with xMin := xMin, xMax := xMax, fxMin := f xMin, fxMax := f xMax,
                evaluationNumber := 2, root := guess },
       [xMin, xMax]⟩ := by
  obtain ⟨hlo, hhi⟩ := hb
  have e1 : (s.lowBoundEnforced = false ∨ s.lowBound ≤ xMin) := by
    cases hl : s.lowBoundEnforced
    · exact Or.inl rfl
    · exact Or.inr (hlo hl)
  have e2 : (s.hiBoundEnforced = false ∨ xMax ≤ s.hiBound) := by
    cases hl : s.hiBoundEnforced
    · exact Or.inl rfl
    · exact Or.inr (hhi hl)
  simp only [entry, ge_iff_le, gt_iff_lt, hlt, not_true_eq_false, if_false, e1, e2,
    not_lt.mpr h1, not_lt.mpr h2, hs, hg1, hg2]

/-- The entry once the range check and the two bound checks have passed. -/
theorem entry_of_valid (f : ℚ → ℚ) (s : Solver1D) (xAccuracy guess xMin xMax : ℚ)
    (hlt : xMin < xMax) (hb : BracketWithinBounds s xMin xMax) :
    entry f s xAccuracy guess xMin xMax =
      if |f xMin| < xAccuracy then
        ⟨.returned xMin, { afterRange s xMin xMax with fxMin := f xMin }, [xMin]⟩
      else if |f xMax| < xAccuracy then
        ⟨.returned xMax, { afterRange s xMin xMax with fxMin := f xMin, fxMax := f xMax },
          [xMin, xMax]⟩
      else if ¬ (f xMin * f xMax < 0) then
        ⟨.failed (.rootNotBracketed xMin xMax (f xMin) (f xMax)),
          afterEvaluations f s xMin xMax, [xMin, xMax]⟩
      else if ¬ (xMin < guess) then
        ⟨.failed (.guessBelowXMin guess xMin), afterEvaluations f s xMin xMax, [xMin, xMax]⟩
      else if ¬ (guess < xMax) then
        ⟨.failed (.guessAboveXMax guess xMax), afterEvaluations f s xMin xMax, [xMin, xMax]⟩
      else
        ⟨.refine (QL_MAX (QL_FABS xAccuracy) QL_EPSILON),
          { afterEvaluations f s xMin xMax with root := guess }, [xMin, xMax]⟩ := by
  obtain ⟨hlo, hhi⟩ := hb
  have e1 : (s.lowBoundEnforced = false ∨ s.lowBound ≤ xMin) := by
    cases hl : s.lowBoundEnforced
    · exact Or.inl rfl
    · exact Or.inr (hlo hl)
  have e2 : (s.hiBoundEnforced = false ∨ xMax ≤ s.hiBound) := by
    cases hl : s.hiBoundEnforced
    · exact Or.inl rfl
    · exact Or.inr (hhi hl)
  simp only [entry, afterRange, afterEvaluations, ge_iff_le, gt_iff_lt, hlt,
    not_true_eq_false, if_false, e1, e2]

/-- The entry when the range check passes and a bound check fails. -/
theorem entry_of_bound_violation (f : ℚ → ℚ) (s : Solver1D) (xAccuracy guess xMin xMax : ℚ)
    (hlt : xMin < xMax) (hb : ¬ BracketWithinBounds s xMin xMax) :
    entry f s xAccuracy guess xMin xMax =
      if s.lowBoundEnforced = true ∧ xMin < s.lowBound then
        ⟨.failed (.belowLowBound xMin s.lowBound), afterRange s xMin xMax, []⟩
      else
        ⟨.failed (.aboveHiBound xMax s.hiBound), afterRange s xMin xMax, []⟩ := by
  simp only [BracketWithinBounds, not_and_or, not_forall, not_le, exists_prop] at hb
  simp only [entry, afterRange, ge_iff_le, hlt, not_true_eq_false, if_false, not_or,
    Bool.not_eq_false, not_le]
  by_cases h1 : s.lowBoundEnforced = true ∧ xMin < s.lowBound
  · simp only [h1, and_self, if_true]
  · have h2 : s.hiBoundEnforced = true ∧ s.hiBound < xMax := hb.resolve_left h1
    simp only [h1, if_false, h2, and_self, if_true]

end ExplicitBracket

namespace GuessStep

/-- One more pass of the loop, when the pass widens the bracket. -/
theorem bracketLoop_succ_inr (f : ℚ → ℚ) (xAccuracy : ℚ) (n : Nat) (flipflop flipflop' : Int)
    (s s' : Solver1D) (evals evals' : List ℚ)
    (hc : s.evaluationNumber ≤ s.maxEvaluations)
    (hb : loopBody f xAccuracy flipflop s evals = .inr (flipflop', s', evals')) :
    bracketLoop f xAccuracy (n + 1) flipflop s evals
      = bracketLoop f xAccuracy n flipflop' s' evals' := by
  simp only [bracketLoop, hc, if_true, hb]

/-- The last pass of the loop, when the pass ends the call. -/
theorem bracketLoop_succ_inl (f : ℚ → ℚ) (xAccuracy : ℚ) (n : Nat) (flipflop : Int)
    (s : Solver1D) (evals : List ℚ) (o : Outcome)
    (hc : s.evaluationNumber ≤ s.maxEvaluations)
    (hb : loopBody f xAccuracy flipflop s evals = .inl o) :
    bracketLoop f xAccuracy (n + 1) flipflop s evals = some o := by
  simp only [bracketLoop, hc, if_true, hb]

/-- The loop when its condition fails on entry. -/
theorem bracketLoop_exhausted (f : ℚ → ℚ) (xAccuracy : ℚ) (n : Nat) (flipflop : Int)
    (s : Solver1D) (evals : List ℚ) (hc : ¬ s.evaluationNumber ≤ s.maxEvaluations) :
    bracketLoop f xAccuracy n flipflop s evals
      = some ⟨.failed (bracketingError s), s, evals⟩ := by
  cases n <;> simp only [bracketLoop, hc, if_false]

/-- A pass that finds values of strictly opposite sign calls `solve_` at the midpoint. -/
theorem loopBody_refine (f : ℚ → ℚ) (xAccuracy : ℚ) (flipflop : Int) (s : Solver1D)
    (evals : List ℚ) (h : s.fxMin * s.fxMax < 0) :
    loopBody f xAccuracy flipflop s evals =
      .inl ⟨.refine (QL_MAX (QL_FABS xAccuracy) QL_EPSILON),
        { s with root := (s.xMax + s.xMin) / 2 }, evals⟩ := by
  have h1 : s.fxMin ≠ 0 := fun h0 => by simp [h0] at h
  have h2 : s.fxMax ≠ 0 := fun h0 => by simp [h0] at h
  simp only [loopBody, h.le, if_true, h1, h2, if_false]

/-- A pass with same-sign values and `|fxMin| > |fxMax|` moves `xMax`. -/
theorem loopBody_widen_max (f : ℚ → ℚ) (xAccuracy : ℚ) (flipflop : Int) (s : Solver1D)
    (evals : List ℚ) (h : 0 < s.fxMin * s.fxMax) (hgt : |s.fxMin| > |s.fxMax|) :
    loopBody f xAccuracy flipflop s evals =
      .inr (flipflop,
        { s with
          xMax := s.enforceBounds_ (s.xMax + growthFactor * (s.xMax - s.xMin)),
          fxMax := f (s.enforceBounds_ (s.xMax + growthFactor * (s.xMax - s.xMin))),
          evaluationNumber := s.evaluationNumber + 1 },
        evals ++ [s.enforceBounds_ (s.xMax + growthFactor * (s.xMax - s.xMin))]) := by
  simp only [loopBody, not_le.mpr h, if_false, QL_FABS, not_lt.mpr (le_of_lt hgt), gt_iff_lt,
    gt_iff_lt.mp hgt, if_true]

/-- The entry when `f(guess) <= 0` and the early exit is not taken. -/
theorem entry_of_nonpos (f : ℚ → ℚ) (s : Solver1D) (xAccuracy guess step : ℚ)
    (h1 : ¬ |f guess| ≤ xAccuracy) (h2 : f guess ≤ 0) :
    entry f s xAccuracy guess step =
      bracketLoop f xAccuracy (s.maxEvaluations - 1).toNat (-1)
        { s with root := guess, xMin := guess, fxMin := f guess,
                 xMax := s.enforceBounds_ (guess + step),
                 fxMax := f (s.enforceBounds_ (guess + step)), evaluationNumber := 2 }
        [guess, s.enforceBounds_ (guess + step)] := by
  simp only [entry, QL_FABS, h1, if_false, gt_iff_lt, not_lt.mpr h2, loopBound]
  rfl

/-- The entry when `f(guess) > 0` and the early exit is not taken. -/
theorem entry_of_pos (f : ℚ → ℚ) (s : Solver1D) (xAccuracy guess step : ℚ)
    (h1 : ¬ |f guess| ≤ xAccuracy) (h2 : 0 < f guess) :
    entry f s xAccuracy guess step =
      bracketLoop f xAccuracy (s.maxEvaluations - 1).toNat (-1)
        { s with root := guess, fxMax := f guess,
                 xMin := s.enforceBounds_ (guess - step),
                 fxMin := f (s.enforceBounds_ (guess - step)),
                 xMax := guess, evaluationNumber := 2 }
        [guess, s.enforceBounds_ (guess - step)] := by
  simp only [entry, QL_FABS, h1, if_false, gt_iff_lt, h2, if_true, loopBound]
  rfl

/-- A pass that goes on keeps `fxMin = f(xMin)`, `fxMax = f(xMax)` and `maxEvaluations_`,
and increases `evaluationNumber_`. -/
theorem loopBody_inr (f : ℚ → ℚ) (xAccuracy : ℚ) (flipflop flipflop' : Int)
    (s s' : Solver1D) (evals evals' : List ℚ)
    (h : loopBody f xAccuracy flipflop s evals = .inr (flipflop', s', evals')) :
    (ValuesAtEndpoints f s → ValuesAtEndpoints f s') ∧
    s'.maxEvaluations = s.maxEvaluations ∧
    s.evaluationNumber < s'.evaluationNumber := by
  simp only [loopBody] at h
  split_ifs at h <;>
    simp only [Sum.inr.injEq, Prod.mk.injEq, reduceCtorEq] at h <;>
    obtain ⟨-, rfl, -⟩ := h <;>
    refine ⟨fun hv => ⟨?_, ?_⟩, rfl, ?_⟩ <;>
    first
      | rfl
      | exact hv.1
      | exact hv.2
      | (simp only; omega)

/-- A pass that ends the call: it returns an endpoint at which the stored value is zero, or
calls `solve_` with accuracy `max(|xAccuracy|, QL_EPSILON)`; it throws nothing. -/
theorem loopBody_inl (f : ℚ → ℚ) (xAccuracy : ℚ) (flipflop : Int)
    (s : Solver1D) (evals : List ℚ) (o : Outcome)
    (h : loopBody f xAccuracy flipflop s evals = .inl o) :
    (∀ x, o.result = .returned x → (x = s.xMin ∧ s.fxMin = 0) ∨ (x = s.xMax ∧ s.fxMax = 0)) ∧
    (∀ acc, o.result = .refine acc → acc = QL_MAX (QL_FABS xAccuracy) QL_EPSILON) ∧
    (∀ e, o.result ≠ .failed e) := by
  simp only [loopBody] at h
  split_ifs at h with h1 h2 h3 <;>
    simp only [Sum.inl.injEq, reduceCtorEq] at h <;>
    subst h <;>
    simp_all

/-- With enough passes allowed, the loop ends. -/
theorem bracketLoop_isSome (f : ℚ → ℚ) (xAccuracy : ℚ) :
    ∀ (fuel : Nat) (flipflop : Int) (s : Solver1D) (evals : List ℚ),
      (s.maxEvaluations + 1 - s.evaluationNumber).toNat ≤ fuel →
      ∃ o, bracketLoop f xAccuracy fuel flipflop s evals = some o := by
  intro fuel
  induction fuel with
  | zero =>
    intro flipflop s evals hfuel
    have hc : ¬ s.evaluationNumber ≤ s.maxEvaluations := by omega
    exact ⟨⟨.failed (bracketingError s), s, evals⟩, by simp only [bracketLoop, hc, if_false]⟩
  | succ n ih =>
    intro flipflop s evals hfuel
    by_cases hc : s.evaluationNumber ≤ s.maxEvaluations
    · simp only [bracketLoop, hc, if_true]
      cases hb : loopBody f xAccuracy flipflop s evals with
      | inl o => exact ⟨o, rfl⟩
      | inr r =>
        obtain ⟨flipflop', s', evals'⟩ := r
        obtain ⟨-, hm, he⟩ := loopBody_inr f xAccuracy flipflop flipflop' s s' evals evals' hb
        exact ih flipflop' s' evals' (by omega)
    · exact ⟨⟨.failed (bracketingError s), s, evals⟩, by simp only [bracketLoop, hc, if_false]⟩

/-- What the loop can end with, when it starts with `fxMin = f(xMin)`, `fxMax = f(xMax)`:
a returned value is an exact root, and `solve_` is called with accuracy
`max(|xAccuracy|, QL_EPSILON)`. -/
theorem bracketLoop_result (f : ℚ → ℚ) (xAccuracy : ℚ) :
    ∀ (fuel : Nat) (flipflop : Int) (s : Solver1D) (evals : List ℚ) (o : Outcome),
      ValuesAtEndpoints f s →
      bracketLoop f xAccuracy fuel flipflop s evals = some o →
      (∀ x, o.result = .returned x → f x = 0) ∧
      (∀ acc, o.result = .refine acc → acc = QL_MAX (QL_FABS xAccuracy) QL_EPSILON) := by
  intro fuel
  induction fuel with
  | zero =>
    intro flipflop s evals o _ h
    simp only [bracketLoop] at h
    split_ifs at h
    cases h
    exact ⟨fun x hx => (by cases hx), fun acc hx => (by cases hx)⟩
  | succ n ih =>
    intro flipflop s evals o hv h
    simp only [bracketLoop] at h
    split_ifs at h with hc
    · cases hb : loopBody f xAccuracy flipflop s evals with
      | inl o' =>
        rw [hb] at h
        cases h
        obtain ⟨h1, h2, -⟩ := loopBody_inl f xAccuracy flipflop s evals o hb
        refine ⟨fun x hx => ?_, h2⟩
        rcases h1 x hx with ⟨rfl, h0⟩ | ⟨rfl, h0⟩
        · rw [← hv.1]; exact h0
        · rw [← hv.2]; exact h0
      | inr r =>
        obtain ⟨flipflop', s', evals'⟩ := r
        rw [hb] at h
        obtain ⟨hv', -, -⟩ := loopBody_inr f xAccuracy flipflop flipflop' s s' evals evals' hb
        exact ih flipflop' s' evals' o (hv' hv) h
    · cases h
      exact ⟨fun x hx => (by cases hx), fun acc hx => (by cases hx)⟩

/-- The entry always ends: the loop bound it passes is enough. -/
theorem entry_isSome (f : ℚ → ℚ) (s : Solver1D) (xAccuracy guess step : ℚ) :
    ∃ o, entry f s xAccuracy guess step = some o := by
  simp only [entry]
  split_ifs
  · exact ⟨_, rfl⟩
  · exact bracketLoop_isSome f xAccuracy _ _ _ _ (by simp only [loopBound]; omega)
  · exact bracketLoop_isSome f xAccuracy _ _ _ _ (by simp only [loopBound]; omega)

/-- What the entry can end with: a returned value is the guess with `|f| <= xAccuracy` or an
exact root, and `solve_` is called with accuracy `max(|xAccuracy|, QL_EPSILON)`. -/
theorem entry_result (f : ℚ → ℚ) (s : Solver1D) (xAccuracy guess step : ℚ) (o : Outcome)
    (h : entry f s xAccuracy guess step = some o) :
    (∀ x, o.result = .returned x → |f x| ≤ xAccuracy ∨ f x = 0) ∧
    (∀ acc, o.result = .refine acc → acc = QL_MAX (QL_FABS xAccuracy) QL_EPSILON) := by
  simp only [entry] at h
  split_ifs at h with h1 h2
  · cases h
    exact ⟨fun x hx => (by cases hx; exact Or.inl h1), fun acc hx => (by cases hx)⟩
  · obtain ⟨a, b⟩ := bracketLoop_result f xAccuracy _ _ _ _ o ⟨rfl, rfl⟩ h
    exact ⟨fun x hx => Or.inr (a x hx), b⟩
  · obtain ⟨a, b⟩ := bracketLoop_result f xAccuracy _ _ _ _ o ⟨rfl, rfl⟩ h
    exact ⟨fun x hx => Or.inr (a x hx), b⟩

/-- The bracket search for `f(x) = x - 3` from guess `0` with step `1`, no bound enforced
and a budget of at least 4 evaluations: the brackets are `[0, 1]`, `[0, 2.6]`,
`[0, 6.76]`, and `solve_` is called on the last one. -/
theorem entry_linear (s : Solver1D) (hlow : s.lowBoundEnforced = false)
    (hhi : s.hiBoundEnforced = false) (hmax : 4 ≤ s.maxEvaluations) :
    entry (fun x => x - 3) s (1 / 10 ^ 10) 0 1 =
      some ⟨.refine (QL_MAX (QL_FABS (1 / 10 ^ 10)) QL_EPSILON),
        { s with root := 169 / 50, xMin := 0, xMax := 169 / 25, fxMin := -3,
                 fxMax := 94 / 25, evaluationNumber := 4 },
        [0, 1, 13 / 5, 169 / 25]⟩ := by
  obtain ⟨n, hn⟩ : ∃ n, (s.maxEvaluations - 1).toNat = n + 3 :=
    ⟨(s.maxEvaluations - 1).toNat - 3, by omega⟩
  have a3 : |(-3 : ℚ)| = 3 := by rw [abs_of_neg (by norm_num)]; norm_num
  have a2 : |(-2 : ℚ)| = 2 := by rw [abs_of_neg (by norm_num)]; norm_num
  have a25 : |(-(2 / 5) : ℚ)| = 2 / 5 := by rw [abs_of_neg (by norm_num)]; norm_num
  rw [entry_of_nonpos _ _ _ _ _ (by norm_num [a3]) (by norm_num), hn]
  simp only [enforceBounds_, hlow, hhi, Bool.false_eq_true, false_and, if_false]
  norm_num only
  rw [bracketLoop_succ_inr _ _ _ _ _ _ _ _ _ (by simp only; omega)
    (loopBody_widen_max _ _ _ _ _ (by norm_num) (by norm_num [a3, a2]))]
  simp only [enforceBounds_, hlow, hhi, Bool.false_eq_true, false_and, if_false, growthFactor]
  norm_num only
  rw [bracketLoop_succ_inr _ _ _ _ _ _ _ _ _ (by simp only; omega)
    (loopBody_widen_max _ _ _ _ _ (by norm_num) (by norm_num [a3, a25]))]
  simp only [enforceBounds_, hlow, hhi, Bool.false_eq_true, false_and, if_false, growthFactor]
  norm_num only
  rw [bracketLoop_succ_inl _ _ _ _ _ _ _ (by simp only; omega)
    (loopBody_refine _ _ _ _ _ (by norm_num))]
  norm_num

end GuessStep

/-- The effective accuracy for `xAccuracy = 10^-10` is `10^-10` itself. -/
theorem effectiveAccuracy_tenth : QL_MAX (QL_FABS (1 / 10 ^ 10)) QL_EPSILON = 1 / 10 ^ 10 := by
  simp only [QL_MAX, QL_FABS, QL_EPSILON]
  rw [abs_of_pos (by norm_num)]
  norm_num

theorem threeHook_meetsContract : threeHook.MeetsContract (fun x => x - 3) := by
  intro accuracy s x h
  unfold threeHook at h
  split_ifs at h with h0
  cases h
  simpa using h0

/-! ## Lemmas on the bracket search -/

/-- With `lowBound <= hiBound`, what `enforceBounds_` gives respects the enforced bounds. -/
theorem enforceBounds_within (s : Solver1D) (x : ℚ) (hb : s.lowBound ≤ s.hiBound) :
    WithinBounds s (s.enforceBounds_ x) := by
  unfold enforceBounds_ WithinBounds
  split_ifs with h1 h2
  · exact ⟨fun _ => le_refl _, fun _ => hb⟩
  · exact ⟨fun _ => hb, fun _ => le_refl _⟩
  · refine ⟨fun hl => ?_, fun hh => ?_⟩
    · exact not_lt.mp (fun hlt => h1 ⟨hl, hlt⟩)
    · exact not_lt.mp (fun hlt => h2 ⟨hh, hlt⟩)

namespace GuessStep

/-- What a pass that goes on does: the values had the same strict sign, and either `xMin`
moved to the clamped candidate and `f` was evaluated there (with `evaluationNumber_`
increased by 1 or 2), or `xMax` moved likewise (increase by 1), or nothing but
`evaluationNumber_` changed. -/
theorem loopBody_inr_cases (f : ℚ → ℚ) (xAccuracy : ℚ) (flipflop flipflop' : Int)
    (s s' : Solver1D) (evals evals' : List ℚ)
    (h : loopBody f xAccuracy flipflop s evals = .inr (flipflop', s', evals')) :
    0 < s.fxMin * s.fxMax ∧
    ((∃ k : Int, (k = 1 ∨ k = 2) ∧
        s' = { s with
          xMin := s.enforceBounds_ (s.xMin + growthFactor * (s.xMin - s.xMax)),
          fxMin := f (s.enforceBounds_ (s.xMin + growthFactor * (s.xMin - s.xMax))),
          evaluationNumber := s.evaluationNumber + k } ∧
        evals' = evals ++ [s.enforceBounds_ (s.xMin + growthFactor * (s.xMin - s.xMax))]) ∨
     (s' = { s with
          xMax := s.enforceBounds_ (s.xMax + growthFactor * (s.xMax - s.xMin)),
          fxMax := f (s.enforceBounds_ (s.xMax + growthFactor * (s.xMax - s.xMin))),
          evaluationNumber := s.evaluationNumber + 1 } ∧
        evals' = evals ++ [s.enforceBounds_ (s.xMax + growthFactor * (s.xMax - s.xMin))]) ∨
     (s' = { s with evaluationNumber := s.evaluationNumber + 1 } ∧ evals' = evals)) := by
  simp only [loopBody] at h
  split_ifs at h with h0 h1 h2 h3 h4 h5 h6 <;>
    simp only [Sum.inr.injEq, Prod.mk.injEq, reduceCtorEq] at h <;>
    obtain ⟨-, rfl, rfl⟩ := h <;>
    refine ⟨not_le.mp h0, ?_⟩
  · exact Or.inl ⟨1, Or.inl rfl, rfl, rfl⟩
  · exact Or.inr (Or.inl ⟨rfl, rfl⟩)
  · exact Or.inl ⟨2, Or.inr rfl, by simp only [add_assoc]; rfl, rfl⟩
  · exact Or.inr (Or.inl ⟨rfl, rfl⟩)
  · exact Or.inr (Or.inr ⟨rfl, rfl⟩)

/-- What a pass that ends the call does. -/
theorem loopBody_inl_cases (f : ℚ → ℚ) (xAccuracy : ℚ) (flipflop : Int)
    (s : Solver1D) (evals : List ℚ) (o : Outcome)
    (h : loopBody f xAccuracy flipflop s evals = .inl o) :
    s.fxMin * s.fxMax ≤ 0 ∧
    ((s.fxMin = 0 ∧ o = ⟨.returned s.xMin, s, evals⟩) ∨
     (s.fxMin ≠ 0 ∧ s.fxMax = 0 ∧ o = ⟨.returned s.xMax, s, evals⟩) ∨
     (s.fxMin ≠ 0 ∧ s.fxMax ≠ 0 ∧
       o = ⟨.refine (QL_MAX (QL_FABS xAccuracy) QL_EPSILON),
            { s with root := (s.xMax + s.xMin) / 2 }, evals⟩)) := by
  simp only [loopBody] at h
  split_ifs at h with h0 h1 h2 <;>
    simp only [Sum.inl.injEq, reduceCtorEq] at h <;>
    subst h <;>
    refine ⟨h0, ?_⟩
  · exact Or.inl ⟨h1, rfl⟩
  · exact Or.inr (Or.inl ⟨h1, h2, rfl⟩)
  · exact Or.inr (Or.inr ⟨h1, h2, rfl⟩)

/-- How the loop ends, for a property `P` of the loop variables that every widening pass
keeps: the loop ends from variables with `P`, either in a pass that ends the call or
because the loop condition fails. -/
theorem bracketLoop_exit (f : ℚ → ℚ) (xAccuracy : ℚ) (P : Int → Solver1D → List ℚ → Prop)
    (hP : ∀ flipflop s evals flipflop' s' evals', P flipflop s evals →
      s.evaluationNumber ≤ s.maxEvaluations →
      loopBody f xAccuracy flipflop s evals = .inr (flipflop', s', evals') →
      P flipflop' s' evals') :
    ∀ (fuel : Nat) (flipflop : Int) (s : Solver1D) (evals : List ℚ) (o : Outcome),
      P flipflop s evals →
      bracketLoop f xAccuracy fuel flipflop s evals = some o →
      ∃ flipflop' s' evals', P flipflop' s' evals' ∧
        ((s'.evaluationNumber ≤ s'.maxEvaluations ∧
            loopBody f xAccuracy flipflop' s' evals' = .inl o) ∨
         (¬ s'.evaluationNumber ≤ s'.maxEvaluations ∧
            o = ⟨.failed (bracketingError s'), s', evals'⟩)) := by
  intro fuel
  induction fuel with
  | zero =>
    intro flipflop s evals o hp h
    simp only [bracketLoop] at h
    split_ifs at h with hc
    cases h
    exact ⟨flipflop, s, evals, hp, Or.inr ⟨hc, rfl⟩⟩
  | succ n ih =>
    intro flipflop s evals o hp h
    simp only [bracketLoop] at h
    split_ifs at h with hc
    · cases hb : loopBody f xAccuracy flipflop s evals with
      | inl o' =>
        rw [hb] at h
        cases h
        exact ⟨flipflop, s, evals, hp, Or.inl ⟨hc, hb⟩⟩
      | inr r =>
        obtain ⟨flipflop', s', evals'⟩ := r
        rw [hb] at h
        exact ih flipflop' s' evals' o (hP _ _ _ _ _ _ hp hc hb) h
    · cases h
      exact ⟨flipflop, s, evals, hp, Or.inr ⟨hc, rfl⟩⟩

/-- The entry when the early exit of line 51 is taken. -/
theorem entry_of_early_exit (f : ℚ → ℚ) (s : Solver1D) (xAccuracy guess step : ℚ)
    (h : QL_FABS (f guess) ≤ xAccuracy) :
    entry f s xAccuracy guess step =
      some ⟨.returned guess, { s with root := guess, fxMax := f guess }, [guess]⟩ := by
  simp only [entry, h, if_true]

/-- A pass with same-sign values of equal magnitude and `flipflop = -1` moves `xMin`, sets
`flipflop = 1` and increments `evaluationNumber_` twice (lines 82 and 89). -/
theorem loopBody_tie_min (f : ℚ → ℚ) (xAccuracy : ℚ) (s : Solver1D)
    (evals : List ℚ) (h : 0 < s.fxMin * s.fxMax) (heq : |s.fxMin| = |s.fxMax|) :
    loopBody f xAccuracy (-1) s evals =
      .inr (1,
        { s with
          xMin := s.enforceBounds_ (s.xMin + growthFactor * (s.xMin - s.xMax)),
          fxMin := f (s.enforceBounds_ (s.xMin + growthFactor * (s.xMin - s.xMax))),
          evaluationNumber := s.evaluationNumber + 1 + 1 },
        evals ++ [s.enforceBounds_ (s.xMin + growthFactor * (s.xMin - s.xMax))]) := by
  simp only [loopBody, not_le.mpr h, if_false, QL_FABS, heq, lt_irrefl, gt_iff_lt, if_true]

end GuessStep

theorem enforceBounds_of_sameBounds (s s' : Solver1D) (x : ℚ) (h : SameBounds s s') :
    s'.enforceBounds_ x = s.enforceBounds_ x := by
  obtain ⟨h1, h2, h3, h4⟩ := h
  simp only [enforceBounds_, h1, h2, h3, h4]

namespace GuessStep

/-- The entry when the early exit is not taken: the loop, from the initial bracket. -/
theorem entry_of_search (f : ℚ → ℚ) (s : Solver1D) (xAccuracy guess step : ℚ)
    (h : ¬ QL_FABS (f guess) ≤ xAccuracy) :
    entry f s xAccuracy guess step =
      bracketLoop f xAccuracy (s.maxEvaluations - 1).toNat (-1)
        (initialBracket f s guess step) (initialEvals f s guess step) := by
  by_cases hp : 0 < f guess
  · rw [entry_of_pos f s xAccuracy guess step h hp]
    simp only [initialBracket, initialEvals, hp, if_true]
  · rw [entry_of_nonpos f s xAccuracy guess step h (not_lt.mp hp)]
    simp only [initialBracket, initialEvals, hp, if_false]

/-- The initial bracket keeps the configuration, stores the values of `f` at its endpoints
and has `evaluationNumber_ = 2`. -/
theorem initialBracket_spec (f : ℚ → ℚ) (s : Solver1D) (guess step : ℚ) :
    SameBounds s (initialBracket f s guess step) ∧
    (initialBracket f s guess step).maxEvaluations = s.maxEvaluations ∧
    ValuesAtEndpoints f (initialBracket f s guess step) ∧
    (initialBracket f s guess step).evaluationNumber = 2 := by
  unfold initialBracket
  split_ifs <;> exact ⟨⟨rfl, rfl, rfl, rfl⟩, rfl, ⟨rfl, rfl⟩, rfl⟩

/-- A widening pass keeps the configuration. -/
theorem loopBody_inr_config (f : ℚ → ℚ) (xAccuracy : ℚ) (flipflop flipflop' : Int)
    (s s' : Solver1D) (evals evals' : List ℚ)
    (h : loopBody f xAccuracy flipflop s evals = .inr (flipflop', s', evals')) :
    SameBounds s s' ∧ s'.maxEvaluations = s.maxEvaluations := by
  obtain ⟨-, h | h | h⟩ := loopBody_inr_cases f xAccuracy flipflop flipflop' s s' evals evals' h
  · obtain ⟨k, -, rfl, -⟩ := h
    exact ⟨⟨rfl, rfl, rfl, rfl⟩, rfl⟩
  · obtain ⟨rfl, -⟩ := h
    exact ⟨⟨rfl, rfl, rfl, rfl⟩, rfl⟩
  · obtain ⟨rfl, -⟩ := h
    exact ⟨⟨rfl, rfl, rfl, rfl⟩, rfl⟩

/-- The loop started before a widening pass ends as the loop started after it. -/
theorem bracketLoop_of_pass (f : ℚ → ℚ) (xAccuracy : ℚ) (v v' : LoopVars)
    (hp : Pass f xAccuracy v v') (fuel : Nat) (o : Outcome)
    (h : bracketLoop f xAccuracy fuel v.1 v.2.1 v.2.2 = some o) :
    ∃ fuel', bracketLoop f xAccuracy fuel' v'.1 v'.2.1 v'.2.2 = some o := by
  obtain ⟨hc, hb⟩ := hp
  cases fuel with
  | zero => simp only [bracketLoop, hc, if_true, reduceCtorEq] at h
  | succ n =>
    rw [bracketLoop_succ_inr f xAccuracy n v.1 v'.1 v.2.1 v'.2.1 v.2.2 v'.2.2 hc hb] at h
    exact ⟨n, h⟩

/-- The loop started at any variables reached later ends as the loop started earlier. -/
theorem bracketLoop_of_reflTransGen (f : ℚ → ℚ) (xAccuracy : ℚ) (v v' : LoopVars)
    (hr : Relation.ReflTransGen (Pass f xAccuracy) v v') (fuel : Nat) (o : Outcome)
    (h : bracketLoop f xAccuracy fuel v.1 v.2.1 v.2.2 = some o) :
    ∃ fuel', bracketLoop f xAccuracy fuel' v'.1 v'.2.1 v'.2.2 = some o := by
  induction hr with
  | refl => exact ⟨fuel, h⟩
  | tail _ hp ih =>
    obtain ⟨fuel', h'⟩ := ih
    exact bracketLoop_of_pass f xAccuracy _ _ hp fuel' o h'

/-- A property of the loop variables that holds initially and that every widening pass
keeps holds at all reached variables. -/
theorem Reached.induction (f : ℚ → ℚ) (s : Solver1D) (xAccuracy guess step : ℚ)
    (P : LoopVars → Prop) (h0 : P (initialVars f s guess step))
    (hP : ∀ v v', P v → Pass f xAccuracy v v' → P v')
    (v : LoopVars) (hr : Reached f s xAccuracy guess step v) : P v := by
  obtain ⟨-, hr⟩ := hr
  induction hr with
  | refl => exact h0
  | tail _ hp ih => exact hP _ _ ih hp

/-- The stored values are the values of `f` at the stored endpoints at all reached
variables. -/
theorem Reached.valuesAtEndpoints (f : ℚ → ℚ) (s : Solver1D) (xAccuracy guess step : ℚ)
    (v : LoopVars) (hr : Reached f s xAccuracy guess step v) :
    ValuesAtEndpoints f v.2.1 := by
  refine Reached.induction f s xAccuracy guess step (fun v => ValuesAtEndpoints f v.2.1)
    (initialBracket_spec f s guess step).2.2.1 ?_ v hr
  intro v v' hv hp
  exact (loopBody_inr f xAccuracy v.1 v'.1 v.2.1 v'.2.1 v.2.2 v'.2.2 hp.2).1 hv

/-- The call ends as the last pass does: at reached variables where the loop condition holds
and the body ends the call with `o`, the call ends with `o`. -/
theorem entry_of_reached_inl (f : ℚ → ℚ) (s : Solver1D) (xAccuracy guess step : ℚ)
    (v : LoopVars) (o : Outcome) (hr : Reached f s xAccuracy guess step v)
    (hc : v.2.1.evaluationNumber ≤ v.2.1.maxEvaluations)
    (hb : loopBody f xAccuracy v.1 v.2.1 v.2.2 = .inl o) :
    entry f s xAccuracy guess step = some o := by
  obtain ⟨o', ho'⟩ := entry_isSome f s xAccuracy guess step
  have h := ho'
  rw [entry_of_search f s xAccuracy guess step hr.1] at h
  obtain ⟨fuel', h'⟩ := bracketLoop_of_reflTransGen f xAccuracy
    (initialVars f s guess step) v hr.2 _ o' h
  cases fuel' with
  | zero => simp only [bracketLoop, hc, if_true, reduceCtorEq] at h'
  | succ n =>
    rw [bracketLoop_succ_inl f xAccuracy n v.1 v.2.1 v.2.2 o hc hb] at h'
    rw [ho', ← h']

/-- The call ends from reached variables: by a pass that ends the call, or because the
loop condition fails there. -/
theorem entry_exit (f : ℚ → ℚ) (s : Solver1D) (xAccuracy guess step : ℚ) (o : Outcome)
    (hne : ¬ QL_FABS (f guess) ≤ xAccuracy)
    (h : entry f s xAccuracy guess step = some o) :
    ∃ v, Reached f s xAccuracy guess step v ∧
      ((v.2.1.evaluationNumber ≤ v.2.1.maxEvaluations ∧
          loopBody f xAccuracy v.1 v.2.1 v.2.2 = .inl o) ∨
       (¬ v.2.1.evaluationNumber ≤ v.2.1.maxEvaluations ∧
          o = ⟨.failed (bracketingError v.2.1), v.2.1, v.2.2⟩)) := by
  rw [entry_of_search f s xAccuracy guess step hne] at h
  obtain ⟨ff, s', ev', hp, hcase⟩ := bracketLoop_exit f xAccuracy
    (fun ff s' ev' => Reached f s xAccuracy guess step (ff, s', ev'))
    (fun ff s1 ev1 ff' s2 ev2 hr hc hb => ⟨hr.1, hr.2.tail ⟨hc, hb⟩⟩)
    _ _ _ _ o ⟨hne, Relation.ReflTransGen.refl⟩ h
  exact ⟨(ff, s', ev'), hp, hcase⟩

/-- At every reached set of loop variables, the configuration is that of the call, every
point evaluated so far and both endpoints respect the enforced bounds, and the trace
extends the two initial evaluations (given `lowBound <= hiBound` and a guess within the
enforced bounds). -/
theorem Reached.withinBounds (f : ℚ → ℚ) (s : Solver1D) (xAccuracy guess step : ℚ)
    (hb : s.lowBound ≤ s.hiBound) (hg : WithinBounds s guess)
    (v : LoopVars) (hr : Reached f s xAccuracy guess step v) :
    SameBounds s v.2.1 ∧ (∀ x ∈ v.2.2, WithinBounds s x) ∧
    WithinBounds s v.2.1.xMin ∧ WithinBounds s v.2.1.xMax ∧
    initialEvals f s guess step <+: v.2.2 := by
  refine Reached.induction f s xAccuracy guess step
    (fun v => SameBounds s v.2.1 ∧ (∀ x ∈ v.2.2, WithinBounds s x) ∧
      WithinBounds s v.2.1.xMin ∧ WithinBounds s v.2.1.xMax ∧
      initialEvals f s guess step <+: v.2.2) ?_ ?_ v hr
  · refine ⟨(initialBracket_spec f s guess step).1, ?_, ?_, ?_, List.prefix_refl _⟩
    · intro x hx
      simp only [initialVars, initialEvals] at hx
      split_ifs at hx <;>
        simp only [List.mem_cons, List.mem_singleton, List.not_mem_nil, or_false] at hx <;>
        rcases hx with rfl | rfl <;>
        first
          | exact hg
          | exact enforceBounds_within s _ hb
    · simp only [initialVars, initialBracket]
      split_ifs
      · exact enforceBounds_within s _ hb
      · exact hg
    · simp only [initialVars, initialBracket]
      split_ifs
      · exact hg
      · exact enforceBounds_within s _ hb
  · rintro ⟨ff, s1, ev1⟩ ⟨ff', s2, ev2⟩ ⟨hsb, hev, hmin, hmax, hpre⟩ ⟨-, hbody⟩
    have hsb' := (loopBody_inr_config f xAccuracy ff ff' s1 s2 ev1 ev2 hbody).1
    have hsb2 : SameBounds s s2 :=
      ⟨hsb'.1.trans hsb.1, hsb'.2.1.trans hsb.2.1, hsb'.2.2.1.trans hsb.2.2.1,
        hsb'.2.2.2.trans hsb.2.2.2⟩
    have hw : ∀ x, WithinBounds s (s1.enforceBounds_ x) := fun x => by
      rw [enforceBounds_of_sameBounds s s1 x hsb]
      exact enforceBounds_within s x hb
    obtain ⟨-, h | h | h⟩ := loopBody_inr_cases f xAccuracy ff ff' s1 s2 ev1 ev2 hbody
    · obtain ⟨k, -, rfl, rfl⟩ := h
      refine ⟨hsb2, ?_, hw _, hmax, hpre.trans (List.prefix_append _ _)⟩
      intro x hx
      rcases List.mem_append.mp hx with hx | hx
      · exact hev x hx
      · rw [List.mem_singleton.mp hx]; exact hw _
    · obtain ⟨rfl, rfl⟩ := h
      refine ⟨hsb2, ?_, hmin, hw _, hpre.trans (List.prefix_append _ _)⟩
      intro x hx
      rcases List.mem_append.mp hx with hx | hx
      · exact hev x hx
      · rw [List.mem_singleton.mp hx]; exact hw _
    · obtain ⟨rfl, rfl⟩ := h
      exact ⟨hsb2, hev, hmin, hmax, hpre⟩

end GuessStep

namespace ExplicitBracket

/-- How the entry ends and where it evaluates `f`, as a function of the arguments and the
configuration only. -/
theorem entry_result_evals (f : ℚ → ℚ) (s : Solver1D) (xAccuracy guess xMin xMax : ℚ) :
    ((entry f s xAccuracy guess xMin xMax).result, (entry f s xAccuracy guess xMin xMax).evals) =
      if ¬ (xMin < xMax) then (.failed (.invalidRange xMin xMax), [])
      else if ¬ (s.lowBoundEnforced = false ∨ xMin ≥ s.lowBound) then
        (.failed (.belowLowBound xMin s.lowBound), [])
      else if ¬ (s.hiBoundEnforced = false ∨ xMax ≤ s.hiBound) then
        (.failed (.aboveHiBound xMax s.hiBound), [])
      else if |f xMin| < xAccuracy then (.returned xMin, [xMin])
      else if |f xMax| < xAccuracy then (.returned xMax, [xMin, xMax])
      else if ¬ (f xMin * f xMax < 0) then
        (.failed (.rootNotBracketed xMin xMax (f xMin) (f xMax)), [xMin, xMax])
      else if ¬ (guess > xMin) then (.failed (.guessBelowXMin guess xMin), [xMin, xMax])
      else if ¬ (guess < xMax) then (.failed (.guessAboveXMax guess xMax), [xMin, xMax])
      else (.refine (QL_MAX (QL_FABS xAccuracy) QL_EPSILON), [xMin, xMax]) := by
  simp only [entry]
  split_ifs <;> rfl

/-- When the entry reaches `solve_`, every check has passed. -/
theorem refines_conditions (f : ℚ → ℚ) (s : Solver1D) (xAccuracy guess xMin xMax : ℚ)
    (h : (entry f s xAccuracy guess xMin xMax).Refines) :
    xMin < xMax ∧ BracketWithinBounds s xMin xMax ∧
      |f xMin| ≥ xAccuracy ∧ |f xMax| ≥ xAccuracy ∧ f xMin * f xMax < 0 ∧
      xMin < guess ∧ guess < xMax := by
  obtain ⟨acc, h⟩ := h
  by_cases hlt : xMin < xMax
  · by_cases hb : BracketWithinBounds s xMin xMax
    · rw [entry_of_valid f s xAccuracy guess xMin xMax hlt hb] at h
      split_ifs at h with h1 h2 h3 h4 h5
      exact ⟨hlt, hb, not_lt.mp h1, not_lt.mp h2, h3, h4, h5⟩
    · rw [entry_of_bound_violation f s xAccuracy guess xMin xMax hlt hb] at h
      split_ifs at h
  · simp only [entry, hlt, not_false_eq_true, if_true, reduceCtorEq] at h

end ExplicitBracket

namespace GuessStep

/-- The initial bracket does not depend on the mutable fields the call starts with. -/
theorem initialBracket_withState (f : ℚ → ℚ) (s : Solver1D) (guess step : ℚ)
    (root xMin xMax fxMin fxMax : ℚ) (n : Int) :
    initialBracket f (s.withState root xMin xMax fxMin fxMax n) guess step
      = initialBracket f s guess step ∧
    initialEvals f (s.withState root xMin xMax fxMin fxMax n) guess step
      = initialEvals f s guess step := by
  unfold initialBracket initialEvals
  split_ifs <;> exact ⟨rfl, rfl⟩

/-- Variables reached after counted passes are reached. -/
theorem ReachedAfter.reached (f : ℚ → ℚ) (s : Solver1D) (xAccuracy guess step : ℚ)
    (k n : Nat) (v : LoopVars) (h : ReachedAfter f s xAccuracy guess step k n v) :
    Reached f s xAccuracy guess step v := by
  induction h with
  | init h => exact ⟨h, Relation.ReflTransGen.refl⟩
  | tiePass _ hp _ ih => exact ⟨ih.1, ih.2.tail hp⟩
  | otherPass _ hp _ ih => exact ⟨ih.1, ih.2.tail hp⟩

/-- Reached variables are reached after some number of passes and ties. -/
theorem Reached.counted (f : ℚ → ℚ) (s : Solver1D) (xAccuracy guess step : ℚ)
    (v : LoopVars) (h : Reached f s xAccuracy guess step v) :
    ∃ k n, ReachedAfter f s xAccuracy guess step k n v := by
  obtain ⟨hne, hr⟩ := h
  induction hr with
  | refl => exact ⟨0, 0, .init hne⟩
  | tail _ hp ih =>
    obtain ⟨k, n, hk⟩ := ih
    rename_i b c _
    by_cases ht : QL_FABS b.2.1.fxMin = QL_FABS b.2.1.fxMax
    · exact ⟨k + 1, n + 1, .tiePass hk hp ht⟩
    · exact ⟨k + 1, n, .otherPass hk hp ht⟩

/-- The first two passes for `f(x) = x - 3`, guess `0`, step `1` on the solver with no bound
enforced: from the initial bracket `[0, 1]` to `[0, 2.6]` and on to `[0, 6.76]`. -/
theorem passes_linear :
    initialVars (fun x => x - 3) plainSolver 0 1 =
      (-1, { plainSolver with root := 0, xMin := 0, xMax := 1, fxMin := -3, fxMax := -2,
                              evaluationNumber := 2 }, [0, 1]) ∧
    Pass (fun x => x - 3) (1 / 10 ^ 10)
      (-1, { plainSolver with root := 0, xMin := 0, xMax := 1, fxMin := -3, fxMax := -2,
                              evaluationNumber := 2 }, [0, 1])
      (-1, { plainSolver with root := 0, xMin := 0, xMax := 13 / 5, fxMin := -3,
                              fxMax := -(2 / 5), evaluationNumber := 3 }, [0, 1, 13 / 5]) ∧
    Pass (fun x => x - 3) (1 / 10 ^ 10)
      (-1, { plainSolver with root := 0, xMin := 0, xMax := 13 / 5, fxMin := -3,
                              fxMax := -(2 / 5), evaluationNumber := 3 }, [0, 1, 13 / 5])
      (-1, { plainSolver with root := 0, xMin := 0, xMax := 169 / 25, fxMin := -3,
                              fxMax := 94 / 25, evaluationNumber := 4 },
        [0, 1, 13 / 5, 169 / 25]) := by
  have a3 : |(-3 : ℚ)| = 3 := by rw [abs_of_neg (by norm_num)]; norm_num
  have a2 : |(-2 : ℚ)| = 2 := by rw [abs_of_neg (by norm_num)]; norm_num
  have a25 : |(-(2 / 5) : ℚ)| = 2 / 5 := by rw [abs_of_neg (by norm_num)]; norm_num
  refine ⟨?_, ⟨by decide, ?_⟩, ⟨by decide, ?_⟩⟩
  · have hn : ¬ (0 : ℚ) < (fun x : ℚ => x - 3) 0 := by norm_num
    simp only [initialVars, initialBracket, initialEvals, hn, if_false,
      enforceBounds_, plainSolver, Bool.false_eq_true, false_and]
    norm_num
  · rw [loopBody_widen_max _ _ _ _ _ (by norm_num) (by norm_num [a3, a2])]
    simp only [enforceBounds_, plainSolver, Bool.false_eq_true, false_and, if_false,
      growthFactor]
    norm_num
  · rw [loopBody_widen_max _ _ _ _ _ (by norm_num) (by norm_num [a3, a25])]
    simp only [enforceBounds_, plainSolver, Bool.false_eq_true, false_and, if_false,
      growthFactor]
    norm_num

/-- The first three sets of loop variables for `f(x) = x - 3`, guess `0`, step `1` on the
solver with no bound enforced: the brackets `[0, 1]`, `[0, 2.6]`, `[0, 6.76]`. -/
theorem reachedAfter_linear :
    ReachedAfter (fun x => x - 3) plainSolver (1 / 10 ^ 10) 0 1 0 0
      (-1, { plainSolver with root := 0, xMin := 0, xMax := 1, fxMin := -3, fxMax := -2,
                              evaluationNumber := 2 }, [0, 1]) ∧
    ReachedAfter (fun x => x - 3) plainSolver (1 / 10 ^ 10) 0 1 1 0
      (-1, { plainSolver with root := 0, xMin := 0, xMax := 13 / 5, fxMin := -3,
                              fxMax := -(2 / 5), evaluationNumber := 3 }, [0, 1, 13 / 5]) ∧
    ReachedAfter (fun x => x - 3) plainSolver (1 / 10 ^ 10) 0 1 2 0
      (-1, { plainSolver with root := 0, xMin := 0, xMax := 169 / 25, fxMin := -3,
                              fxMax := 94 / 25, evaluationNumber := 4 },
        [0, 1, 13 / 5, 169 / 25]) := by
  have a3 : |(-3 : ℚ)| = 3 := by rw [abs_of_neg (by norm_num)]; norm_num
  have a2 : |(-2 : ℚ)| = 2 := by rw [abs_of_neg (by norm_num)]; norm_num
  have a25 : |(-(2 / 5) : ℚ)| = 2 / 5 := by rw [abs_of_neg (by norm_num)]; norm_num
  have hne : ¬ QL_FABS ((fun x : ℚ => x - 3) 0) ≤ 1 / 10 ^ 10 := by
    norm_num [a3]
  obtain ⟨hv0, p1, p2⟩ := passes_linear
  have h0 := @ReachedAfter.init (fun x => x - 3) plainSolver (1 / 10 ^ 10) 0 1 hne
  rw [hv0] at h0
  have h1 := ReachedAfter.otherPass h0 p1 (by norm_num [a3, a2])
  exact ⟨h0, h1, ReachedAfter.otherPass h1 p2 (by norm_num [a3, a25])⟩

end GuessStep

/-! ## The claims -/

/-- C1 (as stated, refuted): for `f(x) = x` on the bracket `[-1, 2]` with guess `1/2`, no bound
enforced and `xAccuracy = 2^-60`, a refinement step that meets its contract makes the
call return `x = QL_EPSILON`, for which `|f(x)| = 2^-52 > xAccuracy`. -/
theorem explicit_solve_accuracy_counterexample :
    accuracyHook.MeetsContract (fun x => x) ∧
    (-1 : ℚ) < 2 ∧ (fun x : ℚ => x) (-1) * (fun x : ℚ => x) 2 < 0 ∧
    plainSolver.lowBoundEnforced = false ∧ plainSolver.hiBoundEnforced = false ∧
    ExplicitBracket.solve accuracyHook (fun x => x) plainSolver (1 / 2 ^ 60) ((-1 + 2) / 2) (-1) 2
      = .ok QL_EPSILON ∧
    ¬ (|(fun x : ℚ => x) QL_EPSILON| ≤ 1 / 2 ^ 60) := by
  refine ⟨accuracyHook_meetsContract _ (fun _ => rfl), by norm_num, by norm_num, rfl, rfl, ?_, ?_⟩
  · have h := ExplicitBracket.entry_of_bracket (fun x => x) plainSolver (1 / 2 ^ 60) ((-1 + 2) / 2) (-1) 2
      (by norm_num) ⟨by simp [plainSolver], by simp [plainSolver]⟩
      (by norm_num) (by norm_num) (by norm_num) (by norm_num) (by norm_num)
    have hmax : QL_MAX (QL_FABS (1 / 2 ^ 60)) QL_EPSILON = QL_EPSILON := by
      simp only [QL_MAX, QL_FABS, QL_EPSILON]
      rw [abs_of_pos (by norm_num)]
      norm_num
    simp only [ExplicitBracket.solve, h, Outcome.finish, hmax, accuracyHook, QL_EPSILON_pos.le, if_true]
  · simp only [QL_EPSILON]
    rw [abs_of_pos (by norm_num)]
    norm_num

/-- C1 (amended): with a refinement step that meets its contract, an explicit bracket
`a < b` whose endpoint values have opposite sign, guess `(a+b)/2` and no enforced bound,
the entry itself throws nothing, and every value `x` the call returns satisfies
`|f(x)| <= max(|xAccuracy|, QL_EPSILON)`, hence `|f(x)| <= xAccuracy` whenever
`xAccuracy >= QL_EPSILON`. -/
theorem explicit_solve_accuracy (hook : RefineHook) (f : ℚ → ℚ) (s : Solver1D)
    (xAccuracy a b : ℚ) (hc : hook.MeetsContract f)
    (hab : a < b) (hsign : f a * f b < 0)
    (hlow : s.lowBoundEnforced = false) (hhi : s.hiBoundEnforced = false) :
    (∀ e, (ExplicitBracket.entry f s xAccuracy ((a + b) / 2) a b).result ≠ .failed e) ∧
    ∀ x, ExplicitBracket.solve hook f s xAccuracy ((a + b) / 2) a b = .ok x →
      |f x| ≤ QL_MAX (QL_FABS xAccuracy) QL_EPSILON ∧
      (QL_EPSILON ≤ xAccuracy → |f x| ≤ xAccuracy) := by
  have hmain : ∀ x, ExplicitBracket.solve hook f s xAccuracy ((a + b) / 2) a b = .ok x →
      |f x| ≤ QL_MAX (QL_FABS xAccuracy) QL_EPSILON := by
    intro x hx
    unfold ExplicitBracket.solve Outcome.finish at hx
    split at hx
    · next y hy =>
      cases hx
      have := (ExplicitBracket.returned_lt f s xAccuracy _ a b _ hy).2
      exact le_trans this.le (le_trans (le_abs_self _) (le_max_left _ _))
    · cases hx
    · next acc hacc =>
      have := ExplicitBracket.refine_accuracy f s xAccuracy _ a b _ hacc
      subst this
      exact hc _ _ _ hx
  refine ⟨?_, fun x hx => ⟨hmain x hx, fun he => ?_⟩⟩
  · intro e he
    have hg1 : a < (a + b) / 2 := by linarith
    have hg2 : (a + b) / 2 < b := by linarith
    simp only [ExplicitBracket.entry, hlow, hhi] at he
    split_ifs at he <;> simp_all
  · have h := hmain x hx
    have h0 : 0 ≤ xAccuracy := le_trans QL_EPSILON_pos.le he
    rwa [QL_MAX, QL_FABS, abs_of_nonneg h0, max_eq_left he] at h

/-- C1 (amended), at a concrete input: `f(x) = x` on `[-1, 2]`, `xAccuracy = 2^-60`. -/
theorem explicit_solve_accuracy_witness :
    (∀ e, (ExplicitBracket.entry (fun x => x) plainSolver (1 / 2 ^ 60) ((-1 + 2) / 2) (-1) 2).result
      ≠ .failed e) ∧
    ∀ x, ExplicitBracket.solve accuracyHook (fun x => x) plainSolver (1 / 2 ^ 60) ((-1 + 2) / 2) (-1) 2 = .ok x →
      |(fun x : ℚ => x) x| ≤ QL_MAX (QL_FABS (1 / 2 ^ 60)) QL_EPSILON ∧
      (QL_EPSILON ≤ 1 / 2 ^ 60 → |(fun x : ℚ => x) x| ≤ 1 / 2 ^ 60) :=
  explicit_solve_accuracy accuracyHook (fun x => x) plainSolver (1 / 2 ^ 60) (-1) 2
    (accuracyHook_meetsContract _ (fun _ => rfl)) (by norm_num) (by norm_num) rfl rfl

/-- C2: with a refinement step that meets its contract, the call `solve(f, xAccuracy, guess,
step)` always ends, and every value `x` it returns (by the early exit, as an exact-zero
endpoint, or from `solve_`) satisfies `|f(x)| <= max(|xAccuracy|, QL_EPSILON)`. -/
theorem guess_step_accuracy (hook : RefineHook) (f : ℚ → ℚ) (s : Solver1D)
    (xAccuracy guess step : ℚ) (hc : hook.MeetsContract f) :
    (∃ r, GuessStep.solve hook f s xAccuracy guess step = some r) ∧
    ∀ x, GuessStep.solve hook f s xAccuracy guess step = some (.ok x) →
      |f x| ≤ QL_MAX (QL_FABS xAccuracy) QL_EPSILON := by
  obtain ⟨o, ho⟩ := GuessStep.entry_isSome f s xAccuracy guess step
  refine ⟨⟨o.finish hook f, by simp only [GuessStep.solve, ho, Option.map_some']⟩, fun x hx => ?_⟩
  obtain ⟨hret, hacc⟩ := GuessStep.entry_result f s xAccuracy guess step o ho
  simp only [GuessStep.solve, ho, Option.map_some', Option.some.injEq, Outcome.finish] at hx
  split at hx
  · next y hy =>
    cases hx
    rcases hret _ hy with h | h
    · exact le_trans h (le_trans (le_abs_self _) (le_max_left _ _))
    · rw [h, abs_zero]
      exact (effectiveAccuracy_pos xAccuracy).le
  · cases hx
  · next acc hy =>
    rw [hacc acc hy] at hx
    exact hc _ _ _ hx

/-- C2 at the spec's input: `f(x) = x - 3`, `xAccuracy = 10^-10`, guess `0`, step `1`, no bound
enforced.  With the budget of 100 evaluations and a refinement step that returns `3`,
the call returns `3`; and for every budget of at least 4 evaluations and every
refinement step that meets its contract, the call is the call of `solve_` on the
bracket `[0, 6.76]`, and whatever it returns is within `10^-10` of `3`. -/
theorem guess_step_accuracy_witness :
    GuessStep.solve threeHook (fun x => x - 3) plainSolver (1 / 10 ^ 10) 0 1 = some (.ok 3) ∧
    |(fun x : ℚ => x - 3) 3| ≤ QL_MAX (QL_FABS (1 / 10 ^ 10)) QL_EPSILON ∧
    ∀ (hook : RefineHook) (s : Solver1D), hook.MeetsContract (fun x => x - 3) →
      s.lowBoundEnforced = false → s.hiBoundEnforced = false → 4 ≤ s.maxEvaluations →
      GuessStep.solve hook (fun x => x - 3) s (1 / 10 ^ 10) 0 1 =
        some (hook (fun x => x - 3) (1 / 10 ^ 10)
          { s with root := 169 / 50, xMin := 0, xMax := 169 / 25, fxMin := -3,
                   fxMax := 94 / 25, evaluationNumber := 4 }) ∧
      ∀ x, GuessStep.solve hook (fun x => x - 3) s (1 / 10 ^ 10) 0 1 = some (.ok x) →
        |x - 3| ≤ 1 / 10 ^ 10 := by
  have gen : ∀ (hook : RefineHook) (s : Solver1D), hook.MeetsContract (fun x => x - 3) →
      s.lowBoundEnforced = false → s.hiBoundEnforced = false → 4 ≤ s.maxEvaluations →
      GuessStep.solve hook (fun x => x - 3) s (1 / 10 ^ 10) 0 1 =
        some (hook (fun x => x - 3) (1 / 10 ^ 10)
          { s with root := 169 / 50, xMin := 0, xMax := 169 / 25, fxMin := -3,
                   fxMax := 94 / 25, evaluationNumber := 4 }) ∧
      ∀ x, GuessStep.solve hook (fun x => x - 3) s (1 / 10 ^ 10) 0 1 = some (.ok x) →
        |x - 3| ≤ 1 / 10 ^ 10 := by
    intro hook s hc hlow hhi hmax
    refine ⟨?_, fun x hx => ?_⟩
    · simp only [GuessStep.solve, GuessStep.entry_linear s hlow hhi hmax, Option.map_some', Outcome.finish,
        effectiveAccuracy_tenth]
    · have h := (guess_step_accuracy hook (fun x => x - 3) s (1 / 10 ^ 10) 0 1 hc).2 x hx
      rwa [effectiveAccuracy_tenth] at h
  have h3 : GuessStep.solve threeHook (fun x => x - 3) plainSolver (1 / 10 ^ 10) 0 1 = some (.ok 3) := by
    rw [(gen threeHook plainSolver threeHook_meetsContract rfl rfl (by decide)).1]
    simp only [threeHook]
    norm_num
  exact ⟨h3,
    (guess_step_accuracy threeHook (fun x => x - 3) plainSolver (1 / 10 ^ 10) 0 1
      threeHook_meetsContract).2 3 h3, gen⟩

/-- C3: whatever the objective, accuracy, guess and bounds, a call with `xMin >= xMax`
fails with `InvalidRange` and evaluates `f` nowhere. -/
theorem explicit_invalid_range (f : ℚ → ℚ) (s : Solver1D) (xAccuracy guess xMin xMax : ℚ)
    (h : xMin ≥ xMax) :
    (ExplicitBracket.entry f s xAccuracy guess xMin xMax).result = .failed (.invalidRange xMin xMax) ∧
    (ExplicitBracket.entry f s xAccuracy guess xMin xMax).FailsWith .InvalidRange ∧
    (ExplicitBracket.entry f s xAccuracy guess xMin xMax).evals = [] ∧
    ∀ hook, ExplicitBracket.solve hook f s xAccuracy guess xMin xMax = .error (.invalidRange xMin xMax) := by
  have e : ExplicitBracket.entry f s xAccuracy guess xMin xMax =
      ⟨.failed (.invalidRange xMin xMax), { s with xMin := xMin, xMax := xMax }, []⟩ := by
    simp only [ExplicitBracket.entry, not_lt.mpr h, not_false_eq_true, if_true]
  refine ⟨by rw [e], ⟨.invalidRange xMin xMax, by rw [e], rfl⟩, by rw [e], fun hook => ?_⟩
  simp only [ExplicitBracket.solve, e, Outcome.finish]

/-- C3 at the spec's input: the reversed bracket `[2, 1]`. -/
theorem explicit_invalid_range_witness :
    (ExplicitBracket.entry (fun x => x + 5) boundedSolver (1 / 10 ^ 10) 1 2 1).result
      = .failed (.invalidRange 2 1) ∧
    (ExplicitBracket.entry (fun x => x + 5) boundedSolver (1 / 10 ^ 10) 1 2 1).FailsWith .InvalidRange ∧
    (ExplicitBracket.entry (fun x => x + 5) boundedSolver (1 / 10 ^ 10) 1 2 1).evals = [] ∧
    ∀ hook, ExplicitBracket.solve hook (fun x => x + 5) boundedSolver (1 / 10 ^ 10) 1 2 1
      = .error (.invalidRange 2 1) :=
  explicit_invalid_range (fun x => x + 5) boundedSolver (1 / 10 ^ 10) 1 2 1 (by norm_num)

/-- C5: for a bracket `xMin < xMax` within the enforced bounds, if `|f(xMin)| >= xAccuracy`,
`|f(xMax)| >= xAccuracy` and `f(xMin)*f(xMax) > 0`, the call fails with
`RootNotBracketed` after exactly the two evaluations `f(xMin)`, `f(xMax)`, and `solve_`
is never called, whatever it is. -/
theorem explicit_root_not_bracketed (f : ℚ → ℚ) (s : Solver1D)
    (xAccuracy guess xMin xMax : ℚ) (hlt : xMin < xMax)
    (hb : BracketWithinBounds s xMin xMax)
    (h1 : |f xMin| ≥ xAccuracy) (h2 : |f xMax| ≥ xAccuracy) (hs : f xMin * f xMax > 0) :
    (ExplicitBracket.entry f s xAccuracy guess xMin xMax).FailsWith .RootNotBracketed ∧
    (ExplicitBracket.entry f s xAccuracy guess xMin xMax).evals = [xMin, xMax] ∧
    (ExplicitBracket.entry f s xAccuracy guess xMin xMax).evals.length = 2 ∧
    ¬ (ExplicitBracket.entry f s xAccuracy guess xMin xMax).Refines ∧
    ∀ hook, ExplicitBracket.solve hook f s xAccuracy guess xMin xMax
      = .error (.rootNotBracketed xMin xMax (f xMin) (f xMax)) := by
  have e : ExplicitBracket.entry f s xAccuracy guess xMin xMax =
      ⟨.failed (.rootNotBracketed xMin xMax (f xMin) (f xMax)),
        ExplicitBracket.afterEvaluations f s xMin xMax, [xMin, xMax]⟩ := by
    rw [ExplicitBracket.entry_of_valid f s xAccuracy guess xMin xMax hlt hb, if_neg (not_lt.mpr h1),
      if_neg (not_lt.mpr h2), if_pos (not_lt.mpr hs.le)]
  refine ⟨⟨.rootNotBracketed xMin xMax (f xMin) (f xMax), by rw [e], rfl⟩, by rw [e],
    by rw [e]; rfl, ?_, fun hook => ?_⟩
  · rintro ⟨acc, h⟩
    rw [e] at h
    cases h
  · simp only [ExplicitBracket.solve, e, Outcome.finish]

/-- C5 at the spec's input: `f(x) = x + 5` on `[1, 2]`. -/
theorem explicit_root_not_bracketed_witness :
    (ExplicitBracket.entry (fun x => x + 5) plainSolver (1 / 10 ^ 10) (3 / 2) 1 2).FailsWith .RootNotBracketed ∧
    (ExplicitBracket.entry (fun x => x + 5) plainSolver (1 / 10 ^ 10) (3 / 2) 1 2).evals = [1, 2] ∧
    (ExplicitBracket.entry (fun x => x + 5) plainSolver (1 / 10 ^ 10) (3 / 2) 1 2).evals.length = 2 ∧
    ¬ (ExplicitBracket.entry (fun x => x + 5) plainSolver (1 / 10 ^ 10) (3 / 2) 1 2).Refines ∧
    ∀ hook, ExplicitBracket.solve hook (fun x => x + 5) plainSolver (1 / 10 ^ 10) (3 / 2) 1 2
      = .error (.rootNotBracketed 1 2 ((fun x : ℚ => x + 5) 1) ((fun x : ℚ => x + 5) 2)) :=
  explicit_root_not_bracketed (fun x => x + 5) plainSolver (1 / 10 ^ 10) (3 / 2) 1 2
    (by norm_num) ⟨by simp [plainSolver], by simp [plainSolver]⟩
    (by rw [abs_of_pos (by norm_num)]; norm_num)
    (by rw [abs_of_pos (by norm_num)]; norm_num) (by norm_num)

/-- C7: for `xMin < xMax`, the call fails with `BoundViolation` if and only if an enforced
bound is violated by the bracket (`lowBoundEnforced` and `xMin < lowBound`, or
`hiBoundEnforced` and `xMax > hiBound`), and then `f` is evaluated nowhere; changing the
value of a bound that is not enforced changes nothing but that stored value; and every
point at which the entry evaluates `f` lies within the enforced bounds. -/
theorem explicit_bound_violation (f : ℚ → ℚ) (s : Solver1D)
    (xAccuracy guess xMin xMax : ℚ) (hlt : xMin < xMax) :
    ((ExplicitBracket.entry f s xAccuracy guess xMin xMax).FailsWith .BoundViolation ↔
      ((s.lowBoundEnforced = true ∧ xMin < s.lowBound) ∨
       (s.hiBoundEnforced = true ∧ xMax > s.hiBound))) ∧
    ((ExplicitBracket.entry f s xAccuracy guess xMin xMax).FailsWith .BoundViolation →
      (ExplicitBracket.entry f s xAccuracy guess xMin xMax).evals = []) ∧
    (∀ b, s.lowBoundEnforced = false →
      (ExplicitBracket.entry f { s with lowBound := b } xAccuracy guess xMin xMax).result
          = (ExplicitBracket.entry f s xAccuracy guess xMin xMax).result ∧
      (ExplicitBracket.entry f { s with lowBound := b } xAccuracy guess xMin xMax).evals
          = (ExplicitBracket.entry f s xAccuracy guess xMin xMax).evals ∧
      (ExplicitBracket.entry f { s with lowBound := b } xAccuracy guess xMin xMax).state
          = { (ExplicitBracket.entry f s xAccuracy guess xMin xMax).state with lowBound := b }) ∧
    (∀ b, s.hiBoundEnforced = false →
      (ExplicitBracket.entry f { s with hiBound := b } xAccuracy guess xMin xMax).result
          = (ExplicitBracket.entry f s xAccuracy guess xMin xMax).result ∧
      (ExplicitBracket.entry f { s with hiBound := b } xAccuracy guess xMin xMax).evals
          = (ExplicitBracket.entry f s xAccuracy guess xMin xMax).evals ∧
      (ExplicitBracket.entry f { s with hiBound := b } xAccuracy guess xMin xMax).state
          = { (ExplicitBracket.entry f s xAccuracy guess xMin xMax).state with hiBound := b }) ∧
    (∀ x ∈ (ExplicitBracket.entry f s xAccuracy guess xMin xMax).evals, WithinBounds s x) := by
  have hiff : (ExplicitBracket.entry f s xAccuracy guess xMin xMax).FailsWith .BoundViolation ↔
      ¬ BracketWithinBounds s xMin xMax := by
    constructor
    · rintro ⟨e, he, hk⟩ hb
      rw [ExplicitBracket.entry_of_valid f s xAccuracy guess xMin xMax hlt hb] at he
      split_ifs at he <;> cases he <;> simp only [SolverError.kind, reduceCtorEq] at hk
    · intro hb
      rw [ExplicitBracket.entry_of_bound_violation f s xAccuracy guess xMin xMax hlt hb]
      split_ifs
      · exact ⟨_, rfl, rfl⟩
      · exact ⟨_, rfl, rfl⟩
  have hcond : ¬ BracketWithinBounds s xMin xMax ↔
      ((s.lowBoundEnforced = true ∧ xMin < s.lowBound) ∨
       (s.hiBoundEnforced = true ∧ xMax > s.hiBound)) := by
    simp only [BracketWithinBounds, not_and_or, not_forall, not_le, exists_prop, gt_iff_lt]
  refine ⟨hiff.trans hcond, fun hf => ?_, fun b hb => ?_, fun b hb => ?_, fun x hx => ?_⟩
  · rw [ExplicitBracket.entry_of_bound_violation f s xAccuracy guess xMin xMax hlt (hiff.mp hf)]
    split_ifs <;> rfl
  · simp only [ExplicitBracket.entry, hb, true_or, not_true_eq_false, if_false]
    split_ifs <;> exact ⟨rfl, rfl, rfl⟩
  · simp only [ExplicitBracket.entry, hb, true_or, not_true_eq_false, if_false]
    split_ifs <;> exact ⟨rfl, rfl, rfl⟩
  · by_cases hb : BracketWithinBounds s xMin xMax
    · have hmem : x = xMin ∨ x = xMax := by
        rw [ExplicitBracket.entry_of_valid f s xAccuracy guess xMin xMax hlt hb] at hx
        split_ifs at hx <;> simp only [List.mem_cons, List.mem_singleton, List.not_mem_nil,
          or_false] at hx <;> tauto
      obtain ⟨hlo, hhi⟩ := hb
      rcases hmem with rfl | rfl
      · exact ⟨hlo, fun h => le_trans hlt.le (hhi h)⟩
      · exact ⟨fun h => le_trans (hlo h) hlt.le, hhi⟩
    · rw [ExplicitBracket.entry_of_bound_violation f s xAccuracy guess xMin xMax hlt hb] at hx
      split_ifs at hx <;> simp only [List.not_mem_nil] at hx

/-- C7 at a concrete input: with the bounds `[0, 10]` enforced, the bracket `[-1, 2]` fails
with `BoundViolation` before any evaluation. -/
theorem explicit_bound_violation_witness :
    (ExplicitBracket.entry (fun x => x) boundedSolver (1 / 10 ^ 10) 1 (-1) 2).FailsWith .BoundViolation ∧
    (ExplicitBracket.entry (fun x => x) boundedSolver (1 / 10 ^ 10) 1 (-1) 2).evals = [] :=
  have h := explicit_bound_violation (fun x => x) boundedSolver (1 / 10 ^ 10) 1 (-1) 2
    (by norm_num)
  have hf := h.1.2 (Or.inl ⟨rfl, by simp [boundedSolver, plainSolver]⟩)
  ⟨hf, h.2.1 hf⟩

/-- C8: once the range and bound checks pass, `|f(xMin)| < xAccuracy` makes the call return
exactly `xMin` after the single evaluation `f(xMin)`; otherwise `|f(xMax)| < xAccuracy`
makes it return exactly `xMax` after the two evaluations; `solve_` is not called in
either case.  The comparisons are strict: with `|f(xMin)| = xAccuracy` the call goes on
to evaluate `f(xMax)` and does not return `xMin`, and with neither `|f|` below
`xAccuracy` and `|f(xMax)| = xAccuracy` the entry returns nothing itself. -/
theorem explicit_early_return (f : ℚ → ℚ) (s : Solver1D)
    (xAccuracy guess xMin xMax : ℚ) (hlt : xMin < xMax)
    (hb : BracketWithinBounds s xMin xMax) :
    (|f xMin| < xAccuracy →
      ExplicitBracket.entry f s xAccuracy guess xMin xMax =
        ⟨.returned xMin, { s with xMin := xMin, xMax := xMax, fxMin := f xMin }, [xMin]⟩ ∧
      ∀ hook, ExplicitBracket.solve hook f s xAccuracy guess xMin xMax = .ok xMin) ∧
    (¬ |f xMin| < xAccuracy → |f xMax| < xAccuracy →
      ExplicitBracket.entry f s xAccuracy guess xMin xMax =
        ⟨.returned xMax,
          { s with xMin := xMin, xMax := xMax, fxMin := f xMin, fxMax := f xMax },
          [xMin, xMax]⟩ ∧
      ∀ hook, ExplicitBracket.solve hook f s xAccuracy guess xMin xMax = .ok xMax) ∧
    (|f xMin| = xAccuracy →
      (ExplicitBracket.entry f s xAccuracy guess xMin xMax).evals = [xMin, xMax] ∧
      (ExplicitBracket.entry f s xAccuracy guess xMin xMax).result ≠ .returned xMin) ∧
    (¬ |f xMin| < xAccuracy → |f xMax| = xAccuracy →
      ∀ x, (ExplicitBracket.entry f s xAccuracy guess xMin xMax).result ≠ .returned x) := by
  have hv := ExplicitBracket.entry_of_valid f s xAccuracy guess xMin xMax hlt hb
  refine ⟨fun h1 => ?_, fun h1 h2 => ?_, fun h1 => ?_, fun h1 h2 x => ?_⟩
  · have e : ExplicitBracket.entry f s xAccuracy guess xMin xMax =
        ⟨.returned xMin, { s with xMin := xMin, xMax := xMax, fxMin := f xMin }, [xMin]⟩ := by
      rw [hv, if_pos h1]; rfl
    exact ⟨e, fun hook => by simp only [ExplicitBracket.solve, e, Outcome.finish]⟩
  · have e : ExplicitBracket.entry f s xAccuracy guess xMin xMax =
        ⟨.returned xMax,
          { s with xMin := xMin, xMax := xMax, fxMin := f xMin, fxMax := f xMax },
          [xMin, xMax]⟩ := by
      rw [hv, if_neg h1, if_pos h2]; rfl
    exact ⟨e, fun hook => by simp only [ExplicitBracket.solve, e, Outcome.finish]⟩
  · have h1' : ¬ |f xMin| < xAccuracy := not_lt.mpr h1.ge
    rw [hv, if_neg h1']
    constructor
    · split_ifs <;> rfl
    · split_ifs <;> simp only [ne_eq, Step.returned.injEq, reduceCtorEq, not_false_eq_true]
      exact hlt.ne'
  · have h2' : ¬ |f xMax| < xAccuracy := not_lt.mpr h2.ge
    rw [hv, if_neg h1, if_neg h2']
    split_ifs <;> simp only [ne_eq, reduceCtorEq, not_false_eq_true]

/-- C8 at a concrete input: `f(x) = x` on `[0, 2]` with `xAccuracy = 1/2` returns `xMin = 0`
after one evaluation. -/
theorem explicit_early_return_witness :
    ExplicitBracket.entry (fun x => x) plainSolver (1 / 2) 1 0 2 =
      ⟨.returned 0, { plainSolver with xMin := 0, xMax := 2, fxMin := (fun x : ℚ => x) 0 }, [0]⟩ ∧
    ∀ hook, ExplicitBracket.solve hook (fun x => x) plainSolver (1 / 2) 1 0 2 = .ok 0 :=
  (explicit_early_return (fun x => x) plainSolver (1 / 2) 1 0 2 (by norm_num)
    ⟨by simp [plainSolver], by simp [plainSolver]⟩).1 (by norm_num)

/-- C9: if `|f(guess)| <= xAccuracy`, the call returns exactly `guess` after the single
evaluation `f(guess)`, for every step, every bound configuration and every
`maxEvaluations`; in particular when `|f(guess)| = xAccuracy`. -/
theorem guess_step_early_exit (f : ℚ → ℚ) (s : Solver1D) (xAccuracy guess step : ℚ)
    (h : |f guess| ≤ xAccuracy) :
    GuessStep.entry f s xAccuracy guess step =
      some ⟨.returned guess, { s with root := guess, fxMax := f guess }, [guess]⟩ ∧
    ∀ hook, GuessStep.solve hook f s xAccuracy guess step = some (.ok guess) := by
  have e : GuessStep.entry f s xAccuracy guess step =
      some ⟨.returned guess, { s with root := guess, fxMax := f guess }, [guess]⟩ := by
    simp only [GuessStep.entry, QL_FABS, h, if_true]
  exact ⟨e, fun hook => by simp only [GuessStep.solve, e, Option.map_some', Outcome.finish]⟩

/-- C9 at a concrete input: `f(x) = x - 3` at guess `2` with `xAccuracy = 1`, where
`|f(guess)| = xAccuracy` exactly, on a solver whose budget is `maxEvaluations = 0`. -/
theorem guess_step_early_exit_witness :
    GuessStep.entry (fun x => x - 3) { boundedSolver with maxEvaluations := 0 } 1 2 5 =
      some ⟨.returned 2,
        { boundedSolver with maxEvaluations := 0, root := 2, fxMax := (fun x : ℚ => x - 3) 2 },
        [2]⟩ ∧
    ∀ hook, GuessStep.solve hook (fun x => x - 3) { boundedSolver with maxEvaluations := 0 } 1 2 5
      = some (.ok 2) :=
  guess_step_early_exit (fun x => x - 3) { boundedSolver with maxEvaluations := 0 } 1 2 5
    (by rw [abs_of_neg (by norm_num)]; norm_num)

/-- C12: when a pass of the loop of the call `solve(f, xAccuracy, guess, step)` finds
`fxMin*fxMax <= 0` with an endpoint value exactly zero, the call returns that endpoint
(`xMin` if `fxMin = 0`, also when both are zero, otherwise `xMax`) without calling
`solve_`, and the returned `x` has `f(x) = 0`. -/
theorem guess_step_exact_zero (f : ℚ → ℚ) (s : Solver1D) (xAccuracy guess step : ℚ)
    (v : GuessStep.LoopVars) (hr : GuessStep.Reached f s xAccuracy guess step v)
    (hc : v.2.1.evaluationNumber ≤ v.2.1.maxEvaluations)
    (hp : v.2.1.fxMin * v.2.1.fxMax ≤ 0)
    (hz : v.2.1.fxMin = 0 ∨ v.2.1.fxMax = 0) :
    GuessStep.entry f s xAccuracy guess step =
      some ⟨.returned (if v.2.1.fxMin = 0 then v.2.1.xMin else v.2.1.xMax), v.2.1, v.2.2⟩ ∧
    f (if v.2.1.fxMin = 0 then v.2.1.xMin else v.2.1.xMax) = 0 ∧
    ∀ hook, GuessStep.solve hook f s xAccuracy guess step =
      some (.ok (if v.2.1.fxMin = 0 then v.2.1.xMin else v.2.1.xMax)) := by
  have hv := GuessStep.Reached.valuesAtEndpoints f s xAccuracy guess step v hr
  have hbody : GuessStep.loopBody f xAccuracy v.1 v.2.1 v.2.2 =
      .inl ⟨.returned (if v.2.1.fxMin = 0 then v.2.1.xMin else v.2.1.xMax), v.2.1, v.2.2⟩ := by
    by_cases h0 : v.2.1.fxMin = 0
    · rw [if_pos h0]
      unfold GuessStep.loopBody
      rw [if_pos hp, if_pos h0]
    · have h1 : v.2.1.fxMax = 0 := hz.resolve_left h0
      rw [if_neg h0]
      unfold GuessStep.loopBody
      rw [if_pos hp, if_neg h0, if_pos h1]
  have he := GuessStep.entry_of_reached_inl f s xAccuracy guess step v _ hr hc hbody
  refine ⟨he, ?_, fun hook => ?_⟩
  · by_cases h0 : v.2.1.fxMin = 0
    · rw [if_pos h0, ← hv.1]; exact h0
    · rw [if_neg h0, ← hv.2]; exact hz.resolve_left h0
  · simp only [GuessStep.solve, he, Option.map_some', Outcome.finish]

/-- C12 at concrete inputs: for `f(x) = x - 1`, guess `0`, step `1`, the initial bracket
`[0, 1]` has `fxMax = f(1) = 0`, and the call returns `xMax = 1`; for `f(x) = 0`,
`xAccuracy = -1`, guess `5`, step `1`, both values of the initial bracket `[5, 6]` are
zero, and the call returns `xMin = 5`. -/
theorem guess_step_exact_zero_witness :
    ((GuessStep.entry (fun x => x - 1) plainSolver (1 / 10 ^ 10) 0 1).map Outcome.result
      = some (.returned 1) ∧
     (fun x : ℚ => x - 1) 1 = 0) ∧
    (GuessStep.entry (fun _ => 0) plainSolver (-1) 5 1).map Outcome.result
      = some (.returned 5) := by
  refine ⟨?_, ?_⟩
  swap
  · have hne : ¬ QL_FABS ((fun _ : ℚ => (0 : ℚ)) 5) ≤ -1 := by
      simp only [QL_FABS, abs_zero]
      norm_num
    have hpos : ¬ (0 : ℚ) < (fun _ : ℚ => (0 : ℚ)) 5 := lt_irrefl _
    have hmin : (GuessStep.initialBracket (fun _ => 0) plainSolver 5 1).fxMin = 0 := by
      simp only [GuessStep.initialBracket, hpos, if_false]
    have hx : (GuessStep.initialBracket (fun _ => 0) plainSolver 5 1).xMin = 5 := by
      simp only [GuessStep.initialBracket, hpos, if_false]
    have hn : (GuessStep.initialBracket (fun _ => 0) plainSolver 5 1).evaluationNumber
        ≤ (GuessStep.initialBracket (fun _ => 0) plainSolver 5 1).maxEvaluations := by
      rw [(GuessStep.initialBracket_spec _ _ _ _).2.2.2,
        (GuessStep.initialBracket_spec _ _ _ _).2.1]
      decide
    have h := guess_step_exact_zero (fun _ => 0) plainSolver (-1) 5 1
      (GuessStep.initialVars (fun _ => 0) plainSolver 5 1)
      ⟨hne, Relation.ReflTransGen.refl⟩ hn
      (by simp only [GuessStep.initialVars, hmin, zero_mul, le_refl])
      (Or.inl hmin)
    simp only [GuessStep.initialVars, hmin, hx, if_true] at h
    rw [h.1]
    rfl
  have hne : ¬ QL_FABS ((fun x : ℚ => x - 1) 0) ≤ 1 / 10 ^ 10 := by
    simp only [QL_FABS]
    rw [abs_of_neg (by norm_num)]
    norm_num
  have hpos : ¬ (0 : ℚ) < (fun x : ℚ => x - 1) 0 := by norm_num
  have hmax : (GuessStep.initialBracket (fun x => x - 1) plainSolver 0 1).fxMax = 0 := by
    simp only [GuessStep.initialBracket, hpos, if_false, enforceBounds_, plainSolver]
    norm_num
  have hmin : (GuessStep.initialBracket (fun x => x - 1) plainSolver 0 1).fxMin = -1 := by
    simp only [GuessStep.initialBracket, hpos, if_false]
    norm_num
  have hx : (GuessStep.initialBracket (fun x => x - 1) plainSolver 0 1).xMax = 1 := by
    simp only [GuessStep.initialBracket, hpos, if_false, enforceBounds_, plainSolver]
    norm_num
  have hn : (GuessStep.initialBracket (fun x => x - 1) plainSolver 0 1).evaluationNumber
      ≤ (GuessStep.initialBracket (fun x => x - 1) plainSolver 0 1).maxEvaluations := by
    rw [(GuessStep.initialBracket_spec _ _ _ _).2.2.2, (GuessStep.initialBracket_spec _ _ _ _).2.1]
    decide
  have h := guess_step_exact_zero (fun x => x - 1) plainSolver (1 / 10 ^ 10) 0 1
    (GuessStep.initialVars (fun x => x - 1) plainSolver 0 1)
    ⟨hne, Relation.ReflTransGen.refl⟩ hn
    (by simp only [GuessStep.initialVars, hmax, mul_zero, le_refl])
    (Or.inr hmax)
  simp only [GuessStep.initialVars, hmin, hx, neg_eq_zero, one_ne_zero, if_false] at h
  exact ⟨by rw [h.1]; rfl, by norm_num⟩

/-- C13: with `lowBound <= hiBound` and a guess within the enforced bounds, every point at
which the call `solve(f, xAccuracy, guess, step)` evaluates `f` respects the enforced
bounds, and so do both endpoints of the bracket handed to `solve_`; when `f(guess) > 0`
and the early exit is not taken, the second evaluation is at the clamped candidate
`enforceBounds_(guess - step)`. -/
theorem guess_step_within_bounds (f : ℚ → ℚ) (s : Solver1D) (xAccuracy guess step : ℚ)
    (o : Outcome) (hb : s.lowBound ≤ s.hiBound) (hg : WithinBounds s guess)
    (h : GuessStep.entry f s xAccuracy guess step = some o) :
    (∀ x ∈ o.evals, WithinBounds s x) ∧
    (o.Refines → WithinBounds s o.state.xMin ∧ WithinBounds s o.state.xMax) ∧
    (¬ QL_FABS (f guess) ≤ xAccuracy → 0 < f guess →
      [guess, s.enforceBounds_ (guess - step)] <+: o.evals) := by
  by_cases he : QL_FABS (f guess) ≤ xAccuracy
  · rw [GuessStep.entry_of_early_exit f s xAccuracy guess step he] at h
    cases h
    refine ⟨fun x hx => ?_, fun hr => ?_, fun hne => absurd he hne⟩
    · rw [List.mem_singleton.mp hx]; exact hg
    · obtain ⟨acc, hacc⟩ := hr
      cases hacc
  · obtain ⟨v, hreach, hcase⟩ := GuessStep.entry_exit f s xAccuracy guess step o he h
    obtain ⟨-, hev, hmin, hmax, hpre⟩ :=
      GuessStep.Reached.withinBounds f s xAccuracy guess step hb hg v hreach
    have hstate : o.evals = v.2.2 ∧ o.state.xMin = v.2.1.xMin ∧ o.state.xMax = v.2.1.xMax := by
      rcases hcase with ⟨-, hbody⟩ | ⟨-, rfl⟩
      · obtain ⟨-, h1 | h1 | h1⟩ :=
          GuessStep.loopBody_inl_cases f xAccuracy v.1 v.2.1 v.2.2 o hbody
        · rw [h1.2]; exact ⟨rfl, rfl, rfl⟩
        · rw [h1.2.2]; exact ⟨rfl, rfl, rfl⟩
        · rw [h1.2.2]; exact ⟨rfl, rfl, rfl⟩
      · exact ⟨rfl, rfl, rfl⟩
    obtain ⟨e1, e2, e3⟩ := hstate
    refine ⟨fun x hx => hev x (e1 ▸ hx), fun _ => ⟨e2 ▸ hmin, e3 ▸ hmax⟩, fun _ hpos => ?_⟩
    rw [e1]
    simpa only [GuessStep.initialEvals, hpos, if_true] using hpre

/-- C13 at the spec's input: `lowBound = 0` enforced, guess `0.5`, step `1` and
`f(x) = x + 1`, positive at the guess, with a budget of 100 evaluations: `f` is evaluated
only at points `>= 0`, and the second evaluation is at `0`, not at `-0.5`. -/
theorem guess_step_within_bounds_witness :
    ∃ o, GuessStep.entry (fun x => x + 1) boundedSolver (1 / 10 ^ 10) (1 / 2) 1 = some o ∧
      (∀ x ∈ o.evals, WithinBounds boundedSolver x) ∧
      [1 / 2, 0] <+: o.evals := by
  obtain ⟨o, ho⟩ := GuessStep.entry_isSome (fun x => x + 1) boundedSolver (1 / 10 ^ 10) (1 / 2) 1
  have h := guess_step_within_bounds (fun x => x + 1) boundedSolver (1 / 10 ^ 10) (1 / 2) 1 o
    (by simp [boundedSolver, plainSolver])
    ⟨fun _ => by simp [boundedSolver, plainSolver],
     fun _ => by simp only [boundedSolver, plainSolver]; norm_num⟩ ho
  have hne : ¬ QL_FABS ((fun x : ℚ => x + 1) (1 / 2)) ≤ 1 / 10 ^ 10 := by
    simp only [QL_FABS]
    rw [abs_of_pos (by norm_num)]
    norm_num
  have hclamp : boundedSolver.enforceBounds_ (1 / 2 - 1) = 0 := by
    simp only [enforceBounds_, boundedSolver, plainSolver]
    norm_num
  have h3 := h.2.2 hne (by norm_num)
  rw [hclamp] at h3
  exact ⟨o, ho, h.1, h3⟩

/-- C14 (the code at the failing input): with `lowBound = 0` enforced, the call with guess
`-1` and `f(x) = x + 1` evaluates `f` at `-1`, outside the bound, and returns `-1`. -/
theorem guess_step_guess_outside_bound :
    GuessStep.entry (fun x => x + 1) boundedSolver (1 / 10 ^ 10) (-1) 1 =
      some ⟨.returned (-1),
        { boundedSolver with root := -1, fxMax := (fun x : ℚ => x + 1) (-1) }, [-1]⟩ ∧
    boundedSolver.lowBoundEnforced = true ∧ (-1 : ℚ) < boundedSolver.lowBound ∧
    ¬ WithinBounds boundedSolver (-1) := by
  refine ⟨GuessStep.entry_of_early_exit _ _ _ _ _ (by simp only [QL_FABS]; norm_num), rfl,
    by simp only [boundedSolver, plainSolver]; norm_num, ?_⟩
  intro h
  have := h.1 rfl
  simp only [boundedSolver, plainSolver] at this
  norm_num at this

/-- C15 (the code at the failing input): with `maxEvaluations = 2`, the call for
`f(x) = x - 3`, guess `0`, step `1` evaluates `f` three times, at `0`, `1` and `2.6`,
before it fails with "unable to bracket root in 2 function evaluations". -/
theorem guess_step_budget_exceeded :
    GuessStep.entry (fun x => x - 3) { plainSolver with maxEvaluations := 2 } (1 / 10 ^ 10) 0 1 =
      some ⟨.failed (.unableToBracket 2 0 (13 / 5) (-3) (-(2 / 5))),
        { plainSolver with maxEvaluations := 2, root := 0, xMin := 0, xMax := 13 / 5,
                           fxMin := -3, fxMax := -(2 / 5), evaluationNumber := 3 },
        [0, 1, 13 / 5]⟩ ∧
    ([0, 1, 13 / 5] : List ℚ).length = 3 := by
  have a3 : |(-3 : ℚ)| = 3 := by rw [abs_of_neg (by norm_num)]; norm_num
  have a2 : |(-2 : ℚ)| = 2 := by rw [abs_of_neg (by norm_num)]; norm_num
  refine ⟨?_, rfl⟩
  rw [GuessStep.entry_of_nonpos _ _ _ _ _ (by norm_num [a3]) (by norm_num)]
  simp only [enforceBounds_, plainSolver, Bool.false_eq_true, false_and, if_false]
  norm_num only
  rw [show (Int.toNat 1) = 0 + 1 from rfl,
    GuessStep.bracketLoop_succ_inr _ _ _ _ _ _ _ _ _ (by decide)
      (GuessStep.loopBody_widen_max _ _ _ _ _ (by norm_num) (by norm_num [a3, a2]))]
  simp only [enforceBounds_, Bool.false_eq_true, false_and, if_false, growthFactor]
  norm_num only
  rw [GuessStep.bracketLoop_exhausted _ _ _ _ _ _ (by decide)]
  simp only [GuessStep.bracketingError, List.cons_append, List.nil_append]

/-- C16 (the code at the failing input): for the constant objective `f(x) = 1`, guess `0`,
step `1` and `maxEvaluations = 3`, the first pass of the loop is a tie with
`flipflop = -1`; after it `f` has been called three times and `evaluationNumber_` is 4. -/
theorem guess_step_double_count :
    GuessStep.entry (fun _ => 1) { plainSolver with maxEvaluations := 3 } (1 / 10 ^ 10) 0 1 =
      some ⟨.failed (.unableToBracket 3 (-(13 / 5)) 0 1 1),
        { plainSolver with maxEvaluations := 3, root := 0, xMin := -(13 / 5), xMax := 0,
                           fxMin := 1, fxMax := 1, evaluationNumber := 4 },
        [0, -1, -(13 / 5)]⟩ ∧
    ([0, -1, -(13 / 5)] : List ℚ).length = 3 := by
  refine ⟨?_, rfl⟩
  rw [GuessStep.entry_of_pos _ _ _ _ _ (by norm_num) (by norm_num)]
  simp only [enforceBounds_, plainSolver, Bool.false_eq_true, false_and, if_false]
  norm_num only
  rw [show (Int.toNat 2) = 1 + 1 from rfl,
    GuessStep.bracketLoop_succ_inr _ _ _ _ _ _ _ _ _ (by decide)
      (GuessStep.loopBody_tie_min _ _ _ _ (by norm_num) (by norm_num))]
  simp only [enforceBounds_, Bool.false_eq_true, false_and, if_false, growthFactor]
  norm_num only
  rw [GuessStep.bracketLoop_exhausted _ _ _ _ _ _ (by decide)]
  simp only [GuessStep.bracketingError, List.cons_append, List.nil_append]

/-- C17 (the code at the failing input): with `maxEvaluations = 3`, the call for
`f(x) = x - 3`, guess `0`, step `1` fails with `BracketingFailed`, and the bracket
`[0, 6.76]` carried by the error has the values `-3` and `3.76`, of opposite sign. -/
theorem guess_step_failed_with_bracket :
    GuessStep.entry (fun x => x - 3) { plainSolver with maxEvaluations := 3 } (1 / 10 ^ 10) 0 1 =
      some ⟨.failed (.unableToBracket 3 0 (169 / 25) (-3) (94 / 25)),
        { plainSolver with maxEvaluations := 3, root := 0, xMin := 0, xMax := 169 / 25,
                           fxMin := -3, fxMax := 94 / 25, evaluationNumber := 4 },
        [0, 1, 13 / 5, 169 / 25]⟩ ∧
    (SolverError.unableToBracket 3 0 (169 / 25) (-3) (94 / 25)).kind = .BracketingFailed ∧
    (-3 : ℚ) = (fun x : ℚ => x - 3) 0 ∧ (94 / 25 : ℚ) = (fun x : ℚ => x - 3) (169 / 25) ∧
    (-3 : ℚ) * (94 / 25) < 0 := by
  have a3 : |(-3 : ℚ)| = 3 := by rw [abs_of_neg (by norm_num)]; norm_num
  have a2 : |(-2 : ℚ)| = 2 := by rw [abs_of_neg (by norm_num)]; norm_num
  have a25 : |(-(2 / 5) : ℚ)| = 2 / 5 := by rw [abs_of_neg (by norm_num)]; norm_num
  refine ⟨?_, rfl, by norm_num, by norm_num, by norm_num⟩
  rw [GuessStep.entry_of_nonpos _ _ _ _ _ (by norm_num [a3]) (by norm_num)]
  simp only [enforceBounds_, plainSolver, Bool.false_eq_true, false_and, if_false]
  norm_num only
  rw [show (Int.toNat 2) = 1 + 1 from rfl,
    GuessStep.bracketLoop_succ_inr _ _ _ _ _ _ _ _ _ (by decide)
      (GuessStep.loopBody_widen_max _ _ _ _ _ (by norm_num) (by norm_num [a3, a2]))]
  simp only [enforceBounds_, Bool.false_eq_true, false_and, if_false, growthFactor]
  norm_num only
  rw [GuessStep.bracketLoop_succ_inr _ _ _ _ _ _ _ _ _ (by decide)
      (GuessStep.loopBody_widen_max _ _ _ _ _ (by norm_num) (by norm_num [a3, a25]))]
  simp only [enforceBounds_, Bool.false_eq_true, false_and, if_false, growthFactor]
  norm_num only
  rw [GuessStep.bracketLoop_exhausted _ _ _ _ _ _ (by decide)]
  simp only [GuessStep.bracketingError, List.cons_append, List.nil_append]

/-- C18: for both entry points, with the same objective, arguments and configuration
(`maxEvaluations`, bounds), the way the entry ends (returned value or thrown error), the
points at which `f` is evaluated, the fields handed to `solve_` and hence the result of
the whole call are the same whatever values the mutable fields `root`, `xMin`, `xMax`,
`fxMin`, `fxMax` and `evaluationNumber` have when the call starts. -/
theorem solve_state_independent (f : ℚ → ℚ) (s : Solver1D)
    (xAccuracy guess step a b : ℚ) (root xMin xMax fxMin fxMax : ℚ) (n : Int) :
    ((GuessStep.entry f (s.withState root xMin xMax fxMin fxMax n) xAccuracy guess step).map
        Outcome.result = (GuessStep.entry f s xAccuracy guess step).map Outcome.result ∧
     (GuessStep.entry f (s.withState root xMin xMax fxMin fxMax n) xAccuracy guess step).map
        Outcome.evals = (GuessStep.entry f s xAccuracy guess step).map Outcome.evals ∧
     (∀ o, GuessStep.entry f s xAccuracy guess step = some o → o.Refines →
        GuessStep.entry f (s.withState root xMin xMax fxMin fxMax n) xAccuracy guess step
          = some o) ∧
     (∀ hook, GuessStep.solve hook f (s.withState root xMin xMax fxMin fxMax n)
          xAccuracy guess step = GuessStep.solve hook f s xAccuracy guess step)) ∧
    ((ExplicitBracket.entry f (s.withState root xMin xMax fxMin fxMax n)
          xAccuracy guess a b).result = (ExplicitBracket.entry f s xAccuracy guess a b).result ∧
     (ExplicitBracket.entry f (s.withState root xMin xMax fxMin fxMax n)
          xAccuracy guess a b).evals = (ExplicitBracket.entry f s xAccuracy guess a b).evals ∧
     ((ExplicitBracket.entry f s xAccuracy guess a b).Refines →
        ExplicitBracket.entry f (s.withState root xMin xMax fxMin fxMax n) xAccuracy guess a b
          = ExplicitBracket.entry f s xAccuracy guess a b) ∧
     (∀ hook, ExplicitBracket.solve hook f (s.withState root xMin xMax fxMin fxMax n)
          xAccuracy guess a b = ExplicitBracket.solve hook f s xAccuracy guess a b)) := by
  constructor
  · by_cases he : QL_FABS (f guess) ≤ xAccuracy
    · rw [GuessStep.entry_of_early_exit f s xAccuracy guess step he,
        GuessStep.entry_of_early_exit f _ xAccuracy guess step he]
      refine ⟨rfl, rfl, fun o ho hr => ?_, fun hook => ?_⟩
      · cases ho
        obtain ⟨acc, hacc⟩ := hr
        cases hacc
      · simp only [GuessStep.solve, GuessStep.entry_of_early_exit f s xAccuracy guess step he,
          GuessStep.entry_of_early_exit f _ xAccuracy guess step he, Option.map_some',
          Outcome.finish]
    · have e : GuessStep.entry f (s.withState root xMin xMax fxMin fxMax n) xAccuracy guess step
          = GuessStep.entry f s xAccuracy guess step := by
        rw [GuessStep.entry_of_search f s xAccuracy guess step he,
          GuessStep.entry_of_search f _ xAccuracy guess step he,
          (GuessStep.initialBracket_withState f s guess step root xMin xMax fxMin fxMax n).1,
          (GuessStep.initialBracket_withState f s guess step root xMin xMax fxMin fxMax n).2]
        rfl
      refine ⟨by rw [e], by rw [e], fun o ho _ => by rw [e, ho], fun hook => ?_⟩
      simp only [GuessStep.solve, e]
  · have hpair := ExplicitBracket.entry_result_evals f s xAccuracy guess a b
    have hpair' := ExplicitBracket.entry_result_evals f
      (s.withState root xMin xMax fxMin fxMax n) xAccuracy guess a b
    have hpe : ((ExplicitBracket.entry f (s.withState root xMin xMax fxMin fxMax n)
          xAccuracy guess a b).result,
        (ExplicitBracket.entry f (s.withState root xMin xMax fxMin fxMax n)
          xAccuracy guess a b).evals) =
        ((ExplicitBracket.entry f s xAccuracy guess a b).result,
          (ExplicitBracket.entry f s xAccuracy guess a b).evals) := by
      rw [hpair, hpair']
      rfl
    have hres : (ExplicitBracket.entry f (s.withState root xMin xMax fxMin fxMax n)
          xAccuracy guess a b).result = (ExplicitBracket.entry f s xAccuracy guess a b).result ∧
        (ExplicitBracket.entry f (s.withState root xMin xMax fxMin fxMax n)
          xAccuracy guess a b).evals = (ExplicitBracket.entry f s xAccuracy guess a b).evals ∧
        ((ExplicitBracket.entry f s xAccuracy guess a b).Refines →
          ExplicitBracket.entry f (s.withState root xMin xMax fxMin fxMax n) xAccuracy guess a b
            = ExplicitBracket.entry f s xAccuracy guess a b) := by
      refine ⟨(Prod.mk.inj hpe).1, (Prod.mk.inj hpe).2, fun hr => ?_⟩
      obtain ⟨hlt, hb, h1, h2, h3, h4, h5⟩ :=
        ExplicitBracket.refines_conditions f s xAccuracy guess a b hr
      have hb' : BracketWithinBounds (s.withState root xMin xMax fxMin fxMax n) a b := hb
      rw [ExplicitBracket.entry_of_bracket f s xAccuracy guess a b hlt hb h1 h2 h3 h4 h5,
        ExplicitBracket.entry_of_bracket f (s.withState root xMin xMax fxMin fxMax n)
          xAccuracy guess a b hlt hb' h1 h2 h3 h4 h5]
      rfl
    refine ⟨hres.1, hres.2.1, hres.2.2, fun hook => ?_⟩
    unfold ExplicitBracket.solve Outcome.finish
    by_cases hr : (ExplicitBracket.entry f s xAccuracy guess a b).Refines
    · rw [hres.2.2 hr]
    · rw [hres.1]
      split
      · rfl
      · rfl
      · next acc hacc => exact absurd ⟨acc, hacc⟩ hr

/-- C21: when the early exit is not taken, the loop is entered with the bracket fixed by the
sign of `f(guess)`: for `f(guess) > 0`, `xMin = enforceBounds_(guess - step)`,
`fxMin = f(xMin)`, `xMax = guess`, `fxMax = f(guess)`; for `f(guess) <= 0`, `xMin = guess`,
`fxMin = f(guess)`, `xMax = enforceBounds_(guess + step)`, `fxMax = f(xMax)`; in both cases
exactly two evaluations have been made (at the guess and at the new endpoint) and
`evaluationNumber = 2`. -/
theorem guess_step_initial_bracket (f : ℚ → ℚ) (s : Solver1D) (xAccuracy guess step : ℚ)
    (hne : ¬ |f guess| ≤ xAccuracy) :
    (0 < f guess →
      GuessStep.entry f s xAccuracy guess step =
        GuessStep.bracketLoop f xAccuracy (s.maxEvaluations - 1).toNat (-1)
          { s with root := guess,
                   xMin := s.enforceBounds_ (guess - step),
                   fxMin := f (s.enforceBounds_ (guess - step)),
                   xMax := guess, fxMax := f guess, evaluationNumber := 2 }
          [guess, s.enforceBounds_ (guess - step)]) ∧
    (f guess ≤ 0 →
      GuessStep.entry f s xAccuracy guess step =
        GuessStep.bracketLoop f xAccuracy (s.maxEvaluations - 1).toNat (-1)
          { s with root := guess,
                   xMin := guess, fxMin := f guess,
                   xMax := s.enforceBounds_ (guess + step),
                   fxMax := f (s.enforceBounds_ (guess + step)), evaluationNumber := 2 }
          [guess, s.enforceBounds_ (guess + step)]) ∧
    GuessStep.Reached f s xAccuracy guess step (GuessStep.initialVars f s guess step) ∧
    (GuessStep.initialVars f s guess step).2.1.evaluationNumber = 2 ∧
    (GuessStep.initialVars f s guess step).2.2.length = 2 := by
  refine ⟨fun hp => GuessStep.entry_of_pos f s xAccuracy guess step hne hp,
    fun hn => GuessStep.entry_of_nonpos f s xAccuracy guess step hne hn,
    ⟨hne, Relation.ReflTransGen.refl⟩, (GuessStep.initialBracket_spec f s guess step).2.2.2, ?_⟩
  simp only [GuessStep.initialVars, GuessStep.initialEvals]
  split_ifs <;> rfl

/-- C21 at a concrete input: `f(x) = x + 1` is positive at the guess `0.5`; with step `1` and
the bounds `[0, 10]` enforced the loop is entered with `xMin = 0` (the clamped `-0.5`),
`fxMin = f(0) = 1`, `xMax = 0.5`, `fxMax = f(0.5) = 1.5`. -/
theorem guess_step_initial_bracket_witness :
    GuessStep.entry (fun x => x + 1) boundedSolver (1 / 10 ^ 10) (1 / 2) 1 =
      GuessStep.bracketLoop (fun x => x + 1) (1 / 10 ^ 10) 99 (-1)
        { boundedSolver with root := 1 / 2, xMin := 0, fxMin := 1, xMax := 1 / 2,
                             fxMax := 3 / 2, evaluationNumber := 2 }
        [1 / 2, 0] := by
  have hclamp : boundedSolver.enforceBounds_ (1 / 2 - 1) = 0 := by
    simp only [enforceBounds_, boundedSolver, plainSolver]
    norm_num
  have h := (guess_step_initial_bracket (fun x => x + 1) boundedSolver (1 / 10 ^ 10) (1 / 2) 1
    (by rw [abs_of_pos (by norm_num)]; norm_num)).1 (by norm_num)
  rw [h, hclamp]
  norm_num
  rfl

/-- C25: in the call `solve(f, xAccuracy, guess, step)`, at the start of every pass of the
loop and when the loop exits, `fxMin = f(xMin)` and `fxMax = f(xMax)` for the current
endpoints; in particular on entry to the loop when `f(guess) <= 0`, where `xMin` is the
guess and `fxMin` is copied from the first evaluation. -/
theorem guess_step_endpoint_values (f : ℚ → ℚ) (s : Solver1D) (xAccuracy guess step : ℚ)
    (hne : ¬ |f guess| ≤ xAccuracy) :
    (∀ v, GuessStep.Reached f s xAccuracy guess step v →
      v.2.1.fxMin = f v.2.1.xMin ∧ v.2.1.fxMax = f v.2.1.xMax) ∧
    (f guess ≤ 0 →
      (GuessStep.initialVars f s guess step).2.1.xMin = guess ∧
      (GuessStep.initialVars f s guess step).2.1.fxMin = f guess) ∧
    (∀ o, GuessStep.entry f s xAccuracy guess step = some o →
      o.state.fxMin = f o.state.xMin ∧ o.state.fxMax = f o.state.xMax) := by
  refine ⟨fun v hr => GuessStep.Reached.valuesAtEndpoints f s xAccuracy guess step v hr,
    fun hn => ?_, fun o ho => ?_⟩
  · simp only [GuessStep.initialVars, GuessStep.initialBracket, not_lt.mpr hn, if_false,
      and_self]
  · obtain ⟨v, hreach, hcase⟩ := GuessStep.entry_exit f s xAccuracy guess step o hne ho
    have hv := GuessStep.Reached.valuesAtEndpoints f s xAccuracy guess step v hreach
    rcases hcase with ⟨-, hbody⟩ | ⟨-, rfl⟩
    · obtain ⟨-, h1 | h1 | h1⟩ :=
        GuessStep.loopBody_inl_cases f xAccuracy v.1 v.2.1 v.2.2 o hbody
      · rw [h1.2]; exact hv
      · rw [h1.2.2]; exact hv
      · rw [h1.2.2]; exact hv
    · exact hv

/-- C25 at a concrete input: for `f(x) = x - 3`, guess `0`, step `1`, after one pass the
bracket is `[0, 2.6]` with `fxMin = -3 = f(0)` and `fxMax = -0.4 = f(2.6)`. -/
theorem guess_step_endpoint_values_witness :
    (-3 : ℚ) = (fun x : ℚ => x - 3) 0 ∧ (-(2 / 5) : ℚ) = (fun x : ℚ => x - 3) (13 / 5) :=
  (guess_step_endpoint_values (fun x => x - 3) plainSolver (1 / 10 ^ 10) 0 1
    (by rw [abs_of_neg (by norm_num)]; norm_num)).1 _
    (GuessStep.ReachedAfter.reached _ _ _ _ _ _ _ _ GuessStep.reachedAfter_linear.2.1)

end Solver1D

/-! ## `ql/solver1d.cpp` on machine numbers: lemmas and claims -/

theorem roundHalfEven_intCast (n : Int) : roundHalfEven (n : ℚ) = n := by
  simp [roundHalfEven]

theorem log_eq_of_binade (q : ℚ) (E : Int) (h1 : (2 : ℚ) ^ E ≤ |q|)
    (h2 : |q| < (2 : ℚ) ^ (E + 1)) : Int.log 2 |q| = E := by
  have hpos : (0 : ℚ) < |q| := lt_of_lt_of_le (by positivity) h1
  have ha : E ≤ Int.log 2 |q| := by
    rw [← Int.zpow_le_iff_le_log (by norm_num) hpos]
    simpa using h1
  have hb : Int.log 2 |q| < E + 1 := by
    rw [← Int.lt_zpow_iff_log_lt (by norm_num) hpos]
    simpa using h2
  omega

/-- The rounding of a number in the binade `[2^E, 2^(E+1))`. -/
theorem binary64_of_binade (q : ℚ) (E n : Int) (h1 : (2 : ℚ) ^ E ≤ |q|)
    (h2 : |q| < (2 : ℚ) ^ (E + 1))
    (hn : roundHalfEven (q / 2 ^ (max E (-1022) - 52)) = n) :
    binary64 q =
      if (2 : ℚ) ^ 1024 ≤ |(n : ℚ) * 2 ^ (max E (-1022) - 52)| then
        (if 0 < q then .posInf else .negInf)
      else .finite ((n : ℚ) * 2 ^ (max E (-1022) - 52)) := by
  have hq : q ≠ 0 := by
    intro h
    rw [h, abs_zero] at h1
    exact absurd h1 (not_le.mpr (by positivity))
  have hs : spacingExponent q = max E (-1022) - 52 := by
    rw [spacingExponent, log_eq_of_binade q E h1 h2]
  simp only [binary64, nearestMultiple, hq, if_false, hs, hn]

/-- A number of 53 bits in a binade of the normal range is a binary64 number. -/
theorem binary64_of_normal (n E : Int) (hE1 : -1022 ≤ E) (hE2 : E ≤ 1023)
    (hn1 : 2 ^ 52 ≤ |n|) (hn2 : |n| < 2 ^ 53) :
    binary64 ((n : ℚ) * 2 ^ (E - 52)) = .finite ((n : ℚ) * 2 ^ (E - 52)) := by
  have hmax : max E (-1022) = E := max_eq_left hE1
  have two : (2 : ℚ) ≠ 0 := by norm_num
  have hp : (0 : ℚ) < 2 ^ (E - 52) := by positivity
  have habs : |(n : ℚ) * 2 ^ (E - 52)| = ((|n| : Int) : ℚ) * (2 : ℚ) ^ (E - 52) := by
    rw [abs_mul, abs_of_pos hp, Int.cast_abs]
  have h52 : (2 : ℚ) ^ E = (2 : ℚ) ^ (52 : Int) * (2 : ℚ) ^ (E - 52) := by
    rw [← zpow_add₀ two]
    congr 1
    ring
  have h53 : (2 : ℚ) ^ (E + 1) = (2 : ℚ) ^ (53 : Int) * (2 : ℚ) ^ (E - 52) := by
    rw [← zpow_add₀ two]
    congr 1
    ring
  have c1 : (2 : ℚ) ^ (52 : Int) ≤ ((|n| : Int) : ℚ) := by
    have e : ((2 ^ 52 : Int) : ℚ) = (2 : ℚ) ^ (52 : Int) := by norm_num
    rw [← e]
    exact Int.cast_le.mpr hn1
  have c2 : ((|n| : Int) : ℚ) < (2 : ℚ) ^ (53 : Int) := by
    have e : ((2 ^ 53 : Int) : ℚ) = (2 : ℚ) ^ (53 : Int) := by norm_num
    rw [← e]
    exact Int.cast_lt.mpr hn2
  have h1 : (2 : ℚ) ^ E ≤ |(n : ℚ) * 2 ^ (E - 52)| := by
    rw [habs, h52]
    exact mul_le_mul_of_nonneg_right c1 hp.le
  have h2 : |(n : ℚ) * 2 ^ (E - 52)| < (2 : ℚ) ^ (E + 1) := by
    rw [habs, h53]
    exact mul_lt_mul_of_pos_right c2 hp
  have hn : roundHalfEven ((n : ℚ) * 2 ^ (E - 52) / 2 ^ (max E (-1022) - 52)) = n := by
    rw [hmax, mul_div_assoc, div_self hp.ne', mul_one, roundHalfEven_intCast]
  rw [binary64_of_binade _ E n h1 h2 hn, hmax, if_neg]
  rw [not_le]
  refine lt_of_lt_of_le h2 ?_
  rw [← zpow_natCast (2 : ℚ) 1024]
  exact zpow_le_zpow_right₀ (by norm_num) (by push_cast; omega)

/-- A result below half the smallest subnormal number is rounded to zero (underflow). -/
theorem binary64_of_tiny (q : ℚ) (h : |q| < (2 : ℚ) ^ (-1075 : Int)) :
    binary64 q = .finite 0 := by
  by_cases hq : q = 0
  · simp [binary64, hq]
  have hpos : (0 : ℚ) < |q| := abs_pos.mpr hq
  have hlog : Int.log 2 |q| < -1075 := by
    rw [← Int.lt_zpow_iff_log_lt (by norm_num) hpos]
    simpa using h
  have hs : spacingExponent q = -1074 := by
    rw [spacingExponent, max_eq_right (by omega)]
    norm_num
  have hx : |q / 2 ^ (-1074 : Int)| < 1 / 2 := by
    rw [abs_div, abs_of_pos (show (0 : ℚ) < 2 ^ (-1074 : Int) by positivity),
      div_lt_iff₀ (by positivity)]
    calc |q| < (2 : ℚ) ^ (-1075 : Int) := h
      _ = 1 / 2 * 2 ^ (-1074 : Int) := by
        rw [show (-1075 : Int) = -1074 - 1 by norm_num, zpow_sub₀ (by norm_num : (2 : ℚ) ≠ 0)]
        simp
        ring
  have hr : roundHalfEven (q / 2 ^ (-1074 : Int)) = 0 := by
    obtain ⟨hl, hu⟩ := abs_lt.mp hx
    generalize q / 2 ^ (-1074 : Int) = x at hl hu
    by_cases h0 : 0 ≤ x
    · have hf : ⌊x⌋ = 0 := Int.floor_eq_iff.mpr ⟨by simpa using h0, by norm_num; linarith⟩
      simp only [roundHalfEven, hf, Int.cast_zero, sub_zero, hu, if_true]
    · have hf : ⌊x⌋ = -1 := Int.floor_eq_iff.mpr ⟨by norm_num; linarith, by norm_num; linarith⟩
      have h1 : ¬ (x - ((-1 : Int) : ℚ) < 1 / 2) := by push_cast; linarith
      have h2 : (1 / 2 : ℚ) < x - ((-1 : Int) : ℚ) := by push_cast; linarith
      simp only [roundHalfEven, hf, h1, h2, if_true, if_false]
      norm_num
  simp only [binary64, nearestMultiple, hq, if_false, hs, hr]
  norm_num

/-- An integer of at most 53 bits is a binary64 number. -/
theorem binary64_intCast (k : Int) (hk : |k| < 2 ^ 53) : binary64 (k : ℚ) = .finite (k : ℚ) := by
  by_cases h0 : k = 0
  · simp [binary64, h0]
  have two : (2 : ℚ) ≠ 0 := by norm_num
  have hq : (0 : ℚ) < |(k : ℚ)| := abs_pos.mpr (Int.cast_ne_zero.mpr h0)
  have h1 : ((2 : Nat) : ℚ) ^ Int.log 2 |(k : ℚ)| ≤ |(k : ℚ)| := Int.zpow_log_le_self (by norm_num) hq
  have h2 : |(k : ℚ)| < ((2 : Nat) : ℚ) ^ (Int.log 2 |(k : ℚ)| + 1) :=
    Int.lt_zpow_succ_log_self (by norm_num) _
  rw [Nat.cast_ofNat] at h1 h2
  have hone : (1 : ℚ) ≤ |(k : ℚ)| := by
    rw [← Int.cast_abs]
    exact_mod_cast Int.one_le_abs h0
  have hE0 : 0 ≤ Int.log 2 |(k : ℚ)| := by
    rw [← Int.zpow_le_iff_le_log (by norm_num) hq]
    simpa using hone
  have hE52 : Int.log 2 |(k : ℚ)| < 53 := by
    rw [← Int.lt_zpow_iff_log_lt (by norm_num) hq]
    have : ((|k| : Int) : ℚ) < ((2 ^ 53 : Int) : ℚ) := Int.cast_lt.mpr hk
    rw [Int.cast_abs] at this
    refine lt_of_lt_of_eq this ?_
    norm_num
  generalize Int.log 2 |(k : ℚ)| = E at h1 h2 hE0 hE52
  have hmax : max E (-1022) = E := max_eq_left (by omega)
  obtain ⟨m, hm⟩ : ∃ m : Nat, (m : Int) = 52 - E := ⟨(52 - E).toNat, by omega⟩
  have hpow : (2 : ℚ) ^ (E - 52) = ((2 : ℚ) ^ m)⁻¹ := by
    rw [show E - 52 = -(m : Int) by omega, zpow_neg, zpow_natCast]
  have hn : roundHalfEven ((k : ℚ) / 2 ^ (max E (-1022) - 52)) = k * 2 ^ m := by
    rw [hmax, hpow, div_inv_eq_mul]
    have : (k : ℚ) * 2 ^ m = ((k * 2 ^ m : Int) : ℚ) := by push_cast; ring
    rw [this, roundHalfEven_intCast]
  have hval : ((k * 2 ^ m : Int) : ℚ) * 2 ^ (max E (-1022) - 52) = (k : ℚ) := by
    rw [hmax, hpow]
    push_cast
    field_simp
  rw [binary64_of_binade _ E _ h1 h2 hn, hval, if_neg]
  rw [not_le]
  refine lt_of_lt_of_le h2 ?_
  rw [← zpow_natCast (2 : ℚ) 1024]
  exact zpow_le_zpow_right₀ (by norm_num) (by push_cast; omega)

namespace Double

theorem lt_irrefl_of (a : Double) : lt a a = false := by
  cases a <;> simp [lt]

theorem not_lt_of_le (a b : Double) (h : le a b = true) : lt b a = false := by
  cases a <;> cases b <;> simp_all [le, lt]

theorem le_of_lt (a b : Double) (h : lt a b = true) : le a b = true := by
  cases a <;> cases b <;> simp_all [le, lt]
  exact h.le

theorem le_trans (a b c : Double) (h1 : le a b = true) (h2 : le b c = true) :
    le a c = true := by
  cases a <;> cases b <;> cases c <;> simp_all [le]
  exact h1.trans h2

theorem lt_of_lt_of_le (a b c : Double) (h1 : lt a b = true) (h2 : le b c = true) :
    lt a c = true := by
  cases a <;> cases b <;> cases c <;> simp_all [le, lt]
  exact h1.trans_le h2

theorem lt_of_le_of_lt (a b c : Double) (h1 : le a b = true) (h2 : lt b c = true) :
    lt a c = true := by
  cases a <;> cases b <;> cases c <;> simp_all [le, lt]
  exact h1.trans_lt h2

theorem le_refl_of (a : Double) (h : a ≠ nan) : le a a = true := by
  cases a <;> simp_all [le]

theorem le_of_not_lt (a b : Double) (ha : a ≠ nan) (hb : b ≠ nan) (h : lt a b = false) :
    le b a = true := by
  cases a <;> cases b <;> simp_all [le, lt]

theorem InFormat.not_nan (R : ℚ → Double) (x : Double) (h : InFormat R x) : x ≠ nan := by
  intro e
  rw [e] at h
  exact h

theorem IsRounding.ne_nan (R : ℚ → Double) (hR : IsRounding R) (q : ℚ) : R q ≠ nan := by
  intro e
  have h := hR.monotone q q le_rfl
  rw [e] at h
  simp [le] at h

theorem IsRounding.inFormat (R : ℚ → Double) (hR : IsRounding R) (q : ℚ) :
    InFormat R (R q) := by
  cases e : R q with
  | finite b => exact hR.idempotent q b e
  | posInf => trivial
  | negInf => trivial
  | nan => exact absurd e (hR.ne_nan R q)

/-- The rounded value of a number that is not positive is not positive. -/
theorem IsRounding.nonpos (R : ℚ → Double) (hR : IsRounding R) (q : ℚ) (hq : q ≤ 0) :
    le (R q) (finite 0) = true := by
  have h := hR.monotone q 0 hq
  rwa [hR.zero] at h

/-- The rounded value of a number that is not negative is not negative. -/
theorem IsRounding.nonneg (R : ℚ → Double) (hR : IsRounding R) (q : ℚ) (hq : 0 ≤ q) :
    le (finite 0) (R q) = true := by
  have h := hR.monotone 0 q hq
  rwa [hR.zero] at h

/-- The difference `x - y` of a lower and an upper endpoint is not positive. -/
theorem sub_nonpos_of (R : ℚ → Double) (hR : IsRounding R) (x y : Double) (γ : ℚ)
    (hx : le x (finite γ) = true) (hy : le (finite γ) y = true) :
    le (sub R x y) (finite 0) = true := by
  cases x with
  | finite a =>
    cases y with
    | finite b =>
      simp only [le, decide_eq_true_eq] at hx hy
      simp only [sub, neg, add]
      exact hR.nonpos R _ (by linarith)
    | posInf => simp [sub, neg, add, le]
    | negInf => simp [le] at hy
    | nan => simp [le] at hy
  | negInf =>
    cases y with
    | finite b => simp [sub, neg, add, le]
    | posInf => simp [sub, neg, add, le]
    | negInf => simp [le] at hy
    | nan => simp [le] at hy
  | posInf => simp [le] at hx
  | nan => simp [le] at hx

/-- The difference `y - x` of an upper and a lower endpoint is not negative. -/
theorem sub_nonneg_of (R : ℚ → Double) (hR : IsRounding R) (x y : Double) (γ : ℚ)
    (hx : le x (finite γ) = true) (hy : le (finite γ) y = true) :
    le (finite 0) (sub R y x) = true := by
  cases x with
  | finite a =>
    cases y with
    | finite b =>
      simp only [le, decide_eq_true_eq] at hx hy
      simp only [sub, neg, add]
      exact hR.nonneg R _ (by linarith)
    | posInf => simp [sub, neg, add, le]
    | negInf => simp [le] at hy
    | nan => simp [le] at hy
  | negInf =>
    cases y with
    | finite b => simp [sub, neg, add, le]
    | posInf => simp [sub, neg, add, le]
    | negInf => simp [le] at hy
    | nan => simp [le] at hy
  | posInf => simp [le] at hx
  | nan => simp [le] at hx

/-- A positive factor keeps a number not positive. -/
theorem mul_nonpos_of (R : ℚ → Double) (hR : IsRounding R) (g : ℚ) (hg : 0 < g) (d : Double)
    (hd : le d (finite 0) = true) : le (mul R (finite g) d) (finite 0) = true := by
  cases d with
  | finite δ =>
    simp only [le, decide_eq_true_eq] at hd
    simp only [mul]
    exact hR.nonpos R _ (mul_nonpos_of_nonneg_of_nonpos hg.le hd)
  | negInf => simp [mul, hg, le]
  | posInf => simp [le] at hd
  | nan => simp [le] at hd

/-- A positive factor keeps a number not negative. -/
theorem mul_nonneg_of (R : ℚ → Double) (hR : IsRounding R) (g : ℚ) (hg : 0 < g) (d : Double)
    (hd : le (finite 0) d = true) : le (finite 0) (mul R (finite g) d) = true := by
  cases d with
  | finite δ =>
    simp only [le, decide_eq_true_eq] at hd
    simp only [mul]
    exact hR.nonneg R _ (mul_nonneg hg.le hd)
  | posInf => simp [mul, hg, le]
  | negInf => simp [le] at hd
  | nan => simp [le] at hd

/-- Adding a number that is not positive to a number of the format does not increase it. -/
theorem add_nonpos_of (R : ℚ → Double) (hR : IsRounding R) (x m : Double) (γ : ℚ)
    (hx : InFormat R x) (hxγ : le x (finite γ) = true) (hm : le m (finite 0) = true) :
    le (add R x m) x = true ∧ InFormat R (add R x m) := by
  cases x with
  | finite a =>
    cases m with
    | finite μ =>
      simp only [le, decide_eq_true_eq] at hm
      simp only [add]
      refine ⟨?_, hR.inFormat R _⟩
      have h := hR.monotone (a + μ) a (by linarith)
      have hx' : R a = finite a := hx
      rwa [hx'] at h
    | negInf => exact ⟨by simp [add, le], trivial⟩
    | posInf => simp [le] at hm
    | nan => simp [le] at hm
  | negInf =>
    cases m with
    | finite μ => exact ⟨by simp [add, le], trivial⟩
    | negInf => exact ⟨by simp [add, le], trivial⟩
    | posInf => simp [le] at hm
    | nan => simp [le] at hm
  | posInf => simp [le] at hxγ
  | nan => simp [le] at hxγ

/-- Adding a number that is not negative to a number of the format does not decrease it. -/
theorem add_nonneg_of (R : ℚ → Double) (hR : IsRounding R) (y m : Double) (γ : ℚ)
    (hy : InFormat R y) (hγy : le (finite γ) y = true) (hm : le (finite 0) m = true) :
    le y (add R y m) = true ∧ InFormat R (add R y m) := by
  cases y with
  | finite b =>
    cases m with
    | finite μ =>
      simp only [le, decide_eq_true_eq] at hm
      simp only [add]
      refine ⟨?_, hR.inFormat R _⟩
      have h := hR.monotone b (b + μ) (by linarith)
      have hy' : R b = finite b := hy
      rwa [hy'] at h
    | posInf => exact ⟨by simp [add, le], trivial⟩
    | negInf => simp [le] at hm
    | nan => simp [le] at hm
  | posInf =>
    cases m with
    | finite μ => exact ⟨by simp [add, le], trivial⟩
    | posInf => exact ⟨by simp [add, le], trivial⟩
    | negInf => simp [le] at hm
    | nan => simp [le] at hm
  | negInf => simp [le] at hγy
  | nan => simp [le] at hγy

/-- The computed midpoint of two numbers of the format lies between them when their sum
is finite. -/
theorem midpoint_within (R : ℚ → Double) (hR : IsRounding R) (a b τ : ℚ)
    (ha : R a = finite a) (hb : R b = finite b) (hab : a ≤ b) (hτ : R (b + a) = finite τ) :
    le (finite a) (R (τ / 2)) = true ∧ le (R (τ / 2)) (finite b) = true := by
  have hττ : R τ = finite τ := hR.idempotent _ _ hτ
  have h1 : 2 * a ≤ τ := by
    rcases hR.doubling a ha with h | h | h
    · have := hR.monotone (2 * a) (b + a) (by linarith)
      rw [h, hτ] at this
      simpa [le] using this
    · have := hR.monotone (2 * a) (b + a) (by linarith)
      rw [h, hτ] at this
      simp [le] at this
    · by_contra hc
      have := hR.monotone τ (2 * a) (by linarith)
      rw [h, hττ] at this
      simp [le] at this
  have h2 : τ ≤ 2 * b := by
    rcases hR.doubling b hb with h | h | h
    · have := hR.monotone (b + a) (2 * b) (by linarith)
      rw [h, hτ] at this
      simpa [le] using this
    · by_contra hc
      have := hR.monotone (2 * b) τ (by linarith)
      rw [h, hττ] at this
      simp [le] at this
    · have := hR.monotone (b + a) (2 * b) (by linarith)
      rw [h, hτ] at this
      simp [le] at this
  constructor
  · have := hR.monotone a (τ / 2) (by linarith)
    rwa [ha] at this
  · have := hR.monotone (τ / 2) b (by linarith)
    rwa [hb] at this

/-- Two doubles that are not zero and whose computed product is `<= 0.0` have strictly
opposite signs, unless they are finite numbers of the same sign whose product was rounded
to zero. -/
theorem sign_of_mul_nonpos (R : ℚ → Double) (hR : IsRounding R) (x y : Double)
    (hx : eq x (finite 0) = false) (hy : eq y (finite 0) = false)
    (h : le (mul R x y) (finite 0) = true) :
    (lt x (finite 0) = true ∧ lt (finite 0) y = true) ∨
    (lt y (finite 0) = true ∧ lt (finite 0) x = true) ∨
    (∃ a b, x = finite a ∧ y = finite b ∧ 0 < a * b ∧ R (a * b) = finite 0) := by
  cases x with
  | finite a =>
    have ha : a ≠ 0 := by
      intro e
      simp [eq, e] at hx
    cases y with
    | finite b =>
      have hb : b ≠ 0 := by
        intro e
        simp [eq, e] at hy
      simp only [mul] at h
      rcases lt_or_gt_of_ne (mul_ne_zero ha hb) with hneg | hpos
      · rcases mul_neg_iff.mp hneg with ⟨h1, h2⟩ | ⟨h1, h2⟩
        · exact Or.inr (Or.inl ⟨by simpa [lt] using h2, by simpa [lt] using h1⟩)
        · exact Or.inl ⟨by simpa [lt] using h1, by simpa [lt] using h2⟩
      · refine Or.inr (Or.inr ⟨a, b, rfl, rfl, hpos, ?_⟩)
        have h2 := hR.nonneg R (a * b) hpos.le
        cases e : R (a * b) with
        | finite r =>
          rw [e] at h h2
          simp only [le, decide_eq_true_eq] at h h2
          rw [le_antisymm h h2]
        | posInf => rw [e] at h; simp [le] at h
        | negInf => rw [e] at h2; simp [le] at h2
        | nan => rw [e] at h; simp [le] at h
    | posInf =>
      simp only [mul] at h
      split_ifs at h with h1 h2
      · simp [le] at h
      · exact Or.inl ⟨by simpa [lt] using h2, by simp [lt]⟩
      · simp [le] at h
    | negInf =>
      simp only [mul] at h
      split_ifs at h with h1 h2
      · exact Or.inr (Or.inl ⟨by simp [lt], by simpa [lt] using h1⟩)
      · simp [le] at h
      · simp [le] at h
    | nan => simp [mul, le] at h
  | posInf =>
    cases y with
    | finite b =>
      simp only [mul] at h
      split_ifs at h with h1 h2
      · simp [le] at h
      · exact Or.inr (Or.inl ⟨by simpa [lt] using h2, by simp [lt]⟩)
      · simp [le] at h
    | posInf => simp [mul, le] at h
    | negInf => exact Or.inr (Or.inl ⟨by simp [lt], by simp [lt]⟩)
    | nan => simp [mul, le] at h
  | negInf =>
    cases y with
    | finite b =>
      simp only [mul] at h
      split_ifs at h with h1 h2
      · exact Or.inl ⟨by simp [lt], by simpa [lt] using h1⟩
      · simp [le] at h
      · simp [le] at h
    | posInf => exact Or.inl ⟨by simp [lt], by simp [lt]⟩
    | negInf => simp [mul, le] at h
    | nan => simp [mul, le] at h
  | nan => cases y <;> simp [mul, le] at h

theorem isRounding_exact : IsRounding exactRounding where
  monotone := fun a b h => by simpa [exactRounding, le] using h
  idempotent := fun a b h => by
    simp only [exactRounding, finite.injEq] at h
    simp [exactRounding]
  zero := rfl
  doubling := fun a _ => Or.inl rfl

end Double

/-! ## The rounding of binary64 is a rounding to nearest -/

theorem floor_le_roundHalfEven (x : ℚ) : ⌊x⌋ ≤ roundHalfEven x := by
  unfold roundHalfEven
  split_ifs <;> omega

theorem roundHalfEven_le_floor_add_one (x : ℚ) : roundHalfEven x ≤ ⌊x⌋ + 1 := by
  unfold roundHalfEven
  split_ifs <;> omega

/-- Rounding to the nearest integer is monotone. -/
theorem roundHalfEven_mono (x y : ℚ) (h : x ≤ y) : roundHalfEven x ≤ roundHalfEven y := by
  rcases (Int.floor_mono h).lt_or_eq with hlt | heq
  · calc roundHalfEven x ≤ ⌊x⌋ + 1 := roundHalfEven_le_floor_add_one x
      _ ≤ ⌊y⌋ := by omega
      _ ≤ roundHalfEven y := floor_le_roundHalfEven y
  · unfold roundHalfEven
    rw [heq]
    split_ifs <;> first | omega | (exfalso; linarith)

/-- Rounding to the nearest integer is odd. -/
theorem roundHalfEven_neg (x : ℚ) : roundHalfEven (-x) = -roundHalfEven x := by
  by_cases hx : (⌊x⌋ : ℚ) = x
  · rw [← hx, ← Int.cast_neg, roundHalfEven_intCast, roundHalfEven_intCast]
  · have h1 : (⌊x⌋ : ℚ) < x := lt_of_le_of_ne (Int.floor_le x) hx
    have h2 : x < ⌊x⌋ + 1 := Int.lt_floor_add_one x
    have h3 : ⌊-x⌋ = -⌊x⌋ - 1 := by
      rw [Int.floor_eq_iff]
      push_cast
      constructor <;> linarith
    simp only [roundHalfEven, h3]
    push_cast
    split_ifs <;> first | omega | (exfalso; linarith)

theorem spacingExponent_neg (q : ℚ) : spacingExponent (-q) = spacingExponent q := by
  simp only [spacingExponent, abs_neg]

theorem nearestMultiple_neg (q : ℚ) : nearestMultiple (-q) = -nearestMultiple q := by
  simp only [nearestMultiple, spacingExponent_neg, neg_div, roundHalfEven_neg, Int.cast_neg,
    neg_mul]

theorem nearestMultiple_zero : nearestMultiple 0 = 0 := by
  have h := roundHalfEven_intCast 0
  simp only [Int.cast_zero] at h
  simp only [nearestMultiple, zero_div, h, Int.cast_zero, zero_mul]

theorem spacingExponent_of_pos (q : ℚ) (hq : 0 < q) :
    spacingExponent q = max (Int.log 2 q) (-1022) - 52 := by
  rw [spacingExponent, abs_of_pos hq]

/-- The nearest multiple does not leave the binade upwards. -/
theorem nearestMultiple_le (q : ℚ) (hq : 0 < q) :
    nearestMultiple q ≤ 2 ^ (max (Int.log 2 q) (-1022) + 1) := by
  have two : (2 : ℚ) ≠ 0 := by norm_num
  have he := spacingExponent_of_pos q hq
  have hp : (0 : ℚ) < 2 ^ spacingExponent q := by positivity
  have h1 : q < 2 ^ (Int.log 2 q + 1) := Int.lt_zpow_succ_log_self (by norm_num) q
  have h2 : (2 : ℚ) ^ (Int.log 2 q + 1) ≤ 2 ^ (max (Int.log 2 q) (-1022) + 1) :=
    zpow_le_zpow_right₀ (by norm_num) (by have := le_max_left (Int.log 2 q) (-1022); omega)
  have c53 : ((2 ^ 53 : Int) : ℚ) = (2 : ℚ) ^ (53 : Int) := by norm_num
  have h3 : (2 : ℚ) ^ (max (Int.log 2 q) (-1022) + 1) =
      ((2 ^ 53 : Int) : ℚ) * 2 ^ spacingExponent q := by
    rw [he, c53, ← zpow_add₀ two]
    congr 1
    ring
  have h4 : q / 2 ^ spacingExponent q ≤ ((2 ^ 53 : Int) : ℚ) := by
    rw [div_le_iff₀ hp, ← h3]
    linarith
  have h5 := roundHalfEven_mono _ _ h4
  rw [roundHalfEven_intCast] at h5
  rw [h3, nearestMultiple]
  exact mul_le_mul_of_nonneg_right (Int.cast_le.mpr h5) hp.le

/-- The nearest multiple does not leave a binade of the normal range downwards. -/
theorem le_nearestMultiple (q : ℚ) (hq : 0 < q) (hE : -1022 ≤ Int.log 2 q) :
    (2 : ℚ) ^ Int.log 2 q ≤ nearestMultiple q := by
  have two : (2 : ℚ) ≠ 0 := by norm_num
  have he : spacingExponent q = Int.log 2 q - 52 := by
    rw [spacingExponent_of_pos q hq, max_eq_left hE]
  have hp : (0 : ℚ) < 2 ^ spacingExponent q := by positivity
  have h1 : (2 : ℚ) ^ Int.log 2 q ≤ q := Int.zpow_log_le_self (by norm_num) hq
  have c52 : ((2 ^ 52 : Int) : ℚ) = (2 : ℚ) ^ (52 : Int) := by norm_num
  have h3 : (2 : ℚ) ^ Int.log 2 q = ((2 ^ 52 : Int) : ℚ) * 2 ^ spacingExponent q := by
    rw [he, c52, ← zpow_add₀ two]
    congr 1
    ring
  have h4 : ((2 ^ 52 : Int) : ℚ) ≤ q / 2 ^ spacingExponent q := by
    rw [le_div_iff₀ hp, ← h3]
    exact h1
  have h5 := roundHalfEven_mono _ _ h4
  rw [roundHalfEven_intCast] at h5
  rw [h3, nearestMultiple]
  exact mul_le_mul_of_nonneg_right (Int.cast_le.mpr h5) hp.le

theorem nearestMultiple_nonneg (q : ℚ) (hq : 0 ≤ q) : 0 ≤ nearestMultiple q := by
  have hp : (0 : ℚ) < 2 ^ spacingExponent q := by positivity
  have h4 : ((0 : Int) : ℚ) ≤ q / 2 ^ spacingExponent q := by
    rw [Int.cast_zero]
    exact div_nonneg hq hp.le
  have h5 := roundHalfEven_mono _ _ h4
  rw [roundHalfEven_intCast] at h5
  rw [nearestMultiple]
  exact mul_nonneg (Int.cast_nonneg.mpr h5) hp.le

theorem nearestMultiple_nonpos (q : ℚ) (hq : q ≤ 0) : nearestMultiple q ≤ 0 := by
  have h := nearestMultiple_nonneg (-q) (by linarith)
  rw [nearestMultiple_neg] at h
  linarith

theorem nearestMultiple_mono_pos (a b : ℚ) (ha : 0 < a) (hab : a ≤ b) :
    nearestMultiple a ≤ nearestMultiple b := by
  have hb : 0 < b := lt_of_lt_of_le ha hab
  have hlog : Int.log 2 a ≤ Int.log 2 b := Int.log_mono_right ha hab
  by_cases hM : max (Int.log 2 a) (-1022) = max (Int.log 2 b) (-1022)
  · have he : spacingExponent a = spacingExponent b := by
      rw [spacingExponent_of_pos a ha, spacingExponent_of_pos b hb, hM]
    have hp : (0 : ℚ) < 2 ^ spacingExponent b := by positivity
    rw [nearestMultiple, nearestMultiple, he]
    refine mul_le_mul_of_nonneg_right (Int.cast_le.mpr (roundHalfEven_mono _ _ ?_)) hp.le
    exact div_le_div_of_nonneg_right hab hp.le
  · have h1 : -1022 ≤ max (Int.log 2 a) (-1022) := le_max_right _ _
    have h2 : max (Int.log 2 a) (-1022) + 1 ≤ Int.log 2 b := by
      rcases max_choice (Int.log 2 a) (-1022) with e | e <;>
        rcases max_choice (Int.log 2 b) (-1022) with e' | e' <;>
        rw [e, e'] at hM <;> rw [e] <;>
        have m1 := le_max_left (Int.log 2 a) (-1022) <;>
        have m2 := le_max_right (Int.log 2 a) (-1022) <;>
        have m3 := le_max_left (Int.log 2 b) (-1022) <;>
        have m4 := le_max_right (Int.log 2 b) (-1022) <;>
        rw [e] at m1 m2 <;> rw [e'] at m3 m4 <;> omega
    calc nearestMultiple a ≤ 2 ^ (max (Int.log 2 a) (-1022) + 1) := nearestMultiple_le a ha
      _ ≤ 2 ^ Int.log 2 b := zpow_le_zpow_right₀ (by norm_num) h2
      _ ≤ nearestMultiple b := le_nearestMultiple b hb (by omega)

/-- The nearest multiple is monotone. -/
theorem nearestMultiple_mono (a b : ℚ) (hab : a ≤ b) : nearestMultiple a ≤ nearestMultiple b := by
  rcases lt_or_le 0 a with ha | ha
  · exact nearestMultiple_mono_pos a b ha hab
  · rcases lt_or_le b 0 with hb | hb
    · have h := nearestMultiple_mono_pos (-b) (-a) (by linarith) (by linarith)
      rw [nearestMultiple_neg, nearestMultiple_neg] at h
      linarith
    · exact (nearestMultiple_nonpos a ha).trans (nearestMultiple_nonneg b hb)

/-- A multiple of a power of two that is not below the spacing is its own nearest multiple. -/
theorem nearestMultiple_eq_self (v : ℚ) (n k : Int) (hk : spacingExponent v ≤ k)
    (hv : v = (n : ℚ) * 2 ^ k) : nearestMultiple v = v := by
  have two : (2 : ℚ) ≠ 0 := by norm_num
  have hp : (0 : ℚ) < 2 ^ spacingExponent v := by positivity
  obtain ⟨d, hd⟩ := Int.eq_ofNat_of_zero_le (sub_nonneg.mpr hk)
  have hkd : k = spacingExponent v + d := by omega
  have hx : v / 2 ^ spacingExponent v = ((n * 2 ^ d : Int) : ℚ) := by
    rw [div_eq_iff hp.ne']
    nth_rewrite 1 [hv]
    rw [hkd, zpow_add₀ two, zpow_natCast]
    push_cast
    ring
  rw [nearestMultiple, hx, roundHalfEven_intCast, ← hx, div_mul_cancel₀ _ hp.ne']

/-- The nearest multiple is a number of the format: rounding it again changes nothing. -/
theorem nearestMultiple_idem_pos (q : ℚ) (hq : 0 < q) :
    nearestMultiple (nearestMultiple q) = nearestMultiple q := by
  have two : (2 : ℚ) ≠ 0 := by norm_num
  have h0 := nearestMultiple_nonneg q hq.le
  rcases h0.lt_or_eq with hpos | hzero
  swap
  · rw [← hzero, nearestMultiple_zero]
  have hle := nearestMultiple_le q hq
  have hM : -1022 ≤ max (Int.log 2 q) (-1022) := le_max_right _ _
  generalize hMdef : max (Int.log 2 q) (-1022) = M at hle hM
  have he : spacingExponent q = M - 52 := by rw [spacingExponent_of_pos q hq, hMdef]
  rcases hle.lt_or_eq with hlt | heq
  · have hlog : Int.log 2 (nearestMultiple q) < M + 1 :=
      (Int.lt_zpow_iff_log_lt (by norm_num) hpos).mp hlt
    refine nearestMultiple_eq_self _ (roundHalfEven (q / 2 ^ spacingExponent q))
      (spacingExponent q) ?_ rfl
    rw [spacingExponent_of_pos _ hpos, he]
    have := max_le (show Int.log 2 (nearestMultiple q) ≤ M by omega) hM
    omega
  · refine nearestMultiple_eq_self _ 1 (M + 1) ?_ (by rw [heq]; simp)
    have hlog : Int.log 2 (nearestMultiple q) = M + 1 := by
      have := log_eq_of_binade (nearestMultiple q) (M + 1)
        (by rw [abs_of_pos hpos, heq])
        (by rw [abs_of_pos hpos, heq]; exact zpow_lt_zpow_right₀ (by norm_num) (by omega))
      rwa [abs_of_pos hpos] at this
    rw [spacingExponent_of_pos _ hpos, hlog, max_eq_left (by omega)]
    omega

theorem nearestMultiple_idem (q : ℚ) :
    nearestMultiple (nearestMultiple q) = nearestMultiple q := by
  rcases lt_trichotomy q 0 with h | h | h
  · have := nearestMultiple_idem_pos (-q) (by linarith)
    rw [nearestMultiple_neg, nearestMultiple_neg] at this
    linarith
  · rw [h, nearestMultiple_zero, nearestMultiple_zero]
  · exact nearestMultiple_idem_pos q h

/-- The double of a number of the format is a number of the format. -/
theorem nearestMultiple_double (a : ℚ) (h : nearestMultiple a = a) :
    nearestMultiple (2 * a) = 2 * a := by
  by_cases ha : a = 0
  · rw [ha, mul_zero, nearestMultiple_zero]
  have two : (2 : ℚ) ≠ 0 := by norm_num
  have hpos : (0 : ℚ) < |a| := abs_pos.mpr ha
  refine nearestMultiple_eq_self _ (roundHalfEven (a / 2 ^ spacingExponent a))
    (spacingExponent a + 1) ?_ ?_
  · have h1 : (2 : ℚ) ^ (Int.log 2 |a| + 1) ≤ |2 * a| := by
      rw [abs_mul, abs_of_pos (by norm_num : (0 : ℚ) < 2), zpow_add₀ two, zpow_one, mul_comm]
      exact mul_le_mul_of_nonneg_left (Int.zpow_log_le_self (by norm_num) hpos) (by norm_num)
    have h2 : |2 * a| < (2 : ℚ) ^ (Int.log 2 |a| + 1 + 1) := by
      rw [abs_mul, abs_of_pos (by norm_num : (0 : ℚ) < 2), zpow_add₀ two _ 1, zpow_one, mul_comm]
      exact mul_lt_mul_of_pos_right (Int.lt_zpow_succ_log_self (by norm_num) |a|) (by norm_num)
    rw [spacingExponent, log_eq_of_binade (2 * a) _ h1 h2, spacingExponent]
    have m1 := le_max_left (Int.log 2 |a|) (-1022)
    have m2 := le_max_right (Int.log 2 |a|) (-1022)
    have := max_le (show Int.log 2 |a| + 1 ≤ max (Int.log 2 |a|) (-1022) + 1 by omega)
      (show (-1022 : Int) ≤ max (Int.log 2 |a|) (-1022) + 1 by omega)
    omega
  · rw [zpow_add₀ two, zpow_one]
    nth_rewrite 1 [← h]
    rw [nearestMultiple]
    ring

/-- The rounding `binary64` in terms of the nearest multiple alone. -/
theorem binary64_eq (q : ℚ) :
    binary64 q =
      if (2 : ℚ) ^ 1024 ≤ nearestMultiple q then .posInf
      else if nearestMultiple q ≤ -(2 : ℚ) ^ 1024 then .negInf
      else .finite (nearestMultiple q) := by
  have big : (0 : ℚ) < 2 ^ 1024 := by positivity
  rcases lt_trichotomy q 0 with h | h | h
  · have hn := nearestMultiple_nonpos q h.le
    have c1 : ¬ ((2 : ℚ) ^ 1024 ≤ nearestMultiple q) := by
      intro hc
      linarith
    have c2 : ¬ (0 < q) := not_lt.mpr h.le
    simp only [binary64, h.ne, if_false, abs_of_nonpos hn, c1, c2]
    by_cases c3 : nearestMultiple q ≤ -(2 : ℚ) ^ 1024
    · rw [if_pos (by linarith), if_pos c3]
    · rw [if_neg (by intro hc; exact c3 (by linarith)), if_neg c3]
  · have c1 : ¬ ((2 : ℚ) ^ 1024 ≤ 0) := not_le.mpr big
    have c2 : ¬ ((0 : ℚ) ≤ -(2 : ℚ) ^ 1024) := by
      intro hc
      linarith
    simp only [h, binary64, if_true, nearestMultiple_zero, c1, c2, if_false]
  · have hn := nearestMultiple_nonneg q h.le
    have c2 : ¬ (nearestMultiple q ≤ -(2 : ℚ) ^ 1024) := by
      intro hc
      linarith
    simp only [binary64, h.ne', if_false, abs_of_nonneg hn, h, if_true, c2]

namespace Double

/-- The rounding of binary64 is a rounding to nearest in the sense of `IsRounding`. -/
theorem isRounding_binary64 : IsRounding binary64 where
  monotone := fun a b h => by
    have hm := nearestMultiple_mono a b h
    have big : (0 : ℚ) < 2 ^ 1024 := by positivity
    rw [binary64_eq a, binary64_eq b]
    generalize (2 : ℚ) ^ 1024 = B at big
    split_ifs <;> simp only [le, decide_eq_true_eq] <;>
      first | rfl | linarith
  idempotent := fun a b h => by
    rw [binary64_eq a] at h
    split_ifs at h with h1 h2
    cases h
    rw [binary64_eq, nearestMultiple_idem, if_neg h1, if_neg h2]
  zero := by simp [binary64]
  doubling := fun a h => by
    rw [binary64_eq a] at h
    split_ifs at h with h1 h2
    have ha : nearestMultiple a = a := Double.finite.inj h
    rw [binary64_eq, nearestMultiple_double a ha]
    split_ifs
    · exact Or.inr (Or.inl rfl)
    · exact Or.inr (Or.inr rfl)
    · exact Or.inl rfl

end Double

namespace Machine

namespace Solver1D

/-- C4 (amended): for a bracket `xMin < xMax` within the enforced bounds and a guess not
strictly inside it, the call never reaches `solve_`, and it fails with `GuessOutOfRange`
exactly when neither `|f(xMin)| < xAccuracy` nor `|f(xMax)| < xAccuracy` holds and the
product `fxMin_*fxMax_`, as the machine computes it, is `< 0.0`: the two evaluations, the
early returns and the `RootNotBracketed` check come first. -/
theorem explicit_guess_out_of_range (R : ℚ → Double) (f : Double → Double) (s : Solver1D)
    (xAccuracy guess xMin xMax : Double) (hlt : Double.lt xMin xMax = true)
    (hlow : s.lowBoundEnforced = true → Double.ge xMin s.lowBound = true)
    (hhi : s.hiBoundEnforced = true → Double.le xMax s.hiBound = true)
    (hg : ¬ (Double.gt guess xMin = true ∧ Double.lt guess xMax = true)) :
    ((ExplicitBracket.entry R f s xAccuracy guess xMin xMax).FailsWith .GuessOutOfRange ↔
      (Double.lt (Double.fabs (f xMin)) xAccuracy = false ∧
       Double.lt (Double.fabs (f xMax)) xAccuracy = false ∧
       Double.lt (Double.mul R (f xMin) (f xMax)) (.finite 0) = true)) ∧
    ¬ (∃ a, (ExplicitBracket.entry R f s xAccuracy guess xMin xMax).result = .refine a) := by
  have e1 : (s.lowBoundEnforced = false ∨ Double.ge xMin s.lowBound = true) := by
    cases hl : s.lowBoundEnforced
    · exact Or.inl rfl
    · exact Or.inr (hlow hl)
  have e2 : (s.hiBoundEnforced = false ∨ Double.le xMax s.hiBound = true) := by
    cases hl : s.hiBoundEnforced
    · exact Or.inl rfl
    · exact Or.inr (hhi hl)
  simp only [Outcome.FailsWith, ExplicitBracket.entry, hlt, not_true_eq_false, if_false, e1, e2]
  constructor
  · constructor
    · rintro ⟨e, he, hk⟩
      split_ifs at he with h1 h2 h3 h4 h5 <;> cases he <;>
        simp_all [Failure.kind]
    · rintro ⟨h1, h2, h3⟩
      rw [if_neg (by rw [h1]; simp), if_neg (by rw [h2]; simp), if_neg (not_not.mpr h3)]
      by_cases h4 : Double.gt guess xMin = true
      · have h5 : ¬ Double.lt guess xMax = true := fun h => hg ⟨h4, h⟩
        rw [if_neg (not_not.mpr h4), if_pos h5]
        exact ⟨_, rfl, rfl⟩
      · rw [if_pos h4]
        exact ⟨_, rfl, rfl⟩
  · rintro ⟨acc, he⟩
    split_ifs at he with h1 h2 h3 h4 h5
    exact hg ⟨h4, h5⟩

/-- C10 (amended): the call reaches `solve_` if and only if `xMin < xMax`, the bracket
respects every enforced bound, neither `|f(xMin)| < xAccuracy` nor `|f(xMax)| < xAccuracy`
holds, the product `fxMin_*fxMax_`, as the machine computes it, is `< 0.0`, and
`xMin < guess < xMax`; `solve_` then finds the fields `xMin`, `xMax`, `fxMin = f(xMin)`,
`fxMax = f(xMax)`, `root = guess`, `evaluationNumber = 2` and is passed the accuracy
`max(|xAccuracy|, QL_EPSILON)`. -/
theorem explicit_refine_iff (R : ℚ → Double) (f : Double → Double) (s : Solver1D)
    (xAccuracy guess xMin xMax : Double) :
    ((∃ a, (ExplicitBracket.entry R f s xAccuracy guess xMin xMax).result = .refine a) ↔
      (Double.lt xMin xMax = true ∧
       (s.lowBoundEnforced = true → Double.ge xMin s.lowBound = true) ∧
       (s.hiBoundEnforced = true → Double.le xMax s.hiBound = true) ∧
       Double.lt (Double.fabs (f xMin)) xAccuracy = false ∧
       Double.lt (Double.fabs (f xMax)) xAccuracy = false ∧
       Double.lt (Double.mul R (f xMin) (f xMax)) (.finite 0) = true ∧
       Double.gt guess xMin = true ∧ Double.lt guess xMax = true)) ∧
    (∀ a, (ExplicitBracket.entry R f s xAccuracy guess xMin xMax).result = .refine a →
      (ExplicitBracket.entry R f s xAccuracy guess xMin xMax).state =
        { s with xMin := xMin, xMax := xMax, fxMin := f xMin, fxMax := f xMax,
                 root := guess, evaluationNumber := 2 } ∧
      a = Double.max (Double.fabs xAccuracy) QL_EPSILON) := by
  refine ⟨⟨?_, ?_⟩, ?_⟩
  · rintro ⟨a, he⟩
    simp only [ExplicitBracket.entry] at he
    split_ifs at he with h1 h2 h3 h4 h5 h6 h7 h8
    refine ⟨h1, fun hl => ?_, fun hl => ?_, by simpa using h4, by simpa using h5,
      h6, h7, h8⟩
    · rcases h2 with h | h
      · rw [h] at hl
        cases hl
      · exact h
    · rcases h3 with h | h
      · rw [h] at hl
        cases hl
      · exact h
  · rintro ⟨h1, h2, h3, h4, h5, h6, h7, h8⟩
    have e1 : (s.lowBoundEnforced = false ∨ Double.ge xMin s.lowBound = true) := by
      cases hl : s.lowBoundEnforced
      · exact Or.inl rfl
      · exact Or.inr (h2 hl)
    have e2 : (s.hiBoundEnforced = false ∨ Double.le xMax s.hiBound = true) := by
      cases hl : s.hiBoundEnforced
      · exact Or.inl rfl
      · exact Or.inr (h3 hl)
    simp only [ExplicitBracket.entry, h1, not_true_eq_false, if_false, e1, e2, h4, h5, h6, h7, h8,
      Bool.false_eq_true]
    exact ⟨_, rfl⟩
  · intro a he
    simp only [ExplicitBracket.entry] at he ⊢
    split_ifs at he with h1 h2 h3 h4 h5 h6 h7 h8
    rw [if_neg (not_not.mpr h1), if_neg (not_not.mpr h2), if_neg (not_not.mpr h3), if_neg h4,
      if_neg h5, if_neg (not_not.mpr h6), if_neg (not_not.mpr h7), if_neg (not_not.mpr h8)]
    cases he
    exact ⟨rfl, rfl⟩

end Solver1D

end Machine

theorem binary64_zero : binary64 0 = .finite 0 := by
  simp [binary64]

/-- A power of two of the normal range is a binary64 number. -/
theorem binary64_two_zpow (E : Int) (hE1 : -1022 ≤ E) (hE2 : E ≤ 1023) :
    binary64 ((2 : ℚ) ^ E) = .finite ((2 : ℚ) ^ E) := by
  have h := binary64_of_normal (2 ^ 52) E hE1 hE2 (by norm_num) (by norm_num)
  have e : (((2 ^ 52 : Int) : ℚ)) * 2 ^ (E - 52) = (2 : ℚ) ^ E := by
    have : (((2 ^ 52 : Int) : ℚ)) = (2 : ℚ) ^ (52 : Int) := by norm_num
    rw [this, ← zpow_add₀ (by norm_num : (2 : ℚ) ≠ 0)]
    congr 1
    ring
  rwa [e] at h

/-- The opposite of a power of two of the normal range is a binary64 number. -/
theorem binary64_neg_two_zpow (E : Int) (hE1 : -1022 ≤ E) (hE2 : E ≤ 1023) :
    binary64 (-(2 : ℚ) ^ E) = .finite (-(2 : ℚ) ^ E) := by
  have h := binary64_of_normal (-2 ^ 52) E hE1 hE2 (by norm_num) (by norm_num)
  have e : (((-2 ^ 52 : Int) : ℚ)) * 2 ^ (E - 52) = -(2 : ℚ) ^ E := by
    have : (((-2 ^ 52 : Int) : ℚ)) = -(2 : ℚ) ^ (52 : Int) := by norm_num
    rw [this, neg_mul, ← zpow_add₀ (by norm_num : (2 : ℚ) ≠ 0)]
    congr 2
    ring
  rwa [e] at h

namespace Machine

namespace Solver1D

theorem tinySlope_neg_one : tinySlope (.finite (-1)) = .finite (-(2 : ℚ) ^ (-600 : Int)) := by
  have h := binary64_neg_two_zpow (-600) (by norm_num) (by norm_num)
  simp only [tinySlope, Double.mul, mul_neg, mul_one]
  exact h

theorem tinySlope_one : tinySlope (.finite 1) = .finite ((2 : ℚ) ^ (-600 : Int)) := by
  have h := binary64_two_zpow (-600) (by norm_num) (by norm_num)
  simp only [tinySlope, Double.mul, mul_one]
  exact h

/-- The product of `-2^-600` and `2^-600` underflows to zero. -/
theorem tiny_product_underflows :
    Double.mul binary64 (.finite (-(2 : ℚ) ^ (-600 : Int))) (.finite ((2 : ℚ) ^ (-600 : Int)))
      = .finite 0 := by
  simp only [Double.mul]
  apply binary64_of_tiny
  rw [neg_mul, abs_neg, abs_of_pos (by positivity), ← zpow_add₀ (by norm_num : (2 : ℚ) ≠ 0)]
  exact zpow_lt_zpow_right₀ (by norm_num) (by norm_num)

/-- C4 (amended) at the spec's input: bracket `[0, 1]`, guess `2`, here with
`f(x) = 2x - 1` in binary64 arithmetic, whose endpoint values `-1` and `1` have the
product `-1`. -/
theorem explicit_guess_out_of_range_witness :
    (ExplicitBracket.entry binary64 twiceMinusOne plainSolver (.finite (1 / 10 ^ 10)) (.finite 2)
      (.finite 0) (.finite 1)).FailsWith .GuessOutOfRange := by
  have b1 : binary64 (-1) = .finite (-1) := by
    simpa using binary64_intCast (-1) (by norm_num)
  have b2 : binary64 2 = .finite 2 := by
    simpa using binary64_intCast 2 (by norm_num)
  have b3 : binary64 1 = .finite 1 := by
    simpa using binary64_intCast 1 (by norm_num)
  have f0 : twiceMinusOne (.finite 0) = .finite (-1) := by
    simp only [twiceMinusOne, Double.mul, Double.sub, Double.neg, Double.add, mul_zero,
      binary64_zero, zero_add, b1]
  have f1 : twiceMinusOne (.finite 1) = .finite 1 := by
    simp only [twiceMinusOne, Double.mul, Double.sub, Double.neg, Double.add, mul_one, b2]
    norm_num
    exact b3
  refine ((explicit_guess_out_of_range binary64 twiceMinusOne plainSolver (.finite (1 / 10 ^ 10))
    (.finite 2) (.finite 0) (.finite 1) (by simp [Double.lt])
    (by simp [plainSolver]) (by simp [plainSolver])
    (by simp [Double.lt, Double.gt])).1).2 ⟨?_, ?_, ?_⟩
  · rw [f0]
    simp only [Double.fabs, Double.lt, decide_eq_false_iff_not, not_lt]
    norm_num
  · rw [f1]
    simp only [Double.fabs, Double.lt, decide_eq_false_iff_not, not_lt]
    norm_num
  · rw [f0, f1]
    simp only [Double.mul, mul_one, b1, Double.lt, decide_eq_true_eq]
    norm_num

/-- C10 (as stated, refuted): `f(x) = 2^-600 x` on `[-1, 1]` with guess `0` and
`xAccuracy = 0` meets every condition of the claim (the endpoint values `-2^-600` and
`2^-600` are not below the accuracy in magnitude and their exact product is negative), but
the product underflows to zero in binary64 and the call fails with `RootNotBracketed`
instead of reaching `solve_`. -/
theorem explicit_refine_iff_counterexample :
    Double.lt (.finite (-1)) (.finite 1) = true ∧
    plainSolver.lowBoundEnforced = false ∧ plainSolver.hiBoundEnforced = false ∧
    tinySlope (.finite (-1)) = .finite (-(2 : ℚ) ^ (-600 : Int)) ∧
    tinySlope (.finite 1) = .finite ((2 : ℚ) ^ (-600 : Int)) ∧
    (0 : ℚ) ≤ |(-(2 : ℚ) ^ (-600 : Int))| ∧ (0 : ℚ) ≤ |(2 : ℚ) ^ (-600 : Int)| ∧
    (-(2 : ℚ) ^ (-600 : Int)) * (2 : ℚ) ^ (-600 : Int) < 0 ∧
    Double.gt (.finite 0) (.finite (-1)) = true ∧ Double.lt (.finite 0) (.finite 1) = true ∧
    (ExplicitBracket.entry binary64 tinySlope plainSolver (.finite 0) (.finite 0)
      (.finite (-1)) (.finite 1)).result = .failed .rootNotBracketed := by
  refine ⟨by simp [Double.lt], rfl, rfl, tinySlope_neg_one, tinySlope_one, abs_nonneg _,
    abs_nonneg _, ?_, by simp [Double.lt, Double.gt], by simp [Double.lt], ?_⟩
  · have : (0 : ℚ) < (2 : ℚ) ^ (-600 : Int) := by positivity
    nlinarith
  · have hp : (0 : ℚ) < (2 : ℚ) ^ (-600 : Int) := by positivity
    have l0 : Double.lt (.finite (-1)) (.finite 1) = true := by simp [Double.lt]
    have l1 : ¬ (Double.lt (Double.fabs (.finite (-(2 : ℚ) ^ (-600 : Int)))) (.finite 0) = true) := by
      simp only [Double.fabs, Double.lt, decide_eq_true_eq, not_lt]
      exact abs_nonneg _
    have l2 : ¬ (Double.lt (Double.fabs (.finite ((2 : ℚ) ^ (-600 : Int)))) (.finite 0) = true) := by
      simp only [Double.fabs, Double.lt, decide_eq_true_eq, not_lt]
      exact abs_nonneg _
    have l3 : ¬ (Double.lt (.finite 0) (.finite 0) = true) := by simp [Double.lt]
    simp only [ExplicitBracket.entry, plainSolver, l0, not_true_eq_false, if_false, true_or,
      tinySlope_neg_one, tinySlope_one, l1, l2, tiny_product_underflows, l3, not_false_eq_true,
      if_true, Bool.false_eq_true]

/-- C10 (amended) at the spec's input: `f(x) = x^2 - 4` on `[0, 3]` with guess `1`, in
binary64 arithmetic, reaches `solve_` with `fxMin = -4`, `fxMax = 5`, `root = 1`. -/
theorem explicit_refine_iff_witness :
    (ExplicitBracket.entry binary64 squareMinusFour plainSolver (.finite (1 / 10 ^ 10))
        (.finite 1) (.finite 0) (.finite 3)).result
      = .refine (.finite (1 / 10 ^ 10)) ∧
    (ExplicitBracket.entry binary64 squareMinusFour plainSolver (.finite (1 / 10 ^ 10))
        (.finite 1) (.finite 0) (.finite 3)).state
      = { plainSolver with xMin := .finite 0, xMax := .finite 3, fxMin := .finite (-4),
                           fxMax := .finite 5, root := .finite 1, evaluationNumber := 2 } := by
  have b4 : binary64 (-4) = .finite (-4) := by
    simpa using binary64_intCast (-4) (by norm_num)
  have b9 : binary64 9 = .finite 9 := by
    simpa using binary64_intCast 9 (by norm_num)
  have b5 : binary64 5 = .finite 5 := by
    simpa using binary64_intCast 5 (by norm_num)
  have b20 : binary64 (-20) = .finite (-20) := by
    simpa using binary64_intCast (-20) (by norm_num)
  have f0 : squareMinusFour (.finite 0) = .finite (-4) := by
    simp only [squareMinusFour, Double.mul, Double.sub, Double.neg, Double.add, mul_zero,
      binary64_zero, zero_add, b4]
  have f3 : squareMinusFour (.finite 3) = .finite 5 := by
    have e9 : (3 : ℚ) * 3 = 9 := by norm_num
    have e5 : (9 : ℚ) + -4 = 5 := by norm_num
    simp only [squareMinusFour, Double.mul, Double.sub, Double.neg, Double.add, e9, b9, e5, b5]
  have hmul : Double.lt (Double.mul binary64 (squareMinusFour (.finite 0))
      (squareMinusFour (.finite 3))) (.finite 0) = true := by
    have e20 : (-4 : ℚ) * 5 = -20 := by norm_num
    rw [f0, f3]
    simp only [Double.mul, e20, b20, Double.lt, decide_eq_true_eq]
    norm_num
  have hiff := explicit_refine_iff binary64 squareMinusFour plainSolver (.finite (1 / 10 ^ 10))
    (.finite 1) (.finite 0) (.finite 3)
  obtain ⟨a, ha⟩ := hiff.1.2 ⟨by simp [Double.lt], by simp [plainSolver], by simp [plainSolver],
    by rw [f0]; simp only [Double.fabs, Double.lt, decide_eq_false_iff_not, not_lt]; norm_num,
    by rw [f3]; simp only [Double.fabs, Double.lt, decide_eq_false_iff_not, not_lt]; norm_num,
    hmul, by simp [Double.lt, Double.gt], by simp [Double.lt]⟩
  obtain ⟨hs, hacc⟩ := hiff.2 a ha
  have hmax : Double.max (Double.fabs (.finite (1 / 10 ^ 10))) QL_EPSILON
      = .finite (1 / 10 ^ 10) := by
    simp only [Double.max, Double.fabs, QL_EPSILON, Double.lt]
    rw [abs_of_pos (by norm_num), if_neg]
    simp only [decide_eq_true_eq, not_lt]
    norm_num
  rw [ha, hs, hacc, hmax, f0, f3]
  exact ⟨rfl, rfl⟩

end Solver1D

end Machine

theorem wrapInt_of_range (z : Int) (h1 : -2 ^ 31 ≤ z) (h2 : z < 2 ^ 31) : wrapInt z = z := by
  unfold wrapInt
  norm_num at h1 h2 ⊢
  omega

theorem wrapInt_range (z : Int) : -2 ^ 31 ≤ wrapInt z ∧ wrapInt z < 2 ^ 31 := by
  unfold wrapInt
  norm_num
  omega

namespace Machine

namespace Solver1D

namespace GuessStep

/-- What a pass that goes on does: the computed product was not `<= 0.0`, and either `xMin`
moved to the clamped candidate and `f` was evaluated there (with `evaluationNumber_`
incremented once or twice), or `xMax` moved likewise (one increment), or nothing but
`evaluationNumber_` changed (for a `flipflop` that is neither `-1` nor `1`). -/
theorem pass_cases (R : ℚ → Double) (f : Double → Double) (xAccuracy : Double)
    (flipflop flipflop' : Int) (s s' : Solver1D)
    (h : loopBody R f xAccuracy flipflop s = .inr (flipflop', s')) :
    Double.le (Double.mul R s.fxMin s.fxMax) (.finite 0) = false ∧
    (flipflop' = flipflop ∨ flipflop' = 1 ∨ flipflop' = -1) ∧
    ((∃ e : Int, (e = wrapInt (s.evaluationNumber + 1) ∨
          e = wrapInt (wrapInt (s.evaluationNumber + 1) + 1)) ∧
        s' = { s with
          xMin := s.enforceBounds_ (lowerCandidate R s),
          fxMin := f (s.enforceBounds_ (lowerCandidate R s)),
          evaluationNumber := e }) ∨
     (s' = { s with
          xMax := s.enforceBounds_ (upperCandidate R s),
          fxMax := f (s.enforceBounds_ (upperCandidate R s)),
          evaluationNumber := wrapInt (s.evaluationNumber + 1) }) ∨
     (s' = { s with evaluationNumber := wrapInt (s.evaluationNumber + 1) } ∧
        flipflop ≠ -1 ∧ flipflop ≠ 1)) := by
  simp only [loopBody] at h
  split_ifs at h with h0 h1 h2 h3 h4 h5 h6 <;>
    simp only [Sum.inr.injEq, Prod.mk.injEq, reduceCtorEq] at h <;>
    obtain ⟨rfl, rfl⟩ := h <;>
    refine ⟨by simpa using h0, ?_, ?_⟩
  · exact Or.inl rfl
  · exact Or.inl ⟨_, Or.inl rfl, rfl⟩
  · exact Or.inl rfl
  · exact Or.inr (Or.inl rfl)
  · exact Or.inr (Or.inl rfl)
  · exact Or.inl ⟨_, Or.inr rfl, rfl⟩
  · exact Or.inr (Or.inr rfl)
  · exact Or.inr (Or.inl rfl)
  · exact Or.inl rfl
  · exact Or.inr (Or.inr ⟨rfl, h5, h6⟩)

/-- What a pass that ends the call does. -/
theorem exit_cases (R : ℚ → Double) (f : Double → Double) (xAccuracy : Double)
    (flipflop : Int) (s : Solver1D) (o : Outcome)
    (h : loopBody R f xAccuracy flipflop s = .inl o) :
    Double.le (Double.mul R s.fxMin s.fxMax) (.finite 0) = true ∧
    ((Double.eq s.fxMin (.finite 0) = true ∧ o = ⟨.returned s.xMin, s⟩) ∨
     (Double.eq s.fxMin (.finite 0) = false ∧ Double.eq s.fxMax (.finite 0) = true ∧
       o = ⟨.returned s.xMax, s⟩) ∨
     (Double.eq s.fxMin (.finite 0) = false ∧ Double.eq s.fxMax (.finite 0) = false ∧
       o = ⟨.refine (Double.max (Double.fabs xAccuracy) QL_EPSILON),
            { s with root := Double.div R (Double.add R s.xMax s.xMin) (.finite 2) }⟩)) := by
  simp only [loopBody] at h
  split_ifs at h with h0 h1 h2 <;>
    simp only [Sum.inl.injEq, reduceCtorEq] at h <;>
    subst h <;>
    refine ⟨h0, ?_⟩
  · exact Or.inl ⟨h1, rfl⟩
  · exact Or.inr (Or.inl ⟨by simpa using h1, h2, rfl⟩)
  · exact Or.inr (Or.inr ⟨by simpa using h1, by simpa using h2, rfl⟩)

/-- The loop whose condition holds and whose body ends the call. -/
theorem loop_step_exit (R : ℚ → Double) (f : Double → Double) (xAccuracy : Double)
    (n : Nat) (flipflop : Int) (s : Solver1D) (o : Outcome)
    (hc : s.evaluationNumber ≤ s.maxEvaluations)
    (hb : loopBody R f xAccuracy flipflop s = .inl o) :
    bracketLoop R f xAccuracy (n + 1) flipflop s = some o := by
  simp only [bracketLoop, hc, if_true, hb]

/-- The loop whose condition holds and whose body widens the bracket. -/
theorem loop_step_pass (R : ℚ → Double) (f : Double → Double) (xAccuracy : Double)
    (n : Nat) (flipflop flipflop' : Int) (s s' : Solver1D)
    (hc : s.evaluationNumber ≤ s.maxEvaluations)
    (hb : loopBody R f xAccuracy flipflop s = .inr (flipflop', s')) :
    bracketLoop R f xAccuracy (n + 1) flipflop s = bracketLoop R f xAccuracy n flipflop' s' := by
  simp only [bracketLoop, hc, if_true, hb]

/-- The loop whose condition fails throws. -/
theorem loop_stop (R : ℚ → Double) (f : Double → Double) (xAccuracy : Double)
    (n : Nat) (flipflop : Int) (s : Solver1D)
    (hc : ¬ s.evaluationNumber ≤ s.maxEvaluations) :
    bracketLoop R f xAccuracy n flipflop s = some ⟨.failed .unableToBracket, s⟩ := by
  cases n <;> simp only [bracketLoop, hc, if_false]

/-- A pass that finds a computed product `<= 0.0` and no zero value calls `solve_`. -/
theorem body_refine (R : ℚ → Double) (f : Double → Double) (xAccuracy : Double)
    (flipflop : Int) (s : Solver1D)
    (h0 : Double.le (Double.mul R s.fxMin s.fxMax) (.finite 0) = true)
    (h1 : Double.eq s.fxMin (.finite 0) = false) (h2 : Double.eq s.fxMax (.finite 0) = false) :
    loopBody R f xAccuracy flipflop s =
      .inl ⟨.refine (QL_MAX (QL_FABS xAccuracy) QL_EPSILON),
        { s with root := Double.div R (Double.add R s.xMax s.xMin) (.finite 2) }⟩ := by
  simp only [loopBody, h0, if_true, h1, h2, Bool.false_eq_true, if_false]

/-- A pass that finds a computed product `> 0.0`, values of equal magnitude and
`flipflop = -1` moves `xMin`, sets `flipflop = 1` and increments `evaluationNumber_` twice. -/
theorem body_tie_min (R : ℚ → Double) (f : Double → Double) (xAccuracy : Double)
    (s : Solver1D)
    (h0 : Double.le (Double.mul R s.fxMin s.fxMax) (.finite 0) = false)
    (h1 : Double.lt (QL_FABS s.fxMin) (QL_FABS s.fxMax) = false)
    (h2 : Double.gt (QL_FABS s.fxMin) (QL_FABS s.fxMax) = false) :
    loopBody R f xAccuracy (-1) s =
      .inr (1, { s with
        xMin := s.enforceBounds_ (lowerCandidate R s),
        fxMin := f (s.enforceBounds_ (lowerCandidate R s)),
        evaluationNumber := wrapInt (wrapInt (s.evaluationNumber + 1) + 1) }) := by
  simp only [loopBody, h0, h1, h2, Bool.false_eq_true, if_false, if_true, lowerCandidate]

/-- A pass that finds a computed product `> 0.0`, values of equal magnitude and
`flipflop = 1` moves `xMax`, sets `flipflop = -1` and increments `evaluationNumber_` once. -/
theorem body_tie_max (R : ℚ → Double) (f : Double → Double) (xAccuracy : Double)
    (s : Solver1D)
    (h0 : Double.le (Double.mul R s.fxMin s.fxMax) (.finite 0) = false)
    (h1 : Double.lt (QL_FABS s.fxMin) (QL_FABS s.fxMax) = false)
    (h2 : Double.gt (QL_FABS s.fxMin) (QL_FABS s.fxMax) = false) :
    loopBody R f xAccuracy 1 s =
      .inr (-1, { s with
        xMax := s.enforceBounds_ (upperCandidate R s),
        fxMax := f (s.enforceBounds_ (upperCandidate R s)),
        evaluationNumber := wrapInt (s.evaluationNumber + 1) }) := by
  simp only [loopBody, h0, h1, h2, Bool.false_eq_true, if_false, if_true, upperCandidate,
    show ¬ ((1 : Int) = -1) by decide]

/-- A pass that finds a computed product `> 0.0` and `|fxMin| > |fxMax|` moves `xMax`. -/
theorem body_widen_max (R : ℚ → Double) (f : Double → Double) (xAccuracy : Double)
    (flipflop : Int) (s : Solver1D)
    (h0 : Double.le (Double.mul R s.fxMin s.fxMax) (.finite 0) = false)
    (h1 : Double.lt (QL_FABS s.fxMin) (QL_FABS s.fxMax) = false)
    (h2 : Double.gt (QL_FABS s.fxMin) (QL_FABS s.fxMax) = true) :
    loopBody R f xAccuracy flipflop s =
      .inr (flipflop, { s with
        xMax := s.enforceBounds_ (upperCandidate R s),
        fxMax := f (s.enforceBounds_ (upperCandidate R s)),
        evaluationNumber := wrapInt (s.evaluationNumber + 1) }) := by
  simp only [loopBody, h0, h1, h2, Bool.false_eq_true, if_false, if_true, upperCandidate]

/-- With no bound enforced, `enforceBounds_` changes nothing. -/
theorem enforceBounds_free (s : Solver1D) (x : Double)
    (hlow : s.lowBoundEnforced = false) (hhi : s.hiBoundEnforced = false) :
    s.enforceBounds_ x = x := by
  simp only [enforceBounds_, hlow, hhi, Bool.false_eq_true, false_and, if_false]

/-- How the loop ends, for a property `P` of the loop variables that every widening pass
keeps: the loop ends from variables with `P`, either in a pass that ends the call or
because the loop condition fails. -/
theorem loop_end (R : ℚ → Double) (f : Double → Double) (xAccuracy : Double)
    (P : Int → Solver1D → Prop)
    (hP : ∀ flipflop s flipflop' s', P flipflop s →
      s.evaluationNumber ≤ s.maxEvaluations →
      loopBody R f xAccuracy flipflop s = .inr (flipflop', s') → P flipflop' s') :
    ∀ (passes : Nat) (flipflop : Int) (s : Solver1D) (o : Outcome),
      P flipflop s →
      bracketLoop R f xAccuracy passes flipflop s = some o →
      ∃ flipflop' s', P flipflop' s' ∧
        ((s'.evaluationNumber ≤ s'.maxEvaluations ∧
            loopBody R f xAccuracy flipflop' s' = .inl o) ∨
         (¬ s'.evaluationNumber ≤ s'.maxEvaluations ∧
            o = ⟨.failed .unableToBracket, s'⟩)) := by
  intro passes
  induction passes with
  | zero =>
    intro flipflop s o hp h
    simp only [bracketLoop] at h
    split_ifs at h with hc
    cases h
    exact ⟨flipflop, s, hp, Or.inr ⟨hc, rfl⟩⟩
  | succ n ih =>
    intro flipflop s o hp h
    simp only [bracketLoop] at h
    split_ifs at h with hc
    · cases hb : loopBody R f xAccuracy flipflop s with
      | inl o' =>
        rw [hb] at h
        cases h
        exact ⟨flipflop, s, hp, Or.inl ⟨hc, hb⟩⟩
      | inr r =>
        obtain ⟨flipflop', s'⟩ := r
        rw [hb] at h
        exact ih flipflop' s' o (hP _ _ _ _ hp hc hb) h
    · cases h
      exact ⟨flipflop, s, hp, Or.inr ⟨hc, rfl⟩⟩

/-- The entry when the early exit of line 51 is taken. -/
theorem entry_early (R : ℚ → Double) (f : Double → Double) (s : Solver1D)
    (xAccuracy guess step : Double) (passes : Nat)
    (h : Double.le (Double.fabs (f guess)) xAccuracy = true) :
    entry R f s xAccuracy guess step passes =
      some ⟨.returned guess, { s with root := guess, fxMax := f guess }⟩ := by
  simp only [entry, h, if_true]

/-- The entry when the early exit is not taken: the loop, from the initial bracket. -/
theorem entry_search (R : ℚ → Double) (f : Double → Double) (s : Solver1D)
    (xAccuracy guess step : Double) (passes : Nat)
    (h : ¬ (Double.le (Double.fabs (f guess)) xAccuracy = true)) :
    entry R f s xAccuracy guess step passes =
      bracketLoop R f xAccuracy passes (-1) (initialBracket R f s guess step) := by
  by_cases hp : Double.gt (f guess) (.finite 0) = true
  · simp only [entry, h, if_false, hp, if_true, initialBracket, Bool.false_eq_true]
    rfl
  · simp only [entry, h, if_false, hp, initialBracket, Bool.false_eq_true]
    rfl

/-- The initial bracket keeps the configuration, stores the values of `f` at its endpoints
and has `evaluationNumber_ = 2`. -/
theorem initial_spec (R : ℚ → Double) (f : Double → Double) (s : Solver1D)
    (guess step : Double) :
    SameConfig s (initialBracket R f s guess step) ∧
    ValuesAtEndpoints f (initialBracket R f s guess step) ∧
    (initialBracket R f s guess step).evaluationNumber = 2 := by
  unfold initialBracket
  split_ifs <;> exact ⟨⟨rfl, rfl, rfl, rfl, rfl⟩, ⟨rfl, rfl⟩, rfl⟩

/-- A property of the loop variables that holds initially and that every widening pass
keeps holds at all reached variables. -/
theorem reached_induction (R : ℚ → Double) (f : Double → Double) (s : Solver1D)
    (xAccuracy guess step : Double)
    (P : LoopVars → Prop) (h0 : P (-1, initialBracket R f s guess step))
    (hP : ∀ v v', P v → Pass R f xAccuracy v v' → P v')
    (v : LoopVars) (hr : Reached R f s xAccuracy guess step v) : P v := by
  obtain ⟨-, hr⟩ := hr
  induction hr with
  | refl => exact h0
  | tail _ hp ih => exact hP _ _ ih hp

/-- At all reached variables: the configuration is that of the call, the stored values
are the values of `f` at the stored endpoints, and `flipflop` is `-1` or `1`. -/
theorem reached_basics (R : ℚ → Double) (f : Double → Double) (s : Solver1D)
    (xAccuracy guess step : Double) (v : LoopVars)
    (hr : Reached R f s xAccuracy guess step v) :
    SameConfig s v.2 ∧ ValuesAtEndpoints f v.2 ∧ (v.1 = -1 ∨ v.1 = 1) := by
  refine reached_induction R f s xAccuracy guess step
    (fun v => SameConfig s v.2 ∧ ValuesAtEndpoints f v.2 ∧ (v.1 = -1 ∨ v.1 = 1))
    ⟨(initial_spec R f s guess step).1, (initial_spec R f s guess step).2.1, Or.inl rfl⟩ ?_ v hr
  rintro ⟨ff, t⟩ ⟨ff', t'⟩ ⟨hc, hv, hff⟩ ⟨-, hb⟩
  obtain ⟨-, hf, hcase⟩ := pass_cases R f xAccuracy ff ff' t t' hb
  obtain ⟨c1, c2, c3, c4, c5⟩ := hc
  obtain ⟨v1, v2⟩ := hv
  have hff' : ff' = -1 ∨ ff' = 1 := by
    rcases hf with h | h | h
    · rw [h]; exact hff
    · exact Or.inr h
    · exact Or.inl h
  rcases hcase with ⟨e, -, rfl⟩ | rfl | ⟨rfl, n1, n2⟩
  · exact ⟨⟨c1, c2, c3, c4, c5⟩, ⟨rfl, v2⟩, hff'⟩
  · exact ⟨⟨c1, c2, c3, c4, c5⟩, ⟨v1, rfl⟩, hff'⟩
  · exact ⟨⟨c1, c2, c3, c4, c5⟩, ⟨v1, v2⟩, hff'⟩

/-- The call ends from reached variables: by a pass that ends the call, or because the
loop condition fails there. -/
theorem entry_end (R : ℚ → Double) (f : Double → Double) (s : Solver1D)
    (xAccuracy guess step : Double) (passes : Nat) (o : Outcome)
    (hne : ¬ (Double.le (Double.fabs (f guess)) xAccuracy = true))
    (h : entry R f s xAccuracy guess step passes = some o) :
    ∃ v, Reached R f s xAccuracy guess step v ∧
      ((v.2.evaluationNumber ≤ v.2.maxEvaluations ∧
          loopBody R f xAccuracy v.1 v.2 = .inl o) ∨
       (¬ v.2.evaluationNumber ≤ v.2.maxEvaluations ∧
          o = ⟨.failed .unableToBracket, v.2⟩)) := by
  rw [entry_search R f s xAccuracy guess step passes hne] at h
  obtain ⟨ff, s', hp, hcase⟩ := loop_end R f xAccuracy
    (fun ff s' => Reached R f s xAccuracy guess step (ff, s'))
    (fun ff s1 ff' s2 hr hc hb => ⟨hr.1, hr.2.tail ⟨hc, hb⟩⟩)
    _ _ _ o ⟨hne, Relation.ReflTransGen.refl⟩ h
  exact ⟨(ff, s'), hp, hcase⟩

end GuessStep

theorem effectiveAccuracy_positive (xAccuracy : Double) (h : xAccuracy ≠ .nan) :
    Double.lt (.finite 0) (QL_MAX (QL_FABS xAccuracy) QL_EPSILON) = true := by
  have he : (0 : ℚ) < 1 / 2 ^ 52 := by positivity
  cases xAccuracy with
  | finite a =>
    simp only [QL_MAX, QL_FABS, Double.max, Double.fabs, QL_EPSILON, Double.lt]
    split_ifs with h1
    · simp only [Double.lt, decide_eq_true_eq]
      exact he
    · simp only [decide_eq_true_eq, not_lt] at h1
      simp only [Double.lt, decide_eq_true_eq]
      exact lt_of_lt_of_le he h1
  | posInf => simp [QL_MAX, QL_FABS, Double.max, Double.fabs, QL_EPSILON, Double.lt]
  | negInf => simp [QL_MAX, QL_FABS, Double.max, Double.fabs, QL_EPSILON, Double.lt]
  | nan => exact absurd rfl h

/-- C11 (amended): whenever the call `solve(f, xAccuracy, guess, step)` reaches `solve_`,
the fields hold `fxMin = f(xMin)` and `fxMax = f(xMax)`, neither value is zero, the product
`fxMin_*fxMax_` as the machine computes it is `<= 0.0`, `root` is the computed
`(xMax_+xMin_)/2.0`, and the accuracy passed is `max(|xAccuracy|, QL_EPSILON)`, which is
strictly positive unless `xAccuracy` is a NaN.  With a rounding to nearest the two values
have strictly opposite signs, unless they are finite numbers of the same sign whose product
was rounded to zero. -/
theorem guess_step_refine_state (R : ℚ → Double) (f : Double → Double) (s : Solver1D)
    (xAccuracy guess step : Double) (passes : Nat) (o : Outcome) (accuracy : Double)
    (h : GuessStep.entry R f s xAccuracy guess step passes = some o)
    (hr : o.result = .refine accuracy) :
    GuessStep.ValuesAtEndpoints f o.state ∧
    Double.eq o.state.fxMin (.finite 0) = false ∧
    Double.eq o.state.fxMax (.finite 0) = false ∧
    Double.le (Double.mul R o.state.fxMin o.state.fxMax) (.finite 0) = true ∧
    o.state.root = Double.div R (Double.add R o.state.xMax o.state.xMin) (.finite 2) ∧
    accuracy = QL_MAX (QL_FABS xAccuracy) QL_EPSILON ∧
    (xAccuracy ≠ .nan → Double.lt (.finite 0) accuracy = true) ∧
    (Double.IsRounding R →
      (Double.lt o.state.fxMin (.finite 0) = true ∧
        Double.lt (.finite 0) o.state.fxMax = true) ∨
      (Double.lt o.state.fxMax (.finite 0) = true ∧
        Double.lt (.finite 0) o.state.fxMin = true) ∨
      (∃ a b, o.state.fxMin = .finite a ∧ o.state.fxMax = .finite b ∧ 0 < a * b ∧
        R (a * b) = .finite 0)) := by
  by_cases hne : Double.le (Double.fabs (f guess)) xAccuracy = true
  · rw [GuessStep.entry_early R f s xAccuracy guess step passes hne] at h
    cases h
    cases hr
  obtain ⟨v, hv, hcase⟩ := GuessStep.entry_end R f s xAccuracy guess step passes o hne h
  obtain ⟨-, ⟨v1, v2⟩, -⟩ := GuessStep.reached_basics R f s xAccuracy guess step v hv
  rcases hcase with ⟨-, hb⟩ | ⟨-, rfl⟩
  · obtain ⟨hprod, hc | hc | hc⟩ := GuessStep.exit_cases R f xAccuracy v.1 v.2 o hb
    · obtain ⟨-, rfl⟩ := hc
      cases hr
    · obtain ⟨-, -, rfl⟩ := hc
      cases hr
    · obtain ⟨z1, z2, rfl⟩ := hc
      cases hr
      exact ⟨⟨v1, v2⟩, z1, z2, hprod, rfl, rfl,
        fun hx => effectiveAccuracy_positive xAccuracy hx,
        fun hR => Double.sign_of_mul_nonpos R hR _ _ z1 z2 hprod⟩
  · cases hr

/-- The call for a constant objective with a positive value `t` whose square underflows,
with `xAccuracy = 0`, guess `0` and step `1`: `solve_` is reached with `fxMin = fxMax = t`. -/
theorem entry_of_underflow (f : Double → Double) (t : ℚ) (ht : 0 < t)
    (hf : ∀ x, f x = .finite t)
    (hu : Double.mul binary64 (.finite t) (.finite t) = .finite 0) :
    GuessStep.entry binary64 f plainSolver (.finite 0) (.finite 0) (.finite 1) 1 =
      some ⟨.refine QL_EPSILON,
        { plainSolver with root := .finite (-(1 / 2)), xMin := .finite (-1), xMax := .finite 0,
                           fxMin := .finite t, fxMax := .finite t, evaluationNumber := 2 }⟩ := by
  have b1 : binary64 (-1) = .finite (-1) := by
    simpa using binary64_intCast (-1) (by norm_num)
  have bh : binary64 (-(1 / 2)) = .finite (-(1 / 2)) := by
    have h := binary64_neg_two_zpow (-1) (by norm_num) (by norm_num)
    have e : -(2 : ℚ) ^ (-1 : Int) = -(1 / 2) := by norm_num
    rw [e] at h
    exact h
  have hne : ¬ (Double.le (Double.fabs (f (.finite 0))) (.finite 0) = true) := by
    rw [hf]
    simp only [Double.fabs, Double.le, decide_eq_true_eq, not_le]
    exact abs_pos.mpr ht.ne'
  have hgt : Double.gt (.finite t) (.finite 0) = true := by
    simp only [Double.gt, Double.lt, decide_eq_true_eq]
    exact ht
  have hz : Double.eq (.finite t) (.finite 0) = false := by
    simp only [Double.eq, decide_eq_false_iff_not]
    exact ht.ne'
  have hmax : QL_MAX (QL_FABS (.finite 0)) QL_EPSILON = QL_EPSILON := by
    simp only [QL_MAX, QL_FABS, Double.max, Double.fabs, QL_EPSILON, Double.lt, abs_zero]
    rw [if_pos]
    simp only [decide_eq_true_eq]
    positivity
  have hinit : GuessStep.initialBracket binary64 f plainSolver (.finite 0) (.finite 1)
      = { plainSolver with root := .finite 0, xMin := .finite (-1), xMax := .finite 0,
                           fxMin := .finite t, fxMax := .finite t, evaluationNumber := 2 } := by
    simp only [GuessStep.initialBracket, hf, hgt, if_true, enforceBounds_, plainSolver,
      Bool.false_eq_true, false_and, if_false, Double.sub, Double.neg, Double.add, zero_add, b1]
  rw [GuessStep.entry_search binary64 f plainSolver _ _ _ 1 hne, hinit,
    GuessStep.loop_step_exit binary64 f (.finite 0) 0 (-1) _ _ (by simp [plainSolver])
      (GuessStep.body_refine binary64 f (.finite 0) (-1) _
        (by rw [hu]; simp [Double.le]) hz hz), hmax]
  simp only [plainSolver, Double.add, Double.div, zero_add, b1]
  norm_num
  exact bh

/-- C11 (as stated, refuted): for the constant objective `f(x) = 2^-600`, `xAccuracy = 0`,
guess `0` and step `1`, in binary64 arithmetic, the product of the two endpoint values
underflows to zero, and `solve_` is reached with `fxMin = fxMax = 2^-600`: two values of
the same sign, whose exact product is positive. -/
theorem guess_step_refine_state_counterexample :
    GuessStep.entry binary64 constantTiny plainSolver (.finite 0) (.finite 0) (.finite 1) 1 =
      some ⟨.refine QL_EPSILON,
        { plainSolver with root := .finite (-(1 / 2)), xMin := .finite (-1), xMax := .finite 0,
                           fxMin := .finite (2 ^ (-600 : Int)),
                           fxMax := .finite (2 ^ (-600 : Int)), evaluationNumber := 2 }⟩ ∧
    (0 : ℚ) < 2 ^ (-600 : Int) * 2 ^ (-600 : Int) := by
  have hp : (0 : ℚ) < (2 : ℚ) ^ (-600 : Int) := by positivity
  refine ⟨entry_of_underflow constantTiny _ hp (fun _ => rfl) ?_, mul_pos hp hp⟩
  simp only [Double.mul]
  apply binary64_of_tiny
  rw [abs_of_pos (by positivity), ← zpow_add₀ (by norm_num : (2 : ℚ) ≠ 0)]
  exact zpow_lt_zpow_right₀ (by norm_num) (by norm_num)

theorem minusThree_two : minusThree (.finite 2) = .finite (-1) := by
  have b : binary64 (-1) = .finite (-1) := by
    simpa using binary64_intCast (-1) (by norm_num)
  have e : (2 : ℚ) + -3 = -1 := by norm_num
  simp only [minusThree, Double.sub, Double.neg, Double.add, e, b]

theorem minusThree_four : minusThree (.finite 4) = .finite 1 := by
  have b : binary64 1 = .finite 1 := by
    simpa using binary64_intCast 1 (by norm_num)
  have e : (4 : ℚ) + -3 = 1 := by norm_num
  simp only [minusThree, Double.sub, Double.neg, Double.add, e, b]

/-- The call for `f(x) = x - 3` with guess `2`, step `2` and `xAccuracy = 10^-10`, in
binary64 arithmetic: the initial bracket is `[2, 4]` with the values `-1` and `1`, and
`solve_` is called with `root = 3`. -/
theorem entry_minusThree :
    GuessStep.entry binary64 minusThree plainSolver (.finite (1 / 10 ^ 10)) (.finite 2)
        (.finite 2) 1 =
      some ⟨.refine (.finite (1 / 10 ^ 10)),
        { plainSolver with root := .finite 3, xMin := .finite 2, xMax := .finite 4,
                           fxMin := .finite (-1), fxMax := .finite 1, evaluationNumber := 2 }⟩ := by
  have b4 : binary64 4 = .finite 4 := by
    simpa using binary64_intCast 4 (by norm_num)
  have b6 : binary64 6 = .finite 6 := by
    simpa using binary64_intCast 6 (by norm_num)
  have b3 : binary64 3 = .finite 3 := by
    simpa using binary64_intCast 3 (by norm_num)
  have bm : binary64 (-1) = .finite (-1) := by
    simpa using binary64_intCast (-1) (by norm_num)
  have hne : ¬ (Double.le (Double.fabs (minusThree (.finite 2))) (.finite (1 / 10 ^ 10)) = true) := by
    rw [minusThree_two]
    simp only [Double.fabs, Double.le, decide_eq_true_eq, not_le]
    norm_num
  have hgt : Double.gt (.finite (-1)) (.finite 0) = false := by
    simp [Double.gt, Double.lt]
  have hmax : QL_MAX (QL_FABS (.finite (1 / 10 ^ 10))) QL_EPSILON = .finite (1 / 10 ^ 10) := by
    simp only [QL_MAX, QL_FABS, Double.max, Double.fabs, QL_EPSILON, Double.lt]
    rw [abs_of_pos (by norm_num), if_neg]
    simp only [decide_eq_true_eq, not_lt]
    norm_num
  have e4 : (2 : ℚ) + 2 = 4 := by norm_num
  have hinit : GuessStep.initialBracket binary64 minusThree plainSolver (.finite 2) (.finite 2)
      = { plainSolver with root := .finite 2, xMin := .finite 2, xMax := .finite 4,
                           fxMin := .finite (-1), fxMax := .finite 1, evaluationNumber := 2 } := by
    simp only [GuessStep.initialBracket, minusThree_two, hgt, Bool.false_eq_true, if_false,
      enforceBounds_, plainSolver, false_and, Double.add, e4, b4, minusThree_four]
  have hprod : Double.le (Double.mul binary64 (.finite (-1)) (.finite 1)) (.finite 0) = true := by
    simp only [Double.mul, mul_one, bm, Double.le, decide_eq_true_eq]
    norm_num
  rw [GuessStep.entry_search binary64 minusThree plainSolver _ _ _ 1 hne, hinit,
    GuessStep.loop_step_exit binary64 minusThree _ 0 (-1) _ _ (by simp [plainSolver])
      (GuessStep.body_refine binary64 minusThree _ (-1) _ hprod
        (by simp [Double.eq]) (by simp [Double.eq])), hmax]
  have e6 : (4 : ℚ) + 2 = 6 := by norm_num
  have e3 : (6 : ℚ) / 2 = 3 := by norm_num
  have t2 : ¬ ((2 : ℚ) = 0) := by norm_num
  simp only [plainSolver, Double.add, Double.div, e6, b6, t2, if_false, e3, b3]

/-- C11 (amended) at a concrete input: `f(x) = x - 3` with guess `2` and step `2`, in
binary64 arithmetic, reaches `solve_` on the bracket `[2, 4]` with the values `-1` and `1`,
whose computed product is `-1`, and with `root = 3`. -/
theorem guess_step_refine_state_witness :
    GuessStep.ValuesAtEndpoints minusThree
      { plainSolver with root := .finite 3, xMin := .finite 2, xMax := .finite 4,
                         fxMin := .finite (-1), fxMax := .finite 1, evaluationNumber := 2 } ∧
    Double.eq (.finite (-1)) (.finite 0) = false ∧
    Double.eq (.finite 1) (.finite 0) = false ∧
    Double.le (Double.mul binary64 (.finite (-1)) (.finite 1)) (.finite 0) = true ∧
    Double.finite 3 = Double.div binary64 (Double.add binary64 (.finite 4) (.finite 2)) (.finite 2) ∧
    Double.finite (1 / 10 ^ 10) = QL_MAX (QL_FABS (.finite (1 / 10 ^ 10))) QL_EPSILON ∧
    (Double.finite (1 / 10 ^ 10) ≠ .nan → Double.lt (.finite 0) (.finite (1 / 10 ^ 10)) = true) ∧
    (Double.IsRounding binary64 →
      (Double.lt (.finite (-1)) (.finite 0) = true ∧
        Double.lt (.finite 0) (.finite 1) = true) ∨
      (Double.lt (.finite 1) (.finite 0) = true ∧
        Double.lt (.finite 0) (.finite (-1)) = true) ∨
      (∃ a b, Double.finite (-1) = .finite a ∧ Double.finite 1 = .finite b ∧ 0 < a * b ∧
        binary64 (a * b) = .finite 0)) :=
  guess_step_refine_state binary64 minusThree plainSolver (.finite (1 / 10 ^ 10)) (.finite 2)
    (.finite 2) 1 _ _ entry_minusThree rfl

/-- As long as the counter cannot overflow, a widening pass increases it. -/
theorem pass_counts (R : ℚ → Double) (f : Double → Double) (xAccuracy : Double)
    (flipflop flipflop' : Int) (s s' : Solver1D)
    (hmax : s.maxEvaluations ≤ 2 ^ 31 - 3) (h2 : 2 ≤ s.evaluationNumber)
    (hc : s.evaluationNumber ≤ s.maxEvaluations)
    (h : GuessStep.loopBody R f xAccuracy flipflop s = .inr (flipflop', s')) :
    s.evaluationNumber < s'.evaluationNumber ∧ s'.evaluationNumber ≤ s.evaluationNumber + 2 ∧
    s'.maxEvaluations = s.maxEvaluations := by
  have w1 : wrapInt (s.evaluationNumber + 1) = s.evaluationNumber + 1 :=
    wrapInt_of_range _ (by norm_num; omega) (by norm_num at hmax ⊢; omega)
  have w2 : wrapInt (s.evaluationNumber + 1 + 1) = s.evaluationNumber + 1 + 1 :=
    wrapInt_of_range _ (by norm_num; omega) (by norm_num at hmax ⊢; omega)
  obtain ⟨-, -, hcase⟩ := GuessStep.pass_cases R f xAccuracy flipflop flipflop' s s' h
  rcases hcase with ⟨e, he, rfl⟩ | rfl | ⟨rfl, -, -⟩
  · rcases he with rfl | rfl
    · rw [w1]
      exact ⟨by simp, by simp, rfl⟩
    · rw [w1, w2]
      exact ⟨by simp; omega, by simp; omega, rfl⟩
  · rw [w1]
    exact ⟨by simp, by simp, rfl⟩
  · rw [w1]
    exact ⟨by simp, by simp, rfl⟩

/-- As long as the counter cannot overflow, the loop ends within as many passes as the
budget leaves. -/
theorem loop_terminates (R : ℚ → Double) (f : Double → Double) (xAccuracy : Double) :
    ∀ (n : Nat) (flipflop : Int) (s : Solver1D), s.maxEvaluations ≤ 2 ^ 31 - 3 →
      2 ≤ s.evaluationNumber → s.maxEvaluations + 1 - s.evaluationNumber ≤ n →
      ∃ o, GuessStep.bracketLoop R f xAccuracy n flipflop s = some o := by
  intro n
  induction n with
  | zero =>
    intro flipflop s _ _ hn
    exact ⟨_, GuessStep.loop_stop R f xAccuracy 0 flipflop s (by push_cast at hn; omega)⟩
  | succ n ih =>
    intro flipflop s hmax h2 hn
    by_cases hc : s.evaluationNumber ≤ s.maxEvaluations
    · cases hb : GuessStep.loopBody R f xAccuracy flipflop s with
      | inl o => exact ⟨o, GuessStep.loop_step_exit R f xAccuracy n flipflop s o hc hb⟩
      | inr r =>
        obtain ⟨flipflop', s'⟩ := r
        obtain ⟨h1, -, hm⟩ := pass_counts R f xAccuracy flipflop flipflop' s s' hmax h2 hc hb
        rw [GuessStep.loop_step_pass R f xAccuracy n flipflop flipflop' s s' hc hb]
        exact ih flipflop' s' (by rw [hm]; exact hmax) (by omega)
          (by rw [hm]; push_cast at hn; omega)
    · exact ⟨_, GuessStep.loop_stop R f xAccuracy _ flipflop s hc⟩

/-- C27 (amended): for every objective and every budget `maxEvaluations <= INT_MAX - 2`, the
call `solve(f, xAccuracy, guess, step)` ends (by a return, an error or the call of
`solve_`) after at most `max(0, maxEvaluations - 1)` passes through the loop body; every
widening pass strictly increases `evaluationNumber`; and with `maxEvaluations < 2` the body
never runs: when the early exit is not taken the call fails with `BracketingFailed` on the
initial bracket, whatever the signs of its two values. -/
theorem guess_step_terminates (R : ℚ → Double) (f : Double → Double) (s : Solver1D)
    (xAccuracy guess step : Double) (hmax : s.maxEvaluations ≤ 2 ^ 31 - 3) :
    (∃ o, GuessStep.entry R f s xAccuracy guess step (s.maxEvaluations - 1).toNat = some o) ∧
    (∀ v v', GuessStep.Reached R f s xAccuracy guess step v →
      GuessStep.Pass R f xAccuracy v v' → v.2.evaluationNumber < v'.2.evaluationNumber) ∧
    (s.maxEvaluations < 2 →
      ¬ (Double.le (Double.fabs (f guess)) xAccuracy = true) →
      GuessStep.entry R f s xAccuracy guess step 0 =
        some ⟨.failed .unableToBracket, GuessStep.initialBracket R f s guess step⟩) := by
  obtain ⟨⟨-, -, -, -, hm⟩, -, he⟩ := GuessStep.initial_spec R f s guess step
  refine ⟨?_, ?_, ?_⟩
  · by_cases hne : Double.le (Double.fabs (f guess)) xAccuracy = true
    · exact ⟨_, GuessStep.entry_early R f s xAccuracy guess step _ hne⟩
    · rw [GuessStep.entry_search R f s xAccuracy guess step _ hne]
      exact loop_terminates R f xAccuracy _ (-1) _ (by rw [hm]; exact hmax) (by rw [he])
        (by rw [hm, he]; omega)
  · intro v v' hv hp
    have inv : 2 ≤ v.2.evaluationNumber ∧ v.2.maxEvaluations = s.maxEvaluations := by
      refine GuessStep.reached_induction R f s xAccuracy guess step
        (fun v => 2 ≤ v.2.evaluationNumber ∧ v.2.maxEvaluations = s.maxEvaluations)
        ⟨by rw [he], hm⟩ ?_ v hv
      rintro ⟨ff, t⟩ ⟨ff', t'⟩ ⟨i1, i2⟩ ⟨hc, hb⟩
      obtain ⟨h1, -, h3⟩ := pass_counts R f xAccuracy ff ff' t t' (by rw [i2]; exact hmax) i1 hc hb
      have i1' : 2 ≤ t.evaluationNumber := i1
      exact ⟨show 2 ≤ t'.evaluationNumber by omega, by rw [h3]; exact i2⟩
    exact (pass_counts R f xAccuracy v.1 v'.1 v.2 v'.2 (by rw [inv.2]; exact hmax) inv.1
      hp.1 hp.2).1
  · intro hlt hne
    rw [GuessStep.entry_search R f s xAccuracy guess step 0 hne]
    exact GuessStep.loop_stop R f xAccuracy 0 (-1) _ (by rw [hm, he]; omega)

theorem twiceMinusOne_zero : twiceMinusOne (.finite 0) = .finite (-1) := by
  have b1 : binary64 (-1) = .finite (-1) := by
    simpa using binary64_intCast (-1) (by norm_num)
  simp only [twiceMinusOne, Double.mul, Double.sub, Double.neg, Double.add, mul_zero,
    binary64_zero, zero_add, b1]

theorem twiceMinusOne_one : twiceMinusOne (.finite 1) = .finite 1 := by
  have b2 : binary64 2 = .finite 2 := by
    simpa using binary64_intCast 2 (by norm_num)
  have b3 : binary64 1 = .finite 1 := by
    simpa using binary64_intCast 1 (by norm_num)
  have e : (2 : ℚ) + -1 = 1 := by norm_num
  simp only [twiceMinusOne, Double.mul, Double.sub, Double.neg, Double.add, mul_one, b2, e, b3]

/-- C27 (amended) at a concrete input: with `maxEvaluations = 1`, `f(x) = 2x - 1`, guess `0`
and step `1`, in binary64 arithmetic, the two initial evaluations give the bracket `[0, 1]`
with the values `-1` and `1`, of opposite sign, and the call still fails with
`BracketingFailed` without a pass through the loop body. -/
theorem guess_step_terminates_witness :
    GuessStep.entry binary64 twiceMinusOne { plainSolver with maxEvaluations := 1 }
        (.finite (1 / 10 ^ 10)) (.finite 0) (.finite 1) 0 =
      some ⟨.failed .unableToBracket,
        { plainSolver with maxEvaluations := 1, root := .finite 0, xMin := .finite 0,
                           xMax := .finite 1, fxMin := .finite (-1), fxMax := .finite 1,
                           evaluationNumber := 2 }⟩ ∧
    (-1 : ℚ) * 1 < 0 := by
  have b1 : binary64 1 = .finite 1 := by
    simpa using binary64_intCast 1 (by norm_num)
  have hne : ¬ (Double.le (Double.fabs (twiceMinusOne (.finite 0))) (.finite (1 / 10 ^ 10))
      = true) := by
    rw [twiceMinusOne_zero]
    simp only [Double.fabs, Double.le, decide_eq_true_eq, not_le]
    norm_num
  have hgt : Double.gt (.finite (-1)) (.finite 0) = false := by
    simp [Double.gt, Double.lt]
  have h := (guess_step_terminates binary64 twiceMinusOne { plainSolver with maxEvaluations := 1 }
    (.finite (1 / 10 ^ 10)) (.finite 0) (.finite 1) (by norm_num)).2.2 (by norm_num) hne
  refine ⟨?_, by norm_num⟩
  rw [h]
  simp only [GuessStep.initialBracket, twiceMinusOne_zero, hgt, Bool.false_eq_true, if_false,
    enforceBounds_, plainSolver, false_and, Double.add, zero_add, b1, twiceMinusOne_one]

/-- A pass that finds a computed product not `<= 0.0` goes on. -/
theorem body_goes_on (R : ℚ → Double) (f : Double → Double) (xAccuracy : Double)
    (flipflop : Int) (s : Solver1D)
    (h0 : Double.le (Double.mul R s.fxMin s.fxMax) (.finite 0) = false) :
    ∃ r, GuessStep.loopBody R f xAccuracy flipflop s = .inr r := by
  simp only [GuessStep.loopBody, h0, Bool.false_eq_true, if_false]
  split_ifs <;> exact ⟨_, rfl⟩

/-- With the budget `INT_MAX` and an objective that is `1` everywhere, the loop is still
running after any number of passes. -/
theorem loop_forever (xAccuracy : Double) :
    ∀ (n : Nat) (flipflop : Int) (s : Solver1D), s.fxMin = .finite 1 → s.fxMax = .finite 1 →
      s.maxEvaluations = 2 ^ 31 - 1 → s.evaluationNumber < 2 ^ 31 →
      GuessStep.bracketLoop binary64 constantOne xAccuracy n flipflop s = none := by
  have b1 : binary64 1 = .finite 1 := by
    simpa using binary64_intCast 1 (by norm_num)
  intro n
  induction n with
  | zero =>
    intro flipflop s _ _ hm he
    have hc : s.evaluationNumber ≤ s.maxEvaluations := by rw [hm]; omega
    simp only [GuessStep.bracketLoop, hc, if_true]
  | succ n ih =>
    intro flipflop s h1 h2 hm he
    have hc : s.evaluationNumber ≤ s.maxEvaluations := by rw [hm]; omega
    have h0 : Double.le (Double.mul binary64 s.fxMin s.fxMax) (.finite 0) = false := by
      rw [h1, h2]
      simp only [Double.mul, mul_one, b1, Double.le, decide_eq_false_iff_not, not_le]
      norm_num
    obtain ⟨⟨flipflop', s'⟩, hb⟩ := body_goes_on binary64 constantOne xAccuracy flipflop s h0
    rw [GuessStep.loop_step_pass binary64 constantOne xAccuracy n flipflop flipflop' s s' hc hb]
    obtain ⟨-, -, hcase⟩ := GuessStep.pass_cases binary64 constantOne xAccuracy flipflop flipflop'
      s s' hb
    rcases hcase with ⟨e, he', rfl⟩ | rfl | ⟨rfl, -, -⟩
    · refine ih flipflop' _ rfl h2 hm ?_
      rcases he' with rfl | rfl
      · exact (wrapInt_range _).2
      · exact (wrapInt_range _).2
    · exact ih flipflop' _ h1 rfl hm (wrapInt_range _).2
    · exact ih flipflop' _ h1 h2 hm (wrapInt_range _).2

/-- C27 (as stated, refuted): with `maxEvaluations = INT_MAX = 2^31 - 1`, the objective
`f(x) = 1`, `xAccuracy = 0`, guess `0` and step `0`, the loop condition
`evaluationNumber_ <= maxEvaluations_` can never fail and no pass ends the call: the call
is still running after any number of passes. -/
theorem guess_step_terminates_counterexample :
    ¬ ∃ passes o, GuessStep.entry binary64 constantOne
        { plainSolver with maxEvaluations := 2 ^ 31 - 1 }
        (.finite 0) (.finite 0) (.finite 0) passes = some o := by
  rintro ⟨passes, o, h⟩
  have hne : ¬ (Double.le (Double.fabs (constantOne (.finite 0))) (.finite 0) = true) := by
    simp only [constantOne, Double.fabs, Double.le, decide_eq_true_eq, not_le]
    norm_num
  obtain ⟨⟨-, -, -, -, hm⟩, ⟨v1, v2⟩, he⟩ := GuessStep.initial_spec binary64 constantOne
    { plainSolver with maxEvaluations := 2 ^ 31 - 1 } (.finite 0) (.finite 0)
  rw [GuessStep.entry_search binary64 constantOne _ _ _ _ passes hne,
    loop_forever (.finite 0) passes (-1) _ v1 v2 hm (by rw [he]; norm_num)] at h
  cases h

end Solver1D

end Machine

theorem roundHalfEven_eq (x : ℚ) (n : Int) (h1 : (n : ℚ) - 1 / 2 < x) (h2 : x < n + 1 / 2) :
    roundHalfEven x = n := by
  by_cases hx : (n : ℚ) ≤ x
  · have hf : ⌊x⌋ = n := Int.floor_eq_iff.mpr ⟨hx, by linarith⟩
    have h3 : x - (n : ℚ) < 1 / 2 := by linarith
    simp only [roundHalfEven, hf, h3, if_true]
  · have hf : ⌊x⌋ = n - 1 := Int.floor_eq_iff.mpr ⟨by push_cast; linarith, by push_cast; linarith⟩
    have h3 : ¬ (x - ((n - 1 : Int) : ℚ) < 1 / 2) := by push_cast; linarith
    have h4 : (1 / 2 : ℚ) < x - ((n - 1 : Int) : ℚ) := by push_cast; linarith
    simp only [roundHalfEven, hf, h3, h4, if_true, if_false]
    ring

theorem not_overflow_of_lt (x : ℚ) (h : |x| < 2 ^ 67) : ¬ ((2 : ℚ) ^ 1024 ≤ |x|) := by
  rw [not_le]
  refine lt_of_lt_of_le h ?_
  exact pow_le_pow_right₀ (by norm_num) (by norm_num)

/-- The literal `1.6` as a binary64 number: `7205759403792794 / 2^52`. -/
theorem binary64_growth :
    binary64 (8 / 5) = .finite (7205759403792794 / 2 ^ 52) := by
  have hn : roundHalfEven ((8 / 5 : ℚ) / 2 ^ (max (0 : Int) (-1022) - 52)) = 7205759403792794 := by
    apply roundHalfEven_eq
    · rw [show max (0 : Int) (-1022) - 52 = -52 by norm_num]
      norm_num
    · rw [show max (0 : Int) (-1022) - 52 = -52 by norm_num]
      norm_num
  have h := binary64_of_binade (8 / 5) 0 7205759403792794
    (by rw [abs_of_pos (by norm_num)]; norm_num) (by rw [abs_of_pos (by norm_num)]; norm_num) hn
  rw [h, show max (0 : Int) (-1022) - 52 = -52 by norm_num, if_neg]
  · congr 1
    norm_num
  · apply not_overflow_of_lt
    rw [abs_of_pos (by positivity)]
    norm_num

/-- In binary64, `10^20 - 1` is rounded to `10^20`: the spacing of the numbers there is
`2^14`. -/
theorem binary64_absorbs : binary64 (10 ^ 20 + -1) = .finite (10 ^ 20) := by
  have hn : roundHalfEven ((10 ^ 20 + -1 : ℚ) / 2 ^ (max (66 : Int) (-1022) - 52))
      = 6103515625000000 := by
    apply roundHalfEven_eq
    · rw [show max (66 : Int) (-1022) - 52 = 14 by norm_num]
      norm_num
    · rw [show max (66 : Int) (-1022) - 52 = 14 by norm_num]
      norm_num
  have h := binary64_of_binade (10 ^ 20 + -1) 66 6103515625000000
    (by rw [abs_of_pos (by norm_num)]; norm_num) (by rw [abs_of_pos (by norm_num)]; norm_num) hn
  rw [h, show max (66 : Int) (-1022) - 52 = 14 by norm_num, if_neg]
  · congr 1
    norm_num
  · apply not_overflow_of_lt
    rw [abs_of_pos (by positivity)]
    norm_num

/-- The number `10^20` is a binary64 number. -/
theorem binary64_1e20 : binary64 (10 ^ 20) = .finite (10 ^ 20) := by
  have h := binary64_of_normal 6103515625000000 66 (by norm_num) (by norm_num)
    (by norm_num) (by norm_num)
  have e : ((6103515625000000 : Int) : ℚ) * 2 ^ ((66 : Int) - 52) = 10 ^ 20 := by norm_num
  rwa [e] at h

namespace Machine

namespace Solver1D

/-- With no bound enforced, a widening pass from reached variables moves exactly one
endpoint, to its candidate. -/
theorem pass_moves_one (R : ℚ → Double) (f : Double → Double) (s : Solver1D)
    (xAccuracy guess step : Double)
    (hlow : s.lowBoundEnforced = false) (hhi : s.hiBoundEnforced = false)
    (v v' : GuessStep.LoopVars) (hv : GuessStep.Reached R f s xAccuracy guess step v)
    (hp : GuessStep.Pass R f xAccuracy v v') :
    (v'.2.xMin = GuessStep.lowerCandidate R v.2 ∧ v'.2.xMax = v.2.xMax) ∨
    (v'.2.xMax = GuessStep.upperCandidate R v.2 ∧ v'.2.xMin = v.2.xMin) := by
  obtain ⟨⟨-, -, c3, c4, -⟩, -, hff⟩ := GuessStep.reached_basics R f s xAccuracy guess step v hv
  obtain ⟨ff, t⟩ := v
  obtain ⟨ff', t'⟩ := v'
  obtain ⟨-, -, hcase⟩ := GuessStep.pass_cases R f xAccuracy ff ff' t t' hp.2
  have e : ∀ x, t.enforceBounds_ x = x := fun x =>
    GuessStep.enforceBounds_free t x (c3.trans hlow) (c4.trans hhi)
  rcases hcase with ⟨k, -, rfl⟩ | rfl | ⟨rfl, n1, n2⟩
  · exact Or.inl ⟨e _, rfl⟩
  · exact Or.inr ⟨e _, rfl⟩
  · rcases hff with h | h
    · exact absurd h n1
    · exact absurd h n2

/-- C24 (amended): with no bound enforced, every widening pass of the loop moves exactly one
endpoint `x`, to the machine value of `x + growthFactor*(x - other)`, each operation being
rounded and `growthFactor` being the double nearest to `1.6`; when that value carries no
rounding error, the signed width `xMax - xMin` is multiplied by `1 + growthFactor`.  With
step `0` and a guess of the format the bracket stays at the guess, and the call ends with
`BracketingFailed`, with the return of the guess where `f` is zero, or, when the computed
product of `f(guess)` with itself is `<= 0.0` for a nonzero `f(guess)` (underflow), with
the call of `solve_` on the bracket `[guess, guess]`. -/
theorem guess_step_expansion (R : ℚ → Double) (f : Double → Double) (s : Solver1D)
    (xAccuracy : Double)
    (hlow : s.lowBoundEnforced = false) (hhi : s.hiBoundEnforced = false) :
    (∀ guess step v v', GuessStep.Reached R f s xAccuracy guess step v →
      GuessStep.Pass R f xAccuracy v v' →
      ((v'.2.xMin = GuessStep.lowerCandidate R v.2 ∧ v'.2.xMax = v.2.xMax) ∨
       (v'.2.xMax = GuessStep.upperCandidate R v.2 ∧ v'.2.xMin = v.2.xMin)) ∧
      ∀ a b g : ℚ, growthFactor R = .finite g → v.2.xMin = .finite a → v.2.xMax = .finite b →
        GuessStep.lowerCandidate R v.2 = .finite (a + g * (a - b)) →
        GuessStep.upperCandidate R v.2 = .finite (b + g * (b - a)) →
        ∃ a' b', v'.2.xMin = .finite a' ∧ v'.2.xMax = .finite b' ∧
          b' - a' = (1 + g) * (b - a)) ∧
    (∀ γ : ℚ, R γ = .finite γ → R 0 = .finite 0 → (∃ g, growthFactor R = .finite g) →
      (∀ v, GuessStep.Reached R f s xAccuracy (.finite γ) (.finite 0) v →
        v.2.xMin = .finite γ ∧ v.2.xMax = .finite γ ∧
        v.2.fxMin = f (.finite γ) ∧ v.2.fxMax = f (.finite γ)) ∧
      (∀ passes o, GuessStep.entry R f s xAccuracy (.finite γ) (.finite 0) passes = some o →
        ¬ (Double.le (Double.fabs (f (.finite γ))) xAccuracy = true) →
        o.result = .failed .unableToBracket ∨
        (o.result = .returned (.finite γ) ∧ Double.eq (f (.finite γ)) (.finite 0) = true) ∨
        (∃ a, o.result = .refine a ∧ o.state.xMin = .finite γ ∧ o.state.xMax = .finite γ ∧
          Double.eq (f (.finite γ)) (.finite 0) = false ∧
          Double.le (Double.mul R (f (.finite γ)) (f (.finite γ))) (.finite 0) = true))) := by
  refine ⟨fun guess step v v' hv hp => ?_, fun γ hγ h0 hg => ?_⟩
  · have hm := pass_moves_one R f s xAccuracy guess step hlow hhi v v' hv hp
    refine ⟨hm, fun a b g _ ha hb hl hu => ?_⟩
    rcases hm with ⟨h1, h2⟩ | ⟨h1, h2⟩
    · exact ⟨_, _, h1.trans hl, h2.trans hb, by ring⟩
    · exact ⟨_, _, h2.trans ha, h1.trans hu, by ring⟩
  · obtain ⟨g, hg⟩ := hg
    have inv : ∀ v, GuessStep.Reached R f s xAccuracy (.finite γ) (.finite 0) v →
        v.2.xMin = .finite γ ∧ v.2.xMax = .finite γ := by
      intro v hv
      refine GuessStep.reached_induction R f s xAccuracy (.finite γ) (.finite 0)
        (fun v => GuessStep.Reached R f s xAccuracy (.finite γ) (.finite 0) v ∧
          v.2.xMin = .finite γ ∧ v.2.xMax = .finite γ) ?_ ?_ v hv |>.2
      · refine ⟨⟨hv.1, Relation.ReflTransGen.refl⟩, ?_⟩
        have e : ∀ x, s.enforceBounds_ x = x := fun x =>
          GuessStep.enforceBounds_free s x hlow hhi
        simp only [GuessStep.initialBracket, e, Double.sub, Double.neg, Double.add, neg_zero,
          add_zero, hγ]
        split_ifs <;> exact ⟨rfl, rfl⟩
      · rintro w w' ⟨hw, h1, h2⟩ hp
        refine ⟨⟨hw.1, hw.2.tail hp⟩, ?_⟩
        have hl : GuessStep.lowerCandidate R w.2 = .finite γ := by
          simp only [GuessStep.lowerCandidate, h1, h2, hg, Double.sub, Double.neg, Double.add,
            Double.mul, add_neg_cancel, h0, mul_zero, add_zero, hγ]
        have hu : GuessStep.upperCandidate R w.2 = .finite γ := by
          simp only [GuessStep.upperCandidate, h1, h2, hg, Double.sub, Double.neg, Double.add,
            Double.mul, add_neg_cancel, h0, mul_zero, add_zero, hγ]
        rcases pass_moves_one R f s xAccuracy _ _ hlow hhi w w' hw hp with ⟨e1, e2⟩ | ⟨e1, e2⟩
        · exact ⟨e1.trans hl, e2.trans h2⟩
        · exact ⟨e2.trans h1, e1.trans hu⟩
    have vals : ∀ v, GuessStep.Reached R f s xAccuracy (.finite γ) (.finite 0) v →
        v.2.xMin = .finite γ ∧ v.2.xMax = .finite γ ∧
        v.2.fxMin = f (.finite γ) ∧ v.2.fxMax = f (.finite γ) := by
      intro v hv
      obtain ⟨h1, h2⟩ := inv v hv
      obtain ⟨-, ⟨v1, v2⟩, -⟩ := GuessStep.reached_basics R f s xAccuracy _ _ v hv
      exact ⟨h1, h2, by rw [v1, h1], by rw [v2, h2]⟩
    refine ⟨vals, fun passes o h hne => ?_⟩
    obtain ⟨v, hv, hcase⟩ := GuessStep.entry_end R f s xAccuracy _ _ passes o hne h
    obtain ⟨h1, h2, h3, h4⟩ := vals v hv
    rcases hcase with ⟨-, hb⟩ | ⟨-, rfl⟩
    · obtain ⟨hprod, hc | hc | hc⟩ := GuessStep.exit_cases R f xAccuracy v.1 v.2 o hb
      · obtain ⟨z, rfl⟩ := hc
        exact Or.inr (Or.inl ⟨by rw [h1], by rw [← h3]; exact z⟩)
      · obtain ⟨-, z, rfl⟩ := hc
        exact Or.inr (Or.inl ⟨by rw [h2], by rw [← h4]; exact z⟩)
      · obtain ⟨z1, -, rfl⟩ := hc
        refine Or.inr (Or.inr ⟨_, rfl, h1, h2, by rw [← h3]; exact z1, ?_⟩)
        rw [h3, h4] at hprod
        exact hprod
    · exact Or.inl rfl

theorem wrapInt_twice : wrapInt (wrapInt (2 + 1) + 1) = 4 := by
  norm_num [wrapInt]

/-- The first pass for `f(x) = x - 3`, guess `0` and step `1` in binary64 arithmetic: the
initial bracket `[0, 1]` has the values `-3` and `-2`, and `xMax` moves. -/
theorem minusThree_first_pass :
    GuessStep.initialBracket binary64 minusThree plainSolver (.finite 0) (.finite 1) =
      { plainSolver with root := .finite 0, xMin := .finite 0, xMax := .finite 1,
                         fxMin := .finite (-3), fxMax := .finite (-2), evaluationNumber := 2 } ∧
    ¬ (Double.le (Double.fabs (minusThree (.finite 0))) (.finite (1 / 10 ^ 10)) = true) ∧
    Double.le (Double.mul binary64 (.finite (-3)) (.finite (-2))) (.finite 0) = false ∧
    Double.lt (QL_FABS (.finite (-3))) (QL_FABS (.finite (-2))) = false ∧
    Double.gt (QL_FABS (.finite (-3))) (QL_FABS (.finite (-2))) = true := by
  have b3 : binary64 (-3) = .finite (-3) := by
    simpa using binary64_intCast (-3) (by norm_num)
  have b2 : binary64 (-2) = .finite (-2) := by
    simpa using binary64_intCast (-2) (by norm_num)
  have b1 : binary64 1 = .finite 1 := by
    simpa using binary64_intCast 1 (by norm_num)
  have b6 : binary64 6 = .finite 6 := by
    simpa using binary64_intCast 6 (by norm_num)
  have f0 : minusThree (.finite 0) = .finite (-3) := by
    simp only [minusThree, Double.sub, Double.neg, Double.add, zero_add, b3]
  have f1 : minusThree (.finite 1) = .finite (-2) := by
    have e : (1 : ℚ) + -3 = -2 := by norm_num
    simp only [minusThree, Double.sub, Double.neg, Double.add, e, b2]
  have hgt : Double.gt (.finite (-3)) (.finite 0) = false := by
    simp [Double.gt, Double.lt]
  refine ⟨?_, ?_, ?_, ?_, ?_⟩
  · simp only [GuessStep.initialBracket, f0, hgt, Bool.false_eq_true, if_false,
      enforceBounds_, plainSolver, false_and, Double.add, zero_add, b1, f1]
  · rw [f0]
    simp only [Double.fabs, Double.le, decide_eq_true_eq, not_le]
    norm_num
  · have e : (-3 : ℚ) * -2 = 6 := by norm_num
    simp only [Double.mul, e, b6, Double.le, decide_eq_false_iff_not, not_le]
    norm_num
  · simp only [QL_FABS, Double.fabs, Double.lt, decide_eq_false_iff_not, not_lt]
    norm_num
  · simp only [QL_FABS, Double.fabs, Double.gt, Double.lt, decide_eq_true_eq]
    norm_num

/-- C24 (amended) at the spec's input: for `f(x) = x - 3`, guess `0` and step `1` in
binary64 arithmetic, the first pass widens the bracket `[0, 1]` to `[0, 1 + g]` with
`g = 7205759403792794 / 2^52`, the double nearest to `1.6`: here no operation rounds, and
the width is multiplied by `1 + g`. -/
theorem guess_step_expansion_witness :
    ∃ v', GuessStep.Pass binary64 minusThree (.finite (1 / 10 ^ 10))
        (-1, GuessStep.initialBracket binary64 minusThree plainSolver (.finite 0) (.finite 1)) v' ∧
      ∃ a' b' : ℚ, v'.2.xMin = .finite a' ∧ v'.2.xMax = .finite b' ∧
        b' - a' = (1 + 7205759403792794 / 2 ^ 52) * (1 - 0) := by
  obtain ⟨hinit, hne, h0, h1, h2⟩ := minusThree_first_pass
  have b1 : binary64 1 = .finite 1 := by
    simpa using binary64_intCast 1 (by norm_num)
  have bm1 : binary64 (-1) = .finite (-1) := by
    simpa using binary64_intCast (-1) (by norm_num)
  have bg : binary64 (7205759403792794 / 2 ^ 52) = .finite (7205759403792794 / 2 ^ 52) := by
    have h := binary64_of_normal 7205759403792794 0 (by norm_num) (by norm_num)
      (by norm_num) (by norm_num)
    have e : ((7205759403792794 : Int) : ℚ) * 2 ^ ((0 : Int) - 52) = 7205759403792794 / 2 ^ 52 := by
      norm_num
    rwa [e] at h
  have bng : binary64 (-(7205759403792794 / 2 ^ 52)) = .finite (-(7205759403792794 / 2 ^ 52)) := by
    have h := binary64_of_normal (-7205759403792794) 0 (by norm_num) (by norm_num)
      (by norm_num) (by norm_num)
    have e : ((-7205759403792794 : Int) : ℚ) * 2 ^ ((0 : Int) - 52)
        = -(7205759403792794 / 2 ^ 52) := by
      norm_num
    rwa [e] at h
  have bg1 : binary64 (1 + 7205759403792794 / 2 ^ 52)
      = .finite (1 + 7205759403792794 / 2 ^ 52) := by
    have h := binary64_of_normal 5854679515581645 1 (by norm_num) (by norm_num)
      (by norm_num) (by norm_num)
    have e : ((5854679515581645 : Int) : ℚ) * 2 ^ ((1 : Int) - 52)
        = 1 + 7205759403792794 / 2 ^ 52 := by
      norm_num
    rwa [e] at h
  have hv : GuessStep.Reached binary64 minusThree plainSolver (.finite (1 / 10 ^ 10)) (.finite 0)
      (.finite 1)
      (-1, GuessStep.initialBracket binary64 minusThree plainSolver (.finite 0) (.finite 1)) :=
    ⟨hne, Relation.ReflTransGen.refl⟩
  have hp : GuessStep.Pass binary64 minusThree (.finite (1 / 10 ^ 10))
      (-1, GuessStep.initialBracket binary64 minusThree plainSolver (.finite 0) (.finite 1)) _ :=
    ⟨by rw [hinit]; simp [plainSolver],
      GuessStep.body_widen_max binary64 minusThree (.finite (1 / 10 ^ 10)) (-1) _
        (by rw [hinit]; exact h0) (by rw [hinit]; exact h1) (by rw [hinit]; exact h2)⟩
  refine ⟨_, hp, ?_⟩
  refine ((guess_step_expansion binary64 minusThree plainSolver (.finite (1 / 10 ^ 10)) rfl rfl).1
    (.finite 0) (.finite 1) _ _ hv hp).2 0 1 (7205759403792794 / 2 ^ 52) binary64_growth
    (by rw [hinit]) (by rw [hinit]) ?_ ?_
  · rw [hinit]
    have e1 : (0 : ℚ) + -1 = -1 := by norm_num
    have e2 : (7205759403792794 / 2 ^ 52 : ℚ) * -1 = -(7205759403792794 / 2 ^ 52) := by ring
    have e3 : (0 : ℚ) + 7205759403792794 / 2 ^ 52 * (0 - 1) = -(7205759403792794 / 2 ^ 52) := by
      ring
    simp only [GuessStep.lowerCandidate, growthFactor, binary64_growth, Double.sub, Double.neg,
      Double.add, Double.mul, e1, bm1, e2, bng, zero_add, e3]
  · rw [hinit]
    have e1 : (1 : ℚ) + -0 = 1 := by norm_num
    have e3 : (1 : ℚ) + 7205759403792794 / 2 ^ 52 * (1 - 0) = 1 + 7205759403792794 / 2 ^ 52 := by
      ring
    simp only [GuessStep.upperCandidate, growthFactor, binary64_growth, Double.sub, Double.neg,
      Double.add, Double.mul, e1, b1, mul_one, bg, bg1, e3]

/-- The call for a constant objective with a positive value `t` whose square underflows,
with `xAccuracy = 0`, guess `0` and step `0`: `solve_` is reached on the bracket `[0, 0]`. -/
theorem entry_of_underflow_at_zero (f : Double → Double) (t : ℚ) (ht : 0 < t)
    (hf : ∀ x, f x = .finite t)
    (hu : Double.mul binary64 (.finite t) (.finite t) = .finite 0) :
    GuessStep.entry binary64 f plainSolver (.finite 0) (.finite 0) (.finite 0) 1 =
      some ⟨.refine QL_EPSILON,
        { plainSolver with root := .finite 0, xMin := .finite 0, xMax := .finite 0,
                           fxMin := .finite t, fxMax := .finite t, evaluationNumber := 2 }⟩ := by
  have hne : ¬ (Double.le (Double.fabs (f (.finite 0))) (.finite 0) = true) := by
    rw [hf]
    simp only [Double.fabs, Double.le, decide_eq_true_eq, not_le]
    exact abs_pos.mpr ht.ne'
  have hgt : Double.gt (.finite t) (.finite 0) = true := by
    simp only [Double.gt, Double.lt, decide_eq_true_eq]
    exact ht
  have hz : Double.eq (.finite t) (.finite 0) = false := by
    simp only [Double.eq, decide_eq_false_iff_not]
    exact ht.ne'
  have hmax : QL_MAX (QL_FABS (.finite 0)) QL_EPSILON = QL_EPSILON := by
    simp only [QL_MAX, QL_FABS, Double.max, Double.fabs, QL_EPSILON, Double.lt, abs_zero]
    rw [if_pos]
    simp only [decide_eq_true_eq]
    positivity
  have hinit : GuessStep.initialBracket binary64 f plainSolver (.finite 0) (.finite 0)
      = { plainSolver with root := .finite 0, xMin := .finite 0, xMax := .finite 0,
                           fxMin := .finite t, fxMax := .finite t, evaluationNumber := 2 } := by
    simp only [GuessStep.initialBracket, hf, hgt, if_true, enforceBounds_, plainSolver,
      Bool.false_eq_true, false_and, if_false, Double.sub, Double.neg, Double.add, neg_zero,
      zero_add, binary64_zero]
  rw [GuessStep.entry_search binary64 f plainSolver _ _ _ 1 hne, hinit,
    GuessStep.loop_step_exit binary64 f (.finite 0) 0 (-1) _ _ (by simp [plainSolver])
      (GuessStep.body_refine binary64 f (.finite 0) (-1) _
        (by rw [hu]; simp [Double.le]) hz hz), hmax]
  have t2 : ¬ ((2 : ℚ) = 0) := by norm_num
  simp only [plainSolver, Double.add, Double.div, zero_add, binary64_zero, t2, if_false,
    zero_div]

/-- C24 (as stated, refuted): in binary64 arithmetic, for `f(x) = 1`, guess `10^20` and step
`1` the step is absorbed (`10^20 - 1` is rounded to `10^20`): the bracket is
`[10^20, 10^20]` before and after the widening pass, of width `0` and not `1` or `2.6`;
and for `f(x) = 2^-600`, guess `0`, step `0` and `xAccuracy = 0` the call ends neither with
`BracketingFailed` nor with a return: it calls `solve_`. -/
theorem guess_step_expansion_counterexample :
    GuessStep.entry binary64 constantOne { plainSolver with maxEvaluations := 3 } (.finite 0)
        (.finite (10 ^ 20)) (.finite 1) 1 =
      some ⟨.failed .unableToBracket,
        { plainSolver with maxEvaluations := 3, root := .finite (10 ^ 20),
                           xMin := .finite (10 ^ 20), xMax := .finite (10 ^ 20),
                           fxMin := .finite 1, fxMax := .finite 1, evaluationNumber := 4 }⟩ ∧
    (10 ^ 20 : ℚ) - 10 ^ 20 ≠ 1 * (13 / 5) ^ 1 ∧
    GuessStep.entry binary64 constantTiny plainSolver (.finite 0) (.finite 0) (.finite 0) 1 =
      some ⟨.refine QL_EPSILON,
        { plainSolver with root := .finite 0, xMin := .finite 0, xMax := .finite 0,
                           fxMin := .finite (2 ^ (-600 : Int)),
                           fxMax := .finite (2 ^ (-600 : Int)), evaluationNumber := 2 }⟩ := by
  have b1 : binary64 1 = .finite 1 := by
    simpa using binary64_intCast 1 (by norm_num)
  have hp : (0 : ℚ) < (2 : ℚ) ^ (-600 : Int) := by positivity
  refine ⟨?_, by norm_num, entry_of_underflow_at_zero constantTiny _ hp (fun _ => rfl) ?_⟩
  · have hne : ¬ (Double.le (Double.fabs (constantOne (.finite (10 ^ 20)))) (.finite 0) = true) := by
      simp only [constantOne, Double.fabs, Double.le, decide_eq_true_eq, not_le]
      norm_num
    have hgt : Double.gt (.finite 1) (.finite 0) = true := by
      simp [Double.gt, Double.lt]
    have hinit : GuessStep.initialBracket binary64 constantOne
        { plainSolver with maxEvaluations := 3 } (.finite (10 ^ 20)) (.finite 1)
        = { plainSolver with maxEvaluations := 3, root := .finite (10 ^ 20),
                             xMin := .finite (10 ^ 20), xMax := .finite (10 ^ 20),
                             fxMin := .finite 1, fxMax := .finite 1, evaluationNumber := 2 } := by
      simp only [GuessStep.initialBracket, constantOne, hgt, if_true, enforceBounds_, plainSolver,
        Bool.false_eq_true, false_and, if_false, Double.sub, Double.neg, Double.add,
        binary64_absorbs]
    have hprod : Double.le (Double.mul binary64 (.finite 1) (.finite 1)) (.finite 0) = false := by
      simp only [Double.mul, mul_one, b1, Double.le, decide_eq_false_iff_not, not_le]
      norm_num
    have hlt : Double.lt (QL_FABS (.finite 1)) (QL_FABS (.finite 1)) = false :=
      Double.lt_irrefl_of _
    have hgt' : Double.gt (QL_FABS (.finite 1)) (QL_FABS (.finite 1)) = false := by
      simp only [Double.gt]
      exact Double.lt_irrefl_of _
    rw [GuessStep.entry_search binary64 constantOne _ _ _ _ 1 hne, hinit,
      GuessStep.loop_step_pass binary64 constantOne (.finite 0) 0 (-1) 1 _ _
        (by simp [plainSolver])
        (GuessStep.body_tie_min binary64 constantOne (.finite 0) _ hprod hlt hgt'),
      GuessStep.loop_stop binary64 constantOne (.finite 0) 0 1 _
        (by simp only [plainSolver, wrapInt_twice]; norm_num)]
    simp only [plainSolver, wrapInt_twice, enforceBounds_, Bool.false_eq_true,
      false_and, if_false, GuessStep.lowerCandidate, growthFactor, binary64_growth, Double.sub,
      Double.neg, Double.add, Double.mul, add_neg_cancel, binary64_zero, mul_zero, add_zero,
      binary64_1e20, constantOne]
  · simp only [Double.mul]
    apply binary64_of_tiny
    rw [abs_of_pos (by positivity), ← zpow_add₀ (by norm_num : (2 : ℚ) ≠ 0)]
    exact zpow_lt_zpow_right₀ (by norm_num) (by norm_num)

theorem enforceBounds_config (s t : Solver1D) (x : Double) (h : SameConfig s t) :
    t.enforceBounds_ x = s.enforceBounds_ x := by
  obtain ⟨h1, h2, h3, h4, -⟩ := h
  simp only [enforceBounds_, h1, h2, h3, h4]

/-- Clamping a candidate for `xMin` that is not above `x`, for an `x` within the bounds. -/
theorem clamp_lower (R : ℚ → Double) (s : Solver1D) (c x : Double)
    (hc : Double.le c x = true) (hcf : Double.InFormat R c)
    (hlow : s.lowBoundEnforced = true → Double.le s.lowBound x = true)
    (hhi : s.hiBoundEnforced = true → Double.le x s.hiBound = true)
    (hlf : s.lowBoundEnforced = true → Double.InFormat R s.lowBound) :
    Double.le (s.enforceBounds_ c) x = true ∧ Double.InFormat R (s.enforceBounds_ c) ∧
    (s.lowBoundEnforced = true → Double.le s.lowBound (s.enforceBounds_ c) = true) := by
  unfold enforceBounds_
  split_ifs with h1 h2
  · exact ⟨hlow h1.1, hlf h1.1,
      fun _ => Double.le_refl_of _ (Double.InFormat.not_nan R _ (hlf h1.1))⟩
  · have h3 := Double.not_lt_of_le _ _ (Double.le_trans _ _ _ hc (hhi h2.1))
    simp only [Double.gt] at h2
    rw [h3] at h2
    exact absurd h2.2 (by simp)
  · refine ⟨hc, hcf, fun hl => ?_⟩
    have h3 : Double.lt c s.lowBound = false := by
      by_contra h
      exact h1 ⟨hl, by simpa using h⟩
    exact Double.le_of_not_lt _ _ (Double.InFormat.not_nan R _ hcf)
      (Double.InFormat.not_nan R _ (hlf hl)) h3

/-- Clamping a candidate for `xMax` that is not below `y`, for a `y` within the bounds. -/
theorem clamp_upper (R : ℚ → Double) (s : Solver1D) (c y : Double)
    (hc : Double.le y c = true) (hcf : Double.InFormat R c)
    (hlow : s.lowBoundEnforced = true → Double.le s.lowBound y = true)
    (hhi : s.hiBoundEnforced = true → Double.le y s.hiBound = true)
    (hhf : s.hiBoundEnforced = true → Double.InFormat R s.hiBound) :
    Double.le y (s.enforceBounds_ c) = true ∧ Double.InFormat R (s.enforceBounds_ c) ∧
    (s.hiBoundEnforced = true → Double.le (s.enforceBounds_ c) s.hiBound = true) := by
  unfold enforceBounds_
  split_ifs with h1 h2
  · have h3 := Double.not_lt_of_le _ _ (Double.le_trans _ _ _ (hlow h1.1) hc)
    rw [h3] at h1
    exact absurd h1.2 (by simp)
  · exact ⟨hhi h2.1, hhf h2.1,
      fun _ => Double.le_refl_of _ (Double.InFormat.not_nan R _ (hhf h2.1))⟩
  · refine ⟨hc, hcf, fun hl => ?_⟩
    have h3 : Double.lt s.hiBound c = false := by
      by_contra h
      exact h2 ⟨hl, by simpa [Double.gt] using h⟩
    exact Double.le_of_not_lt _ _ (Double.InFormat.not_nan R _ (hhf hl))
      (Double.InFormat.not_nan R _ hcf) h3

/-- The initial bracket is ordered around the guess. -/
theorem initial_ordered (R : ℚ → Double) (hR : Double.IsRounding R) (f : Double → Double)
    (s : Solver1D) (γ σ : ℚ) (hγ : R γ = .finite γ) (hσ : 0 ≤ σ)
    (hwb : s.WithinBounds (.finite γ))
    (hlf : s.lowBoundEnforced = true → Double.InFormat R s.lowBound)
    (hhf : s.hiBoundEnforced = true → Double.InFormat R s.hiBound) :
    Ordered R s γ (GuessStep.initialBracket R f s (.finite γ) (.finite σ)) := by
  have hγf : Double.InFormat R (.finite γ) := hγ
  have hγγ : Double.le (.finite γ) (.finite γ) = true := by simp [Double.le]
  unfold GuessStep.initialBracket
  split_ifs
  · have hc : Double.le (Double.sub R (.finite γ) (.finite σ)) (.finite γ) = true := by
      have h := hR.monotone (γ + -σ) γ (by linarith)
      rw [hγ] at h
      simpa only [Double.sub, Double.neg, Double.add] using h
    obtain ⟨c1, c2, c3⟩ := clamp_lower R s _ (.finite γ) hc
      (by simp only [Double.sub, Double.neg, Double.add]; exact hR.inFormat R _) hwb.1 hwb.2 hlf
    exact ⟨c2, hγf, c1, hγγ, c3, hwb.2⟩
  · have hc : Double.le (.finite γ) (Double.add R (.finite γ) (.finite σ)) = true := by
      have h := hR.monotone γ (γ + σ) (by linarith)
      rw [hγ] at h
      simpa only [Double.add] using h
    obtain ⟨c1, c2, c3⟩ := clamp_upper R s _ (.finite γ) hc
      (by simp only [Double.add]; exact hR.inFormat R _) hwb.1 hwb.2 hhf
    exact ⟨hγf, c2, hγγ, c1, hwb.1, c3⟩

/-- A widening pass from an ordered bracket gives an ordered bracket that contains it. -/
theorem pass_ordered (R : ℚ → Double) (hR : Double.IsRounding R) (g : ℚ)
    (hg : growthFactor R = .finite g) (hgpos : 0 < g) (f : Double → Double)
    (s : Solver1D) (xAccuracy : Double) (γ : ℚ)
    (hwb : s.WithinBounds (.finite γ))
    (hlf : s.lowBoundEnforced = true → Double.InFormat R s.lowBound)
    (hhf : s.hiBoundEnforced = true → Double.InFormat R s.hiBound)
    (flipflop flipflop' : Int) (t t' : Solver1D) (hc : SameConfig s t) (ho : Ordered R s γ t)
    (hb : GuessStep.loopBody R f xAccuracy flipflop t = .inr (flipflop', t')) :
    Ordered R s γ t' ∧ Double.le t'.xMin t.xMin = true ∧ Double.le t.xMax t'.xMax = true := by
  obtain ⟨o1, o2, o3, o4, o5, o6⟩ := ho
  have rmin : Double.le t.xMin t.xMin = true :=
    Double.le_refl_of _ (Double.InFormat.not_nan R _ o1)
  have rmax : Double.le t.xMax t.xMax = true :=
    Double.le_refl_of _ (Double.InFormat.not_nan R _ o2)
  obtain ⟨-, -, hcase⟩ := GuessStep.pass_cases R f xAccuracy flipflop flipflop' t t' hb
  rcases hcase with ⟨e, -, rfl⟩ | rfl | ⟨rfl, -, -⟩
  · obtain ⟨a1, a2⟩ := Double.add_nonpos_of R hR t.xMin
      (Double.mul R (.finite g) (Double.sub R t.xMin t.xMax)) γ o1 o3
      (Double.mul_nonpos_of R hR g hgpos _ (Double.sub_nonpos_of R hR _ _ γ o3 o4))
    have hl : GuessStep.lowerCandidate R t =
        Double.add R t.xMin (Double.mul R (.finite g) (Double.sub R t.xMin t.xMax)) := by
      rw [GuessStep.lowerCandidate, hg]
    obtain ⟨c1, c2, c3⟩ := clamp_lower R s (GuessStep.lowerCandidate R t) t.xMin
      (by rw [hl]; exact a1) (by rw [hl]; exact a2) o5
      (fun h => Double.le_trans _ _ _ o3 (hwb.2 h)) hlf
    rw [← enforceBounds_config s t _ hc] at c1 c2 c3
    exact ⟨⟨c2, o2, Double.le_trans _ _ _ c1 o3, o4, c3, o6⟩, c1, rmax⟩
  · obtain ⟨a1, a2⟩ := Double.add_nonneg_of R hR t.xMax
      (Double.mul R (.finite g) (Double.sub R t.xMax t.xMin)) γ o2 o4
      (Double.mul_nonneg_of R hR g hgpos _ (Double.sub_nonneg_of R hR _ _ γ o3 o4))
    have hu : GuessStep.upperCandidate R t =
        Double.add R t.xMax (Double.mul R (.finite g) (Double.sub R t.xMax t.xMin)) := by
      rw [GuessStep.upperCandidate, hg]
    obtain ⟨c1, c2, c3⟩ := clamp_upper R s (GuessStep.upperCandidate R t) t.xMax
      (by rw [hu]; exact a1) (by rw [hu]; exact a2)
      (fun h => Double.le_trans _ _ _ (hwb.1 h) o4) o6 hhf
    rw [← enforceBounds_config s t _ hc] at c1 c2 c3
    exact ⟨⟨o1, c2, o3, Double.le_trans _ _ _ o4 c1, o5, c3⟩, rmin, c1⟩
  · exact ⟨⟨o1, o2, o3, o4, o5, o6⟩, rmin, rmax⟩

/-- At all reached variables the bracket is ordered around the guess. -/
theorem reached_ordered (R : ℚ → Double) (hR : Double.IsRounding R) (g : ℚ)
    (hg : growthFactor R = .finite g) (hgpos : 0 < g) (f : Double → Double)
    (s : Solver1D) (xAccuracy : Double) (γ σ : ℚ) (hγ : R γ = .finite γ) (hσ : 0 ≤ σ)
    (hwb : s.WithinBounds (.finite γ))
    (hlf : s.lowBoundEnforced = true → Double.InFormat R s.lowBound)
    (hhf : s.hiBoundEnforced = true → Double.InFormat R s.hiBound)
    (v : GuessStep.LoopVars)
    (hv : GuessStep.Reached R f s xAccuracy (.finite γ) (.finite σ) v) :
    SameConfig s v.2 ∧ Ordered R s γ v.2 := by
  refine GuessStep.reached_induction R f s xAccuracy (.finite γ) (.finite σ)
    (fun v => SameConfig s v.2 ∧ Ordered R s γ v.2)
    ⟨(GuessStep.initial_spec R f s _ _).1, initial_ordered R hR f s γ σ hγ hσ hwb hlf hhf⟩
    ?_ v hv
  rintro ⟨ff, t⟩ ⟨ff', t'⟩ ⟨hc, ho⟩ ⟨-, hb⟩
  refine ⟨?_, (pass_ordered R hR g hg hgpos f s xAccuracy γ hwb hlf hhf ff ff' t t' hc ho hb).1⟩
  obtain ⟨c1, c2, c3, c4, c5⟩ := hc
  obtain ⟨-, -, hcase⟩ := GuessStep.pass_cases R f xAccuracy ff ff' t t' hb
  rcases hcase with ⟨e, -, rfl⟩ | rfl | ⟨rfl, -, -⟩ <;> exact ⟨c1, c2, c3, c4, c5⟩

/-- C26 (amended): for a rounding to nearest `R`, a guess that is a number of the format, a
step `>= 0` and a guess within the enforced bounds (which are numbers of the format), the
call `solve(f, xAccuracy, guess, step)` has `xMin <= guess <= xMax` at every pass of the
loop, no widening pass increases `xMin` or decreases `xMax`, and `solve_` is reached with
`xMin <= guess <= xMax` and with `root` the computed `(xMax_+xMin_)/2.0`, which lies in
`[xMin, xMax]` whenever the sum `xMax_+xMin_` is finite. -/
theorem guess_step_monotone_bracket (R : ℚ → Double) (hR : Double.IsRounding R) (g : ℚ)
    (hg : growthFactor R = .finite g) (hgpos : 0 < g) (f : Double → Double)
    (s : Solver1D) (xAccuracy : Double) (γ σ : ℚ) (hγ : R γ = .finite γ) (hσ : 0 ≤ σ)
    (hwb : s.WithinBounds (.finite γ))
    (hlf : s.lowBoundEnforced = true → Double.InFormat R s.lowBound)
    (hhf : s.hiBoundEnforced = true → Double.InFormat R s.hiBound) :
    (∀ v, GuessStep.Reached R f s xAccuracy (.finite γ) (.finite σ) v →
      Double.le v.2.xMin (.finite γ) = true ∧ Double.le (.finite γ) v.2.xMax = true) ∧
    (∀ v v', GuessStep.Reached R f s xAccuracy (.finite γ) (.finite σ) v →
      GuessStep.Pass R f xAccuracy v v' →
      Double.le v'.2.xMin v.2.xMin = true ∧ Double.le v.2.xMax v'.2.xMax = true) ∧
    (∀ passes o a, GuessStep.entry R f s xAccuracy (.finite γ) (.finite σ) passes = some o →
      o.result = .refine a →
      Double.le o.state.xMin (.finite γ) = true ∧ Double.le (.finite γ) o.state.xMax = true ∧
      o.state.root = Double.div R (Double.add R o.state.xMax o.state.xMin) (.finite 2) ∧
      (∀ τ, Double.add R o.state.xMax o.state.xMin = .finite τ →
        Double.le o.state.xMin o.state.root = true ∧
        Double.le o.state.root o.state.xMax = true)) := by
  have key := reached_ordered R hR g hg hgpos f s xAccuracy γ σ hγ hσ hwb hlf hhf
  refine ⟨fun v hv => ⟨(key v hv).2.2.2.1, (key v hv).2.2.2.2.1⟩, fun v v' hv hp => ?_,
    fun passes o a h hr => ?_⟩
  · exact (pass_ordered R hR g hg hgpos f s xAccuracy γ hwb hlf hhf v.1 v'.1 v.2 v'.2
      (key v hv).1 (key v hv).2 hp.2).2
  · by_cases hne : Double.le (Double.fabs (f (.finite γ))) xAccuracy = true
    · rw [GuessStep.entry_early R f s xAccuracy _ _ passes hne] at h
      cases h
      cases hr
    obtain ⟨v, hv, hcase⟩ := GuessStep.entry_end R f s xAccuracy _ _ passes o hne h
    obtain ⟨-, o1, o2, o3, o4, -, -⟩ := key v hv
    rcases hcase with ⟨-, hb⟩ | ⟨-, rfl⟩
    · obtain ⟨-, hc | hc | hc⟩ := GuessStep.exit_cases R f xAccuracy v.1 v.2 o hb
      · obtain ⟨-, rfl⟩ := hc
        cases hr
      · obtain ⟨-, -, rfl⟩ := hc
        cases hr
      · obtain ⟨-, -, rfl⟩ := hc
        refine ⟨o3, o4, rfl, fun τ hτ => ?_⟩
        show Double.le v.2.xMin (Double.div R (Double.add R v.2.xMax v.2.xMin) (.finite 2)) = true ∧
          Double.le (Double.div R (Double.add R v.2.xMax v.2.xMin) (.finite 2)) v.2.xMax = true
        rw [hτ]
        cases hx : v.2.xMin with
        | finite a =>
          cases hy : v.2.xMax with
          | finite b =>
            rw [hx] at o1 o3
            rw [hy] at o2 o4
            rw [hx, hy] at hτ
            simp only [Double.le, decide_eq_true_eq] at o3 o4
            have t2 : ¬ ((2 : ℚ) = 0) := by norm_num
            simp only [Double.div, t2, if_false]
            exact Double.midpoint_within R hR a b τ o1 o2 (o3.trans o4) hτ
          | posInf => rw [hx, hy] at hτ; simp [Double.add] at hτ
          | negInf => rw [hx, hy] at hτ; simp [Double.add] at hτ
          | nan => rw [hx, hy] at hτ; simp [Double.add] at hτ
        | posInf => rw [hx] at hτ; cases hy : v.2.xMax <;> rw [hy] at hτ <;> simp [Double.add] at hτ
        | negInf => rw [hx] at hτ; cases hy : v.2.xMax <;> rw [hy] at hτ <;> simp [Double.add] at hτ
        | nan => rw [hx] at hτ; cases hy : v.2.xMax <;> rw [hy] at hτ <;> simp [Double.add] at hτ
    · cases hr

end Solver1D

end Machine

/-- In binary64, `2^1023 + 2^1022` is the number `3 * 2^1022`. -/
theorem binary64_huge_sum :
    binary64 ((2 : ℚ) ^ (1023 : Int) + (2 : ℚ) ^ (1022 : Int)) = .finite (3 * (2 : ℚ) ^ (1022 : Int)) := by
  have two : (2 : ℚ) ≠ 0 := by norm_num
  have h := binary64_of_normal 6755399441055744 1023 (by norm_num) (by norm_num)
    (by norm_num) (by norm_num)
  have e1 : (2 : ℚ) ^ (1022 : Int) = 2 ^ (51 : Int) * 2 ^ ((1023 : Int) - 52) := by
    rw [← zpow_add₀ two]
    norm_num
  have e2 : (2 : ℚ) ^ (1023 : Int) = 2 ^ (52 : Int) * 2 ^ ((1023 : Int) - 52) := by
    rw [← zpow_add₀ two]
    norm_num
  have e3 : ((6755399441055744 : Int) : ℚ) = 3 * 2 ^ (51 : Int) := by norm_num
  have e4 : ((6755399441055744 : Int) : ℚ) = 2 ^ (52 : Int) + 2 ^ (51 : Int) := by norm_num
  have l : (2 : ℚ) ^ (1023 : Int) + (2 : ℚ) ^ (1022 : Int)
      = ((6755399441055744 : Int) : ℚ) * 2 ^ ((1023 : Int) - 52) := by
    rw [e1, e2, e4]
    ring
  have r : 3 * (2 : ℚ) ^ (1022 : Int)
      = ((6755399441055744 : Int) : ℚ) * 2 ^ ((1023 : Int) - 52) := by
    rw [e1, e3]
    ring
  rw [l, r]
  exact h

/-- In binary64, the sum of `3 * 2^1022` and `2^1023` overflows to `+inf`. -/
theorem binary64_huge_overflow :
    binary64 (3 * (2 : ℚ) ^ (1022 : Int) + (2 : ℚ) ^ (1023 : Int)) = .posInf := by
  have two : (2 : ℚ) ≠ 0 := by norm_num
  have hpos : (0 : ℚ) < 2 ^ (972 : Int) := by positivity
  have e1022 : (2 : ℚ) ^ (1022 : Int) = 2 ^ (50 : Int) * 2 ^ (972 : Int) := by
    rw [← zpow_add₀ two]
    norm_num
  have e1023 : (2 : ℚ) ^ (1023 : Int) = 2 ^ (51 : Int) * 2 ^ (972 : Int) := by
    rw [← zpow_add₀ two]
    norm_num
  have e1024 : (2 : ℚ) ^ (1024 : Int) = 2 ^ (52 : Int) * 2 ^ (972 : Int) := by
    rw [← zpow_add₀ two]
    norm_num
  have e1025 : (2 : ℚ) ^ ((1024 : Int) + 1) = 2 ^ (53 : Int) * 2 ^ (972 : Int) := by
    rw [← zpow_add₀ two]
    norm_num
  have q : 3 * (2 : ℚ) ^ (1022 : Int) + (2 : ℚ) ^ (1023 : Int)
      = ((5629499534213120 : Int) : ℚ) * 2 ^ (972 : Int) := by
    have c : ((5629499534213120 : Int) : ℚ) = 3 * 2 ^ (50 : Int) + 2 ^ (51 : Int) := by norm_num
    rw [e1022, e1023, c]
    ring
  have hq0 : (0 : ℚ) < ((5629499534213120 : Int) : ℚ) * 2 ^ (972 : Int) := by positivity
  have hn : roundHalfEven ((((5629499534213120 : Int) : ℚ) * 2 ^ (972 : Int)) /
      2 ^ (max (1024 : Int) (-1022) - 52)) = 5629499534213120 := by
    rw [show max (1024 : Int) (-1022) - 52 = 972 by norm_num, mul_div_assoc, div_self hpos.ne',
      mul_one, roundHalfEven_intCast]
  have h := binary64_of_binade (((5629499534213120 : Int) : ℚ) * 2 ^ (972 : Int)) 1024
    5629499534213120
    (by
      rw [abs_of_pos hq0, e1024]
      exact mul_le_mul_of_nonneg_right (by norm_num) hpos.le)
    (by
      rw [abs_of_pos hq0, e1025]
      exact mul_lt_mul_of_pos_right (by norm_num) hpos)
    hn
  rw [q, h, show max (1024 : Int) (-1022) - 52 = 972 by norm_num, if_pos, if_pos hq0]
  rw [abs_of_pos hq0, ← zpow_natCast (2 : ℚ) 1024]
  have : (2 : ℚ) ^ ((1024 : Nat) : Int) = 2 ^ (52 : Int) * 2 ^ (972 : Int) := by
    rw [← zpow_add₀ two]
    norm_num
  rw [this]
  exact mul_le_mul_of_nonneg_right (by norm_num) hpos.le

namespace Machine

namespace Solver1D

/-- The call for an objective that is `-1` at the guess `G` and `1` at `X = G + S`, with
`xAccuracy = 0`, when the sum `X + G` overflows: `solve_` is reached with `root = +inf`. -/
theorem entry_of_overflow (f : Double → Double) (G S X : ℚ)
    (hf1 : f (.finite G) = .finite (-1)) (hf2 : f (.finite X) = .finite 1)
    (hadd : binary64 (G + S) = .finite X) (hsum : binary64 (X + G) = .posInf) :
    GuessStep.entry binary64 f plainSolver (.finite 0) (.finite G) (.finite S) 1 =
      some ⟨.refine QL_EPSILON,
        { plainSolver with root := .posInf, xMin := .finite G, xMax := .finite X,
                           fxMin := .finite (-1), fxMax := .finite 1, evaluationNumber := 2 }⟩ := by
  have bm : binary64 (-1) = .finite (-1) := by
    simpa using binary64_intCast (-1) (by norm_num)
  have hne : ¬ (Double.le (Double.fabs (f (.finite G))) (.finite 0) = true) := by
    rw [hf1]
    simp only [Double.fabs, Double.le, decide_eq_true_eq, not_le]
    norm_num
  have hgt : Double.gt (.finite (-1)) (.finite 0) = false := by
    simp [Double.gt, Double.lt]
  have hmax : QL_MAX (QL_FABS (.finite 0)) QL_EPSILON = QL_EPSILON := by
    simp only [QL_MAX, QL_FABS, Double.max, Double.fabs, QL_EPSILON, Double.lt, abs_zero]
    rw [if_pos]
    simp only [decide_eq_true_eq]
    positivity
  have hinit : GuessStep.initialBracket binary64 f plainSolver (.finite G) (.finite S)
      = { plainSolver with root := .finite G, xMin := .finite G, xMax := .finite X,
                           fxMin := .finite (-1), fxMax := .finite 1, evaluationNumber := 2 } := by
    simp only [GuessStep.initialBracket, hf1, hgt, Bool.false_eq_true, if_false,
      enforceBounds_, plainSolver, false_and, Double.add, hadd, hf2]
  have hprod : Double.le (Double.mul binary64 (.finite (-1)) (.finite 1)) (.finite 0) = true := by
    simp only [Double.mul, mul_one, bm, Double.le, decide_eq_true_eq]
    norm_num
  rw [GuessStep.entry_search binary64 f plainSolver _ _ _ 1 hne, hinit,
    GuessStep.loop_step_exit binary64 f _ 0 (-1) _ _ (by simp [plainSolver])
      (GuessStep.body_refine binary64 f _ (-1) _ hprod
        (by simp [Double.eq]) (by simp [Double.eq])), hmax]
  simp only [plainSolver, Double.add, hsum, Double.div]
  norm_num

/-- C26 (as stated, refuted): in binary64 arithmetic, with no bound enforced, guess `2^1023`,
step `2^1022 >= 0` and an objective that is `-1` up to `2^1023` and `1` above, the bracket
handed to `solve_` is `[2^1023, 3 * 2^1022]`, the sum of its endpoints overflows, and
`root = +inf` is not `<= xMax`. -/
theorem guess_step_monotone_bracket_counterexample :
    GuessStep.entry binary64 stepAtHuge plainSolver (.finite 0) (.finite (2 ^ (1023 : Int)))
        (.finite (2 ^ (1022 : Int))) 1 =
      some ⟨.refine QL_EPSILON,
        { plainSolver with root := .posInf, xMin := .finite (2 ^ (1023 : Int)),
                           xMax := .finite (3 * 2 ^ (1022 : Int)),
                           fxMin := .finite (-1), fxMax := .finite 1, evaluationNumber := 2 }⟩ ∧
    Double.le .posInf (.finite (3 * 2 ^ (1022 : Int))) = false ∧
    (0 : ℚ) ≤ 2 ^ (1022 : Int) := by
  have hp : (0 : ℚ) < 2 ^ (1022 : Int) := by positivity
  have e : (2 : ℚ) ^ (1023 : Int) = 2 * 2 ^ (1022 : Int) := by
    rw [show (1023 : Int) = 1022 + 1 by norm_num, zpow_add_one₀ (by norm_num : (2 : ℚ) ≠ 0)]
    ring
  refine ⟨entry_of_overflow stepAtHuge _ _ _ ?_ ?_ binary64_huge_sum binary64_huge_overflow,
    rfl, hp.le⟩
  · simp only [stepAtHuge, Double.le, le_refl, decide_eq_true_eq, if_true]
  · have hn : ¬ (3 * (2 : ℚ) ^ (1022 : Int) ≤ (2 : ℚ) ^ (1023 : Int)) := by
      rw [e]
      linarith
    simp only [stepAtHuge, Double.le, decide_eq_true_eq, hn, if_false]

/-- C26 (amended) at a concrete input: for `f(x) = x - 3`, guess `2` and step `2` in
binary64 arithmetic, `solve_` is reached on the bracket `[2, 4]` around the guess, with
`root = 3` inside it. -/
theorem guess_step_monotone_bracket_witness :
    Double.le (.finite 2) (.finite 2) = true ∧ Double.le (.finite 2) (.finite 4) = true ∧
    Double.finite 3 = Double.div binary64 (Double.add binary64 (.finite 4) (.finite 2))
      (.finite 2) ∧
    (∀ τ, Double.add binary64 (.finite 4) (.finite 2) = .finite τ →
      Double.le (.finite 2) (.finite 3) = true ∧ Double.le (.finite 3) (.finite 4) = true) :=
  (guess_step_monotone_bracket binary64 Double.isRounding_binary64
    (7205759403792794 / 2 ^ 52) binary64_growth (by norm_num)
    minusThree plainSolver (.finite (1 / 10 ^ 10)) 2 2
    (by simpa using binary64_intCast 2 (by norm_num)) (by norm_num)
    ⟨by simp [plainSolver], by simp [plainSolver]⟩ (by simp [plainSolver])
    (by simp [plainSolver])).2.2 1 _ _ entry_minusThree rfl

/-- C4 (as stated, refuted): on the bracket `[0, 1]` with guess `2` (not inside) and no bound
enforced, in binary64 arithmetic, `f(x) = x + 5` makes the call fail with
`RootNotBracketed`, and `f(x) = x` with `xAccuracy = 1/2` makes it return `xMin = 0`;
neither is a `GuessOutOfRange` failure. -/
theorem explicit_guess_out_of_range_counterexample :
    Double.lt (.finite 0) (.finite 1) = true ∧
    plainSolver.lowBoundEnforced = false ∧ plainSolver.hiBoundEnforced = false ∧
    Double.ge (.finite 2) (.finite 1) = true ∧
    (ExplicitBracket.entry binary64 plusFive plainSolver (.finite (1 / 10 ^ 10)) (.finite 2)
      (.finite 0) (.finite 1)).result = .failed .rootNotBracketed ∧
    Failure.rootNotBracketed.kind ≠ .GuessOutOfRange ∧
    (ExplicitBracket.entry binary64 identity plainSolver (.finite (1 / 2)) (.finite 2)
      (.finite 0) (.finite 1)).result = .returned (.finite 0) := by
  have b5 : binary64 5 = .finite 5 := by
    simpa using binary64_intCast 5 (by norm_num)
  have b6 : binary64 6 = .finite 6 := by
    simpa using binary64_intCast 6 (by norm_num)
  have b30 : binary64 30 = .finite 30 := by
    simpa using binary64_intCast 30 (by norm_num)
  have f0 : plusFive (.finite 0) = .finite 5 := by
    simp only [plusFive, Double.add, zero_add, b5]
  have f1 : plusFive (.finite 1) = .finite 6 := by
    have e : (1 : ℚ) + 5 = 6 := by norm_num
    simp only [plusFive, Double.add, e, b6]
  have l0 : Double.lt (.finite 0) (.finite 1) = true := by simp [Double.lt]
  have l1 : ¬ (Double.lt (QL_FABS (.finite 5)) (.finite (1 / 10 ^ 10)) = true) := by
    simp only [QL_FABS, Double.fabs, Double.lt, decide_eq_true_eq, not_lt]
    norm_num
  have l2 : ¬ (Double.lt (QL_FABS (.finite 6)) (.finite (1 / 10 ^ 10)) = true) := by
    simp only [QL_FABS, Double.fabs, Double.lt, decide_eq_true_eq, not_lt]
    norm_num
  have l3 : ¬ (Double.lt (Double.mul binary64 (.finite 5) (.finite 6)) (.finite 0) = true) := by
    have e : (5 : ℚ) * 6 = 30 := by norm_num
    simp only [Double.mul, e, b30, Double.lt, decide_eq_true_eq, not_lt]
    norm_num
  have l4 : Double.lt (QL_FABS (.finite 0)) (.finite (1 / 2)) = true := by
    simp only [QL_FABS, Double.fabs, Double.lt, decide_eq_true_eq, abs_zero]
    norm_num
  refine ⟨l0, rfl, rfl, by simp [Double.ge, Double.le], ?_, by simp [Failure.kind], ?_⟩
  · simp only [ExplicitBracket.entry, plainSolver, l0, not_true_eq_false, if_false, true_or,
      f0, f1, l1, l2, l3, not_false_eq_true, if_true, Bool.false_eq_true]
  · simp only [ExplicitBracket.entry, plainSolver, l0, not_true_eq_false, if_false, true_or,
      identity, l4, if_true]

/-- C6 (the code at the failing input): with `xAccuracy = 0`, `f(x) = x` on the bracket
`[0, 2]` with guess `1` has an exact root at `xMin` (`f(0) = 0`), the early returns test
`|f| < 0` and do not fire, the product `0 * 2` is not `< 0`, and the call fails with
`RootNotBracketed`. -/
theorem explicit_exact_root_not_bracketed :
    identity (.finite 0) = .finite 0 ∧
    (ExplicitBracket.entry binary64 identity plainSolver (.finite 0) (.finite 1)
      (.finite 0) (.finite 2)).result = .failed .rootNotBracketed ∧
    (ExplicitBracket.entry binary64 identity plainSolver (.finite 0) (.finite 1)
      (.finite 0) (.finite 2)).FailsWith .RootNotBracketed := by
  have l0 : Double.lt (.finite 0) (.finite 2) = true := by simp [Double.lt]
  have l1 : ¬ (Double.lt (QL_FABS (.finite 0)) (.finite 0) = true) := by
    simp [QL_FABS, Double.fabs, Double.lt]
  have l2 : ¬ (Double.lt (QL_FABS (.finite 2)) (.finite 0) = true) := by
    simp only [QL_FABS, Double.fabs, Double.lt, decide_eq_true_eq, not_lt]
    norm_num
  have l3 : ¬ (Double.lt (Double.mul binary64 (.finite 0) (.finite 2)) (.finite 0) = true) := by
    simp [Double.mul, binary64_zero, Double.lt]
  have e : (ExplicitBracket.entry binary64 identity plainSolver (.finite 0) (.finite 1)
      (.finite 0) (.finite 2)).result = .failed .rootNotBracketed := by
    simp only [ExplicitBracket.entry, plainSolver, l0, not_true_eq_false, if_false, true_or,
      identity, l1, l2, l3, not_false_eq_true, if_true, Bool.false_eq_true]
  exact ⟨rfl, e, .rootNotBracketed, e, rfl⟩

end Solver1D

end Machine

namespace Math

open RiskMeasures

/-- C19: each of `potentialUpside`, `valueAtRisk` and `expectedShortfall` fails its
precondition if and only if the percentile is outside `0.9 <= percentile < 1.0`,
whatever `mean`, `std` and the distributions are, and a failing call uses no
distribution object. -/
theorem riskMeasures_percentile_check (d : Distributions) (percentile mean std : ℚ) :
    ((potentialUpside d percentile mean std).Fails ↔ ¬ (9 / 10 ≤ percentile ∧ percentile < 1)) ∧
    ((valueAtRisk d percentile mean std).Fails ↔ ¬ (9 / 10 ≤ percentile ∧ percentile < 1)) ∧
    ((expectedShortfall d percentile mean std).Fails ↔
      ¬ (9 / 10 ≤ percentile ∧ percentile < 1)) ∧
    (¬ (9 / 10 ≤ percentile ∧ percentile < 1) →
      potentialUpside d percentile mean std =
        ⟨.error (.potentialUpsidePercentile percentile), []⟩ ∧
      valueAtRisk d percentile mean std =
        ⟨.error (.valueAtRiskPercentile percentile), []⟩ ∧
      expectedShortfall d percentile mean std =
        ⟨.error (.expectedShortfallPercentile percentile), []⟩) := by
  have hc : (percentile < 1 ∧ percentile ≥ 9 / 10) ↔ (9 / 10 ≤ percentile ∧ percentile < 1) :=
    ⟨fun h => ⟨h.2, h.1⟩, fun h => ⟨h.2, h.1⟩⟩
  refine ⟨?_, ?_, ?_, fun h => ?_⟩
  · by_cases h : 9 / 10 ≤ percentile ∧ percentile < 1
    · simp only [RiskOutcome.Fails, potentialUpside, hc, h, and_self, not_true_eq_false,
        if_false, reduceCtorEq, exists_false]
    · simp only [RiskOutcome.Fails, potentialUpside, hc, h, not_false_eq_true, if_true,
        Except.error.injEq, exists_eq']
  · by_cases h : 9 / 10 ≤ percentile ∧ percentile < 1
    · simp only [RiskOutcome.Fails, valueAtRisk, hc, h, and_self, not_true_eq_false,
        if_false, reduceCtorEq, exists_false]
    · simp only [RiskOutcome.Fails, valueAtRisk, hc, h, not_false_eq_true, if_true,
        Except.error.injEq, exists_eq']
  · by_cases h : 9 / 10 ≤ percentile ∧ percentile < 1
    · simp only [RiskOutcome.Fails, expectedShortfall, hc, h, and_self, not_true_eq_false,
        if_false, reduceCtorEq, exists_false]
    · simp only [RiskOutcome.Fails, expectedShortfall, hc, h, not_false_eq_true, if_true,
        Except.error.injEq, exists_eq']
  · simp only [potentialUpside, valueAtRisk, expectedShortfall, hc, h, not_false_eq_true,
      if_true, and_self]

/-- C19 at the ends of the range: the percentile `0.9` is accepted and `1.0` is rejected by
each of the three functions. -/
theorem riskMeasures_percentile_check_witness :
    (¬ (potentialUpside sampleDistributions (9 / 10) 0 1).Fails ∧
     ¬ (valueAtRisk sampleDistributions (9 / 10) 0 1).Fails ∧
     ¬ (expectedShortfall sampleDistributions (9 / 10) 0 1).Fails) ∧
    ((potentialUpside sampleDistributions 1 0 1).Fails ∧
     (valueAtRisk sampleDistributions 1 0 1).Fails ∧
     (expectedShortfall sampleDistributions 1 0 1).Fails) := by
  have h9 := riskMeasures_percentile_check sampleDistributions (9 / 10) 0 1
  have h1 := riskMeasures_percentile_check sampleDistributions 1 0 1
  have a9 : (9 / 10 : ℚ) ≤ 9 / 10 ∧ (9 / 10 : ℚ) < 1 := ⟨le_refl _, by norm_num⟩
  have a1 : ¬ ((9 / 10 : ℚ) ≤ 1 ∧ (1 : ℚ) < 1) := fun h => lt_irrefl _ h.2
  exact ⟨⟨fun h => h9.1.mp h a9, fun h => h9.2.1.mp h a9, fun h => h9.2.2.1.mp h a9⟩,
    h1.1.mpr a1, h1.2.1.mpr a1, h1.2.2.1.mpr a1⟩

/-- C20: for a percentile in `0.9 <= percentile < 1.0` and any `mean`, `std` and
distributions, the three functions return `max(q(percentile), 0)`,
`-min(q(1 - percentile), 0)` and
`-min(mean - std^2 * g(q(1 - percentile))/(1 - percentile), 0)`; each value is
non-negative, and it is zero exactly when the underlying quantity is on the wrong side
of zero (`<= 0` for the upside, `>= 0` for the two losses). -/
theorem riskMeasures_nonneg (d : Distributions) (percentile mean std : ℚ)
    (h1 : 9 / 10 ≤ percentile) (h2 : percentile < 1) :
    ((potentialUpside d percentile mean std).result =
        .ok (max (d.InvCumulativeNormalDistribution mean std percentile) 0) ∧
      0 ≤ max (d.InvCumulativeNormalDistribution mean std percentile) 0 ∧
      (max (d.InvCumulativeNormalDistribution mean std percentile) 0 = 0 ↔
        d.InvCumulativeNormalDistribution mean std percentile ≤ 0)) ∧
    ((valueAtRisk d percentile mean std).result =
        .ok (-min (d.InvCumulativeNormalDistribution mean std (1 - percentile)) 0) ∧
      0 ≤ -min (d.InvCumulativeNormalDistribution mean std (1 - percentile)) 0 ∧
      (-min (d.InvCumulativeNormalDistribution mean std (1 - percentile)) 0 = 0 ↔
        0 ≤ d.InvCumulativeNormalDistribution mean std (1 - percentile))) ∧
    ((expectedShortfall d percentile mean std).result =
        .ok (-min (mean - std ^ 2 *
          d.NormalDistribution mean std
            (d.InvCumulativeNormalDistribution mean std (1 - percentile)) /
          (1 - percentile)) 0) ∧
      0 ≤ -min (mean - std ^ 2 *
          d.NormalDistribution mean std
            (d.InvCumulativeNormalDistribution mean std (1 - percentile)) /
          (1 - percentile)) 0 ∧
      (-min (mean - std ^ 2 *
          d.NormalDistribution mean std
            (d.InvCumulativeNormalDistribution mean std (1 - percentile)) /
          (1 - percentile)) 0 = 0 ↔
        0 ≤ mean - std ^ 2 *
          d.NormalDistribution mean std
            (d.InvCumulativeNormalDistribution mean std (1 - percentile)) /
          (1 - percentile))) := by
  have hc : percentile < 1 ∧ percentile ≥ 9 / 10 := ⟨h2, h1⟩
  have hmin : ∀ x : ℚ, 0 ≤ -min x 0 ∧ (-min x 0 = 0 ↔ 0 ≤ x) := fun x =>
    ⟨neg_nonneg.mpr (min_le_right x 0), by rw [neg_eq_zero, min_eq_right_iff]⟩
  refine ⟨⟨?_, le_max_right _ _, max_eq_right_iff⟩, ⟨?_, hmin _⟩, ⟨?_, hmin _⟩⟩
  · simp only [potentialUpside, hc, and_self, not_true_eq_false, if_false, QL_MAX]
  · simp only [valueAtRisk, hc, and_self, not_true_eq_false, if_false, QL_MIN]
  · simp only [expectedShortfall, hc, and_self, not_true_eq_false, if_false, QL_MIN, pow_two]

/-- C20 at a concrete input: percentile `0.95`, `mean = 0`, `std = 1` with the sample
distributions, for which `q(0.95) = 1.8`, `q(0.05) = -1.8` and the shortfall quantity
is `-5`: the three functions return `1.8`, `1.8` and `5`. -/
theorem riskMeasures_nonneg_witness :
    (potentialUpside sampleDistributions (19 / 20) 0 1).result = .ok (9 / 5) ∧
    (valueAtRisk sampleDistributions (19 / 20) 0 1).result = .ok (9 / 5) ∧
    (expectedShortfall sampleDistributions (19 / 20) 0 1).result = .ok 5 := by
  have h := riskMeasures_nonneg sampleDistributions (19 / 20) 0 1 (by norm_num) (by norm_num)
  refine ⟨?_, ?_, ?_⟩
  · rw [h.1.1]
    simp only [sampleDistributions]
    norm_num
  · rw [h.2.1.1]
    simp only [sampleDistributions]
    norm_num
  · rw [h.2.2.1]
    simp only [sampleDistributions]
    norm_num

end Math

/-! ## Lemmas and claims on the forward curve, the covariance decomposition and the index -/

namespace CovarianceDecomposition

theorem setAt_same (a : Nat → Double) (i : Nat) (x : Double) : setAt a i x i = x := by
  simp only [setAt, if_true]

theorem setAt_ne (a : Nat → Double) (i k : Nat) (x : Double) (h : k ≠ i) : setAt a i x k = a k := by
  simp only [setAt, h, if_false]

theorem setAt2_same (m : Nat → Nat → Double) (i j : Nat) (x : Double) : setAt2 m i j x i j = x := by
  simp only [setAt2, and_self, if_true]

theorem setAt2_ne (m : Nat → Nat → Double) (i j k l : Nat) (x : Double) (h : k ≠ i ∨ l ≠ j) :
    setAt2 m i j x k l = m k l := by
  have : ¬ (k = i ∧ l = j) := fun ⟨h1, h2⟩ => h.elim (fun a => a h1) (fun a => a h2)
  simp only [setAt2, this, if_false]

/-- The inner body when the pair `(i, j)` is symmetric within the tolerance. -/
theorem innerBody_ok (R : ℚ → Double) (cov : Matrix) (tolerance : Double) (i j : Nat) (d : CovarianceDecomposition)
    (h : withinTolerance R cov tolerance i j = true) :
    innerBody R cov tolerance i j d =
      .ok ⟨d.variances, d.standardDeviations,
        setAt2 (setAt2 d.correlationMatrix i j
          (quotient R cov d.standardDeviations i j)) j i
          (quotient R cov d.standardDeviations i j)⟩ := by
  simp only [innerBody, h, not_true_eq_false, if_false, setAt2_same]

/-- The inner body when the pair `(i, j)` is not symmetric within the tolerance. -/
theorem innerBody_error (R : ℚ → Double) (cov : Matrix) (tolerance : Double) (i j : Nat)
    (d : CovarianceDecomposition) (h : ¬ withinTolerance R cov tolerance i j = true) :
    innerBody R cov tolerance i j d =
      .error (.invalidCovariance i j (cov.entry i j) (cov.entry j i)) := by
  have h' : withinTolerance R cov tolerance i j = false := by
    cases e : withinTolerance R cov tolerance i j
    · rfl
    · exact absurd e h
  simp only [innerBody, h', Bool.false_eq_true, not_false_eq_true, if_true]

/-- The inner loop for row `i`: either every pair of the first `m` columns is within the
tolerance and the loop completes those columns, or it fails at a pair that is not. -/
theorem innerLoop_spec (R : ℚ → Double) (sqrt : Double → Double) (cov : Matrix) (tolerance : Double) (i : Nat)
    (d : CovarianceDecomposition) (h0 : RowUpTo R sqrt cov i 0 d) :
    ∀ m, m ≤ i →
      ((∀ j, j < m → withinTolerance R cov tolerance i j = true) ∧
        ∃ d', innerLoop R cov tolerance i m d = .ok d' ∧ RowUpTo R sqrt cov i m d') ∨
      (∃ j, j < m ∧ ¬ withinTolerance R cov tolerance i j = true ∧
        innerLoop R cov tolerance i m d =
          .error (.invalidCovariance i j (cov.entry i j) (cov.entry j i))) := by
  intro m
  induction m with
  | zero =>
    intro _
    exact Or.inl ⟨fun j hj => absurd hj (Nat.not_lt_zero j), d, rfl, h0⟩
  | succ m ih =>
    intro hm
    have hmi : m < i := hm
    rcases ih (Nat.le_of_lt hmi) with ⟨hall, d', hd', hrow⟩ | ⟨j, hj, hbad, herr⟩
    · by_cases hw : withinTolerance R cov tolerance i m = true
      · left
        refine ⟨fun j hj => ?_, ?_⟩
        · rcases Nat.lt_succ_iff_lt_or_eq.mp hj with h | h
          · exact hall j h
          · rw [h]; exact hw
        · have hb := innerBody_ok R cov tolerance i m d' hw
          refine ⟨_, (by simp only [innerLoop, hd']; exact hb), ?_⟩
          obtain ⟨⟨hdiag, hlow⟩, hrowi, hcols⟩ := hrow
          have hne : m ≠ i := Nat.ne_of_lt hmi
          refine ⟨⟨fun a ha => ?_, fun a b hba ha => ?_⟩, ?_, fun j hj => ?_⟩
          · have hai : a ≠ i := Nat.ne_of_lt ha
            refine ⟨(hdiag a ha).1, (hdiag a ha).2.1, ?_⟩
            show setAt2 (setAt2 d'.correlationMatrix i m _) m i _ a a = .finite 1
            rw [setAt2_ne _ _ _ _ _ _ (Or.inr hai), setAt2_ne _ _ _ _ _ _ (Or.inl hai)]
            exact (hdiag a ha).2.2
          · have hai : a ≠ i := Nat.ne_of_lt ha
            have hbi : b ≠ i := Nat.ne_of_lt (Nat.lt_trans hba ha)
            show setAt2 (setAt2 d'.correlationMatrix i m _) m i _ a b = _ ∧
              setAt2 (setAt2 d'.correlationMatrix i m _) m i _ b a =
                setAt2 (setAt2 d'.correlationMatrix i m _) m i _ a b
            rw [setAt2_ne _ _ _ _ _ _ (Or.inr hbi), setAt2_ne _ _ _ _ _ _ (Or.inl hai),
              setAt2_ne _ _ _ _ _ _ (Or.inr hai), setAt2_ne _ _ _ _ _ _ (Or.inl hbi)]
            exact hlow a b hba ha
          · refine ⟨hrowi.1, hrowi.2.1, ?_⟩
            show setAt2 (setAt2 d'.correlationMatrix i m _) m i _ i i = .finite 1
            rw [setAt2_ne _ _ _ _ _ _ (Or.inl hne.symm), setAt2_ne _ _ _ _ _ _ (Or.inr hne.symm)]
            exact hrowi.2.2
          · show setAt2 (setAt2 d'.correlationMatrix i m _) m i _ i j = _ ∧
              setAt2 (setAt2 d'.correlationMatrix i m _) m i _ j i =
                setAt2 (setAt2 d'.correlationMatrix i m _) m i _ i j
            rcases Nat.lt_succ_iff_lt_or_eq.mp hj with h | h
            · have hjm : j ≠ m := Nat.ne_of_lt h
              have hji : j ≠ i := Nat.ne_of_lt (Nat.lt_trans h hmi)
              rw [setAt2_ne _ _ _ _ _ _ (Or.inl hne.symm), setAt2_ne _ _ _ _ _ _ (Or.inr hjm),
                setAt2_ne _ _ _ _ _ _ (Or.inl hjm), setAt2_ne _ _ _ _ _ _ (Or.inl hji)]
              exact hcols j h
            · subst h
              rw [setAt2_ne _ _ _ _ _ _ (Or.inl hne.symm), setAt2_same, setAt2_same]
              simp only [quotient, deviations, hrowi.2.1, (hdiag j hmi).2.1, and_self]
      · right
        exact ⟨m, Nat.lt_succ_self m, hw,
          by simp only [innerLoop, hd', innerBody_error R cov tolerance i m d' hw]⟩
    · right
      exact ⟨j, Nat.lt_succ_of_lt hj, hbad, by simp only [innerLoop, herr]⟩

/-- The outer loop: either the lower triangle on the first `n` indices is symmetric within
the tolerance and the loop decomposes those indices, or it fails at a pair that is
not. -/
theorem outerLoop_spec (R : ℚ → Double) (sqrt : Double → Double) (cov : Matrix) (tolerance : Double)
    (d : CovarianceDecomposition) :
    ∀ n,
      (SymmetricUpTo R cov tolerance n ∧
        ∃ d', outerLoop R sqrt cov tolerance n d = .ok d' ∧ DecomposesUpTo R sqrt cov n d') ∨
      (∃ i j, j < i ∧ i < n ∧ ¬ withinTolerance R cov tolerance i j = true ∧
        outerLoop R sqrt cov tolerance n d =
          .error (.invalidCovariance i j (cov.entry i j) (cov.entry j i))) := by
  intro n
  induction n with
  | zero =>
    exact Or.inl ⟨fun i j _ hi => absurd hi (Nat.not_lt_zero i), d, rfl,
      fun i hi => absurd hi (Nat.not_lt_zero i), fun i j _ hi => absurd hi (Nat.not_lt_zero i)⟩
  | succ n ih =>
    rcases ih with ⟨hsym, d', hd', hdec⟩ | ⟨i, j, hji, hin, hbad, herr⟩
    · obtain ⟨hdiag, hlow⟩ := hdec
      have hrow0 : RowUpTo R sqrt cov n 0
          { variances := setAt d'.variances n (cov.entry n n),
            standardDeviations := setAt d'.standardDeviations n (sqrt (cov.entry n n)),
            correlationMatrix := setAt2 d'.correlationMatrix n n (.finite 1) } := by
        refine ⟨⟨fun a ha => ?_, fun a b hba ha => ?_⟩, ?_, fun j hj => absurd hj (Nat.not_lt_zero j)⟩
        · have han : a ≠ n := Nat.ne_of_lt ha
          refine ⟨?_, ?_, ?_⟩
          · show setAt d'.variances n _ a = _
            rw [setAt_ne _ _ _ _ han]; exact (hdiag a ha).1
          · show setAt d'.standardDeviations n _ a = _
            rw [setAt_ne _ _ _ _ han]; exact (hdiag a ha).2.1
          · show setAt2 d'.correlationMatrix n n (.finite 1) a a = .finite 1
            rw [setAt2_ne _ _ _ _ _ _ (Or.inl han)]; exact (hdiag a ha).2.2
        · have han : a ≠ n := Nat.ne_of_lt ha
          have hbn : b ≠ n := Nat.ne_of_lt (Nat.lt_trans hba ha)
          show setAt2 d'.correlationMatrix n n (.finite 1) a b = _ ∧
            setAt2 d'.correlationMatrix n n (.finite 1) b a = setAt2 d'.correlationMatrix n n (.finite 1) a b
          rw [setAt2_ne _ _ _ _ _ _ (Or.inl han), setAt2_ne _ _ _ _ _ _ (Or.inl hbn)]
          exact hlow a b hba ha
        · exact ⟨setAt_same _ _ _, setAt_same _ _ _, setAt2_same _ _ _ _⟩
      rcases innerLoop_spec R sqrt cov tolerance n _ hrow0 n (le_refl n) with
        ⟨hall, d'', hd'', hrow⟩ | ⟨j, hj, hbad, herr⟩
      · left
        refine ⟨fun i j hji hi => ?_, d'', ?_, ?_⟩
        · rcases Nat.lt_succ_iff_lt_or_eq.mp hi with h | h
          · exact hsym i j hji h
          · subst h; exact hall j hji
        · simp only [outerLoop, hd', outerBody, hd'']
        · obtain ⟨⟨hdiag', hlow'⟩, hrowi, hcols⟩ := hrow
          refine ⟨fun a ha => ?_, fun a b hba ha => ?_⟩
          · rcases Nat.lt_succ_iff_lt_or_eq.mp ha with h | h
            · exact hdiag' a h
            · subst h; exact hrowi
          · rcases Nat.lt_succ_iff_lt_or_eq.mp ha with h | h
            · exact hlow' a b hba h
            · subst h; exact hcols b hba
      · right
        exact ⟨n, j, hj, Nat.lt_succ_self n, hbad, by simp only [outerLoop, hd', outerBody, herr]⟩
    · right
      exact ⟨i, j, hji, Nat.lt_succ_of_lt hin, hbad, by simp only [outerLoop, herr]⟩

end CovarianceDecomposition

namespace Index

/-- The loop over valid dates inserts the pairs in order. -/
theorem addFixingsLoop_valid (index : Index) :
    ∀ (fixings : List (Date × ℚ)) (h : TimeSeries),
      (∀ p ∈ fixings, index.isValidFixingDate p.1 = true) →
      addFixingsLoop index fixings h =
        .ok (fixings.foldl (fun h p => h.insert p.1 p.2) h) := by
  intro fixings
  induction fixings with
  | nil => intro h _; rfl
  | cons p rest ih =>
    intro h hv
    obtain ⟨d, v⟩ := p
    have hd : index.isValidFixingDate d = true := hv (d, v) (List.mem_cons_self _ _)
    simp only [addFixingsLoop, hd, not_true_eq_false, if_false, List.foldl_cons]
    exact ih _ (fun q hq => hv q (List.mem_cons_of_mem _ hq))

/-- The loop fails when some date is not valid. -/
theorem addFixingsLoop_invalid (index : Index) :
    ∀ (fixings : List (Date × ℚ)) (h : TimeSeries),
      (∃ p ∈ fixings, index.isValidFixingDate p.1 = false) →
      ∃ d, index.isValidFixingDate d = false ∧
        addFixingsLoop index fixings h = .error (.invalidFixingDate d) := by
  intro fixings
  induction fixings with
  | nil =>
    rintro h ⟨p, hp, -⟩
    cases hp
  | cons p rest ih =>
    rintro h ⟨q, hq, hbad⟩
    obtain ⟨d, v⟩ := p
    by_cases hd : index.isValidFixingDate d = true
    · simp only [addFixingsLoop, hd, not_true_eq_false, if_false]
      rcases List.mem_cons.mp hq with rfl | hq'
      · rw [hd] at hbad; cases hbad
      · exact ih _ ⟨q, hq', hbad⟩
    · refine ⟨d, by simpa using hd, ?_⟩
      rw [addFixingsLoop, if_pos hd]

/-- Inserting pairs none of which has the date `d` leaves the value at `d`. -/
theorem foldl_insert_of_not_mem (d : Date) :
    ∀ (fixings : List (Date × ℚ)) (h : TimeSeries), (∀ p ∈ fixings, p.1 ≠ d) →
      fixings.foldl (fun h p => h.insert p.1 p.2) h d = h d := by
  intro fixings
  induction fixings with
  | nil => intro h _; rfl
  | cons p rest ih =>
    intro h hne
    rw [List.foldl_cons, ih _ (fun q hq => hne q (List.mem_cons_of_mem _ hq))]
    have : d ≠ p.1 := fun e => hne p (List.mem_cons_self _ _) e.symm
    simp only [TimeSeries.insert, this, if_false]

/-- Inserting pairs whose last pair with the date `d` is `(d, v)` gives `v` at `d`. -/
theorem foldl_insert_last (d : Date) (v : ℚ) (before after : List (Date × ℚ))
    (h : TimeSeries) (hlast : ∀ p ∈ after, p.1 ≠ d) :
    (before ++ (d, v) :: after).foldl (fun h p => h.insert p.1 p.2) h d = some v := by
  rw [List.foldl_append, List.foldl_cons, foldl_insert_of_not_mem d after _ hlast]
  simp only [TimeSeries.insert, if_true]

end Index

/-- C28 (the code at the failing input): the dates `[0, 365]` with the forwards
`[-0.01, 0.02]` construct a curve, with `times = [0, 1]`, although the first forward is
negative: the check "negative forward" is made in the loop, which starts at index 1;
the same rates in the other order are rejected. -/
theorem forwardCurve_negative_first_forward :
    InterpolatedForwardCurve.construct sampleCurveEnv [0, 365] [-(1 / 100), 1 / 50] =
      .ok ⟨[0, 365], [-(1 / 100), 1 / 50], [0, 1]⟩ ∧
    ([-(1 / 100), 1 / 50] : List ℚ).getD 0 0 < 0 ∧
    InterpolatedForwardCurve.construct sampleCurveEnv [0, 365] [1 / 50, -(1 / 100)] =
      .error .negativeForward := by
  refine ⟨?_, by norm_num, ?_⟩
  · simp only [InterpolatedForwardCurve.construct, InterpolatedForwardCurve.timesLoop,
      sampleCurveEnv, List.length_cons, List.length_nil, List.replicate, List.set,
      List.getD_cons_zero, List.getD_cons_succ, List.cons_ne_nil, if_false]
    norm_num
  · simp only [InterpolatedForwardCurve.construct, InterpolatedForwardCurve.timesLoop,
      sampleCurveEnv, List.length_cons, List.length_nil, List.replicate, List.set,
      List.getD_cons_zero, List.getD_cons_succ, List.cons_ne_nil, if_false]
    norm_num

namespace Double

/-- A double that is not a NaN is equal (`==`) to itself. -/
theorem eq_self_of_ne_nan (x : Double) (h : x ≠ nan) : eq x x = true := by
  cases x with
  | finite a => simp [eq]
  | posInf => rfl
  | negInf => rfl
  | nan => exact absurd rfl h

/-- The quotient of a finite number by a divisor that is neither a NaN nor zero is not a
NaN. -/
theorem div_ne_nan (R : ℚ → Double) (hR : IsRounding R) (c : ℚ) (y : Double) (hy : y ≠ nan)
    (h0 : eq y (finite 0) = false) : div R (finite c) y ≠ nan := by
  cases y with
  | finite p =>
    have hp : ¬ (p = 0) := by
      intro e
      simp [eq, e] at h0
    simp only [div, hp, if_false]
    exact hR.ne_nan R _
  | posInf => simp [div]
  | negInf => simp [div]
  | nan => exact absurd rfl hy

end Double

/-- In binary64, `1/3` is rounded to `6004799503160661 / 2^54`. -/
theorem binary64_third : binary64 (1 / 3) = .finite (6004799503160661 / 2 ^ 54) := by
  have hn : roundHalfEven ((1 / 3 : ℚ) / 2 ^ (max (-2 : Int) (-1022) - 52)) = 6004799503160661 := by
    apply roundHalfEven_eq
    · rw [show max (-2 : Int) (-1022) - 52 = -54 by norm_num]
      norm_num
    · rw [show max (-2 : Int) (-1022) - 52 = -54 by norm_num]
      norm_num
  have h := binary64_of_binade (1 / 3) (-2) 6004799503160661
    (by rw [abs_of_pos (by norm_num)]; norm_num) (by rw [abs_of_pos (by norm_num)]; norm_num) hn
  rw [h, show max (-2 : Int) (-1022) - 52 = -54 by norm_num, if_neg]
  · congr 1
    norm_num
  · apply not_overflow_of_lt
    rw [abs_of_pos (by positivity)]
    norm_num

/-- C29 (amended): for a square covariance matrix whose lower triangle passes the test
`|cov[i][j] - cov[j][i]| <= tolerance`, the constructor succeeds with
`variances[i] = cov[i][i]`, `standardDeviations[i] = sqrt(cov[i][i])`, a correlation matrix
with unit diagonal whose entry `(i, j)` for `j < i` is the computed
`cov[i][j]/(sd[i]*sd[j])`, copied to `(j, i)`; when the covariances and the standard
deviations are finite and no computed product `sd[i]*sd[j]` is zero, the correlation matrix
is symmetric (`corr[i][j] == corr[j][i]`).  The constructor fails with "must be square" if
the matrix is not square, and with "invalid covariance matrix" at a pair `j < i` that does
not pass the test if there is such a pair. -/
theorem covarianceDecomposition_spec (R : ℚ → Double) (sqrt : Double → Double)
    (initial : CovarianceDecomposition) (cov : Matrix) (tolerance : Double) :
    (cov.rows ≠ cov.columns →
      CovarianceDecomposition.construct R sqrt initial cov tolerance = .error .notSquare) ∧
    (cov.rows = cov.columns →
      (∀ i j, j < i → i < cov.rows →
        CovarianceDecomposition.withinTolerance R cov tolerance i j = true) →
      ∃ d, CovarianceDecomposition.construct R sqrt initial cov tolerance = .ok d ∧
        (∀ i, i < cov.rows → d.variances i = cov.entry i i ∧
          d.standardDeviations i = sqrt (cov.entry i i) ∧
          d.correlationMatrix i i = .finite 1) ∧
        (∀ i j, j < i → i < cov.rows →
          d.correlationMatrix i j =
            Double.div R (cov.entry i j)
              (Double.mul R (d.standardDeviations i) (d.standardDeviations j)) ∧
          d.correlationMatrix j i = d.correlationMatrix i j) ∧
        (Double.IsRounding R →
          (∀ i j, j < i → i < cov.rows → ∃ c, cov.entry i j = .finite c) →
          (∀ i, i < cov.rows → ∃ a, d.standardDeviations i = .finite a) →
          (∀ i j, j < i → i < cov.rows →
            Double.eq (Double.mul R (d.standardDeviations i) (d.standardDeviations j))
              (.finite 0) = false) →
          ∀ i j, i < cov.rows → j < cov.rows →
            Double.eq (d.correlationMatrix i j) (d.correlationMatrix j i) = true)) ∧
    (cov.rows = cov.columns →
      (∃ i j, j < i ∧ i < cov.rows ∧
        CovarianceDecomposition.withinTolerance R cov tolerance i j = false) →
      ∃ i j, j < i ∧ i < cov.rows ∧
        CovarianceDecomposition.withinTolerance R cov tolerance i j = false ∧
        CovarianceDecomposition.construct R sqrt initial cov tolerance =
          .error (.invalidCovariance i j (cov.entry i j) (cov.entry j i))) := by
  have hspec := CovarianceDecomposition.outerLoop_spec R sqrt cov tolerance initial cov.rows
  refine ⟨fun hne => ?_, fun hsq hsym => ?_, fun hsq hbad => ?_⟩
  · simp only [CovarianceDecomposition.construct, hne, not_false_eq_true, if_true]
  · have hc : CovarianceDecomposition.construct R sqrt initial cov tolerance =
        CovarianceDecomposition.outerLoop R sqrt cov tolerance cov.rows initial := by
      simp only [CovarianceDecomposition.construct, hsq, not_true_eq_false, if_false]
    rcases hspec with ⟨-, d, hd, hdiag, hlow⟩ | ⟨i, j, hji, hi, hviol, -⟩
    · have hent : ∀ i j, j < i → i < cov.rows →
          d.correlationMatrix i j =
            Double.div R (cov.entry i j)
              (Double.mul R (d.standardDeviations i) (d.standardDeviations j)) := by
        intro i j hji hi
        rw [(hlow i j hji hi).1, (hdiag i hi).2.1, (hdiag j (Nat.lt_trans hji hi)).2.1]
        rfl
      refine ⟨d, hc.trans hd, hdiag, fun i j hji hi => ⟨hent i j hji hi, (hlow i j hji hi).2⟩,
        fun hR hfin hsd hprod => ?_⟩
      have hnan : ∀ i j, j < i → i < cov.rows → d.correlationMatrix i j ≠ .nan := by
        intro i j hji hi
        obtain ⟨c, hc⟩ := hfin i j hji hi
        obtain ⟨a, ha⟩ := hsd i hi
        obtain ⟨b, hb⟩ := hsd j (Nat.lt_trans hji hi)
        have hp := hprod i j hji hi
        rw [hent i j hji hi, hc]
        refine Double.div_ne_nan R hR c _ ?_ hp
        rw [ha, hb]
        exact hR.ne_nan R _
      intro i j hi hj
      rcases Nat.lt_trichotomy i j with h | h | h
      · rw [(hlow j i h hj).2]
        exact Double.eq_self_of_ne_nan _ (hnan j i h hj)
      · rw [h, (hdiag j hj).2.2]
        simp [Double.eq]
      · rw [(hlow i j h hi).2]
        exact Double.eq_self_of_ne_nan _ (hnan i j h hi)
    · exact absurd (hsym i j hji hi) hviol
  · have hc : CovarianceDecomposition.construct R sqrt initial cov tolerance =
        CovarianceDecomposition.outerLoop R sqrt cov tolerance cov.rows initial := by
      simp only [CovarianceDecomposition.construct, hsq, not_true_eq_false, if_false]
    rcases hspec with ⟨hsym, -⟩ | ⟨i, j, hji, hi, hviol, herr⟩
    · obtain ⟨i, j, hji, hi, hviol⟩ := hbad
      have := hsym i j hji hi
      rw [hviol] at this
      cases this
    · refine ⟨i, j, hji, hi, ?_, hc.trans herr⟩
      cases e : CovarianceDecomposition.withinTolerance R cov tolerance i j
      · rfl
      · exact absurd e hviol

/-- C29 (amended) at a concrete input: for the covariance matrix `[[4, 2], [2, 9]]` with
tolerance `0`, in binary64 arithmetic (and a square root that is right on `4` and `9`),
the variances are `4, 9`, the standard deviations `2, 3`, and the correlation matrix has
unit diagonal and the entries `(1, 0)` and `(0, 1)` equal to the double nearest to `1/3`. -/
theorem covarianceDecomposition_spec_witness :
    ∃ d, CovarianceDecomposition.construct binary64 sampleSqrt zeroDecomposition
        sampleCovariance (.finite 0) = .ok d ∧
      d.variances 0 = .finite 4 ∧ d.variances 1 = .finite 9 ∧
      d.standardDeviations 0 = .finite 2 ∧ d.standardDeviations 1 = .finite 3 ∧
      d.correlationMatrix 0 0 = .finite 1 ∧ d.correlationMatrix 1 1 = .finite 1 ∧
      d.correlationMatrix 1 0 = .finite (6004799503160661 / 2 ^ 54) ∧
      d.correlationMatrix 0 1 = .finite (6004799503160661 / 2 ^ 54) ∧
      Double.eq (d.correlationMatrix 0 1) (d.correlationMatrix 1 0) = true := by
  have b6 : binary64 6 = .finite 6 := by
    simpa using binary64_intCast 6 (by norm_num)
  have hwt : ∀ i j, j < i → i < sampleCovariance.rows →
      CovarianceDecomposition.withinTolerance binary64 sampleCovariance (.finite 0) i j
        = true := by
    intro i j hji hi
    have hi2 : i < 2 := hi
    have h1 : i = 1 := by omega
    have h0 : j = 0 := by omega
    subst h1 h0
    simp [CovarianceDecomposition.withinTolerance, sampleCovariance, Double.sub, Double.neg,
      Double.add, binary64_zero, Double.fabs, Double.le]
  obtain ⟨d, hd, hdiag, hlow, hsym⟩ :=
    (covarianceDecomposition_spec binary64 sampleSqrt zeroDecomposition sampleCovariance
      (.finite 0)).2.1 rfl hwt
  have e0 := hdiag 0 (by decide)
  have e1 := hdiag 1 (by decide)
  have v0 : d.variances 0 = .finite 4 := by
    rw [e0.1]
    simp [sampleCovariance]
  have v1 : d.variances 1 = .finite 9 := by
    rw [e1.1]
    simp [sampleCovariance]
  have s0 : d.standardDeviations 0 = .finite 2 := by
    rw [e0.2.1]
    simp [sampleCovariance, sampleSqrt]
  have s1 : d.standardDeviations 1 = .finite 3 := by
    rw [e1.2.1]
    simp [sampleCovariance, sampleSqrt]
  obtain ⟨l10, l01⟩ := hlow 1 0 (by decide) (by decide)
  have q : d.correlationMatrix 1 0 = .finite (6004799503160661 / 2 ^ 54) := by
    have e6 : (3 : ℚ) * 2 = 6 := by norm_num
    have e3 : (2 : ℚ) / 6 = 1 / 3 := by norm_num
    have n6 : ¬ ((6 : ℚ) = 0) := by norm_num
    have hentry : sampleCovariance.entry 1 0 = .finite 2 := by simp [sampleCovariance]
    rw [l10, s0, s1, hentry]
    simp only [Double.mul, e6, b6, Double.div, n6, if_false]
    rw [e3]
    exact binary64_third
  refine ⟨d, hd, v0, v1, s0, s1, e0.2.2, e1.2.2, q, l01.trans q, ?_⟩
  refine hsym Double.isRounding_binary64 ?_ ?_ ?_ 0 1 (by decide) (by decide)
  · intro i j hji hi
    have hi2 : i < 2 := hi
    have h1 : i = 1 := by omega
    have h0 : j = 0 := by omega
    subst h1 h0
    exact ⟨2, by simp [sampleCovariance]⟩
  · intro i hi
    have hi2 : i < 2 := hi
    rcases Nat.lt_succ_iff_lt_or_eq.mp hi2 with h | h
    · have h0 : i = 0 := by omega
      subst h0
      exact ⟨2, s0⟩
    · subst h
      exact ⟨3, s1⟩
  · intro i j hji hi
    have hi2 : i < 2 := hi
    have h1 : i = 1 := by omega
    have h0 : j = 0 := by omega
    subst h1 h0
    have e6 : (3 : ℚ) * 2 = 6 := by norm_num
    rw [s0, s1]
    simp only [Double.mul, e6, b6, Double.eq, decide_eq_false_iff_not]
    norm_num

/-- C29 (as stated, refuted): the covariance matrix `[[0, 0], [0, 4]]` is square and
symmetric, and the constructor succeeds on it (tolerance `0`, binary64 arithmetic, a square
root that is right on `0` and `4`); the first standard deviation is `0`, the entry
`(1, 0)` of the correlation matrix is `0.0 / (2.0 * 0.0)`, a NaN and no number, and it is
not equal (`==`) to its mirror entry `(0, 1)`. -/
theorem covarianceDecomposition_spec_counterexample :
    zeroVarianceCovariance.rows = zeroVarianceCovariance.columns ∧
    (∀ i j, j < i → i < zeroVarianceCovariance.rows →
      zeroVarianceCovariance.entry i j = zeroVarianceCovariance.entry j i ∧
      CovarianceDecomposition.withinTolerance binary64 zeroVarianceCovariance (.finite 0) i j
        = true) ∧
    ∃ d, CovarianceDecomposition.construct binary64 sampleSqrt zeroDecomposition
        zeroVarianceCovariance (.finite 0) = .ok d ∧
      d.standardDeviations 0 = .finite 0 ∧ d.standardDeviations 1 = .finite 2 ∧
      d.correlationMatrix 1 0 = .nan ∧ d.correlationMatrix 0 1 = .nan ∧
      Double.eq (d.correlationMatrix 1 0) (d.correlationMatrix 0 1) = false := by
  have hsym : ∀ i j, j < i → i < zeroVarianceCovariance.rows →
      zeroVarianceCovariance.entry i j = zeroVarianceCovariance.entry j i ∧
      CovarianceDecomposition.withinTolerance binary64 zeroVarianceCovariance (.finite 0) i j
        = true := by
    intro i j hji hi
    have hi2 : i < 2 := hi
    have h1 : i = 1 := by omega
    have h0 : j = 0 := by omega
    subst h1 h0
    simp [CovarianceDecomposition.withinTolerance, zeroVarianceCovariance, Double.sub,
      Double.neg, Double.add, binary64_zero, Double.fabs, Double.le]
  refine ⟨rfl, hsym, ?_⟩
  have hc : CovarianceDecomposition.construct binary64 sampleSqrt zeroDecomposition
      zeroVarianceCovariance (.finite 0) =
      CovarianceDecomposition.outerLoop binary64 sampleSqrt zeroVarianceCovariance (.finite 0) 2
        zeroDecomposition := by
    simp only [CovarianceDecomposition.construct, zeroVarianceCovariance, not_true_eq_false,
      if_false]
  rcases CovarianceDecomposition.outerLoop_spec binary64 sampleSqrt zeroVarianceCovariance
      (.finite 0) zeroDecomposition 2 with ⟨-, d, hd, hdiag, hlow⟩ | ⟨i, j, hji, hi, hviol, -⟩
  · have e0 : d.standardDeviations 0 = .finite 0 := by
      rw [(hdiag 0 (by decide)).2.1]
      simp [zeroVarianceCovariance, sampleSqrt]
    have e1 : d.standardDeviations 1 = .finite 2 := by
      rw [(hdiag 1 (by decide)).2.1]
      simp [zeroVarianceCovariance, sampleSqrt]
    obtain ⟨l10, l01⟩ := hlow 1 0 (by decide) (by decide)
    have q : d.correlationMatrix 1 0 = .nan := by
      rw [l10]
      simp [CovarianceDecomposition.quotient, CovarianceDecomposition.deviations,
        zeroVarianceCovariance, sampleSqrt, Double.mul, binary64_zero, Double.div]
    refine ⟨d, hc.trans hd, e0, e1, q, l01.trans q, ?_⟩
    rw [q, l01.trans q]
    rfl
  · exact absurd (hsym i j hji hi).2 hviol

/-- C30: if `isValidFixingDate` is false for some date of the range, `addFixings` fails and
the index manager is left as it was; if every date is valid, it succeeds and the
history stored for this index maps each given date to the value paired with its last
occurrence and agrees with the previous history on every other date, the histories of
the other indexes being unchanged. -/
theorem addFixings_atomic (index : Index) (manager : IndexManager)
    (fixings : List (Date × ℚ)) :
    ((∃ p ∈ fixings, index.isValidFixingDate p.1 = false) →
      (∃ d, index.isValidFixingDate d = false ∧
        (index.addFixings manager fixings).1 = .error (.invalidFixingDate d)) ∧
      (index.addFixings manager fixings).2 = manager) ∧
    ((∀ p ∈ fixings, index.isValidFixingDate p.1 = true) →
      (index.addFixings manager fixings).1 = .ok () ∧
      (∀ d v before after, fixings = before ++ (d, v) :: after → (∀ p ∈ after, p.1 ≠ d) →
        ((index.addFixings manager fixings).2.getHistory index.name) d = some v) ∧
      (∀ d, (∀ p ∈ fixings, p.1 ≠ d) →
        ((index.addFixings manager fixings).2.getHistory index.name) d
          = (manager.getHistory index.name) d) ∧
      (∀ tag, tag ≠ index.name →
        (index.addFixings manager fixings).2.getHistory tag = manager.getHistory tag)) := by
  refine ⟨fun hbad => ?_, fun hall => ?_⟩
  · obtain ⟨d, hd, herr⟩ :=
      Index.addFixingsLoop_invalid index fixings (manager.getHistory index.name) hbad
    have e : index.addFixings manager fixings = (.error (.invalidFixingDate d), manager) := by
      simp only [Index.addFixings, herr]
    rw [e]
    exact ⟨⟨d, hd, rfl⟩, rfl⟩
  · have hok := Index.addFixingsLoop_valid index fixings (manager.getHistory index.name) hall
    have e : index.addFixings manager fixings =
        (.ok (), manager.setHistory index.name
          (fixings.foldl (fun h p => h.insert p.1 p.2) (manager.getHistory index.name))) := by
      simp only [Index.addFixings, hok]
    rw [e]
    refine ⟨rfl, fun d v before after hf hlast => ?_, fun d hne => ?_, fun tag htag => ?_⟩
    · simp only [IndexManager.getHistory, IndexManager.setHistory, if_true]
      rw [hf]
      exact Index.foldl_insert_last d v before after _ hlast
    · simp only [IndexManager.getHistory, IndexManager.setHistory, if_true]
      exact Index.foldl_insert_of_not_mem d fixings _ hne
    · simp only [IndexManager.getHistory, IndexManager.setHistory, htag, if_false]

/-- C30 at concrete inputs: with the valid dates being the non-negative ones, adding
`(1, 0.02), (-1, 0.03)` fails and stores nothing, although the first date is valid;
adding `(1, 0.02), (2, 0.03), (1, 0.04)` stores `0.04` at date 1 and `0.03` at date 2. -/
theorem addFixings_atomic_witness :
    (sampleIndex.addFixings emptyManager [(1, 1 / 50), (-1, 3 / 100)]).2 = emptyManager ∧
    ((sampleIndex.addFixings emptyManager [(1, 1 / 50), (2, 3 / 100), (1, 1 / 25)]).2.getHistory
        sampleIndex.name) 1 = some (1 / 25) ∧
    ((sampleIndex.addFixings emptyManager [(1, 1 / 50), (2, 3 / 100), (1, 1 / 25)]).2.getHistory
        sampleIndex.name) 2 = some (3 / 100) := by
  have hbad := (addFixings_atomic sampleIndex emptyManager [(1, 1 / 50), (-1, 3 / 100)]).1
    ⟨(-1, 3 / 100), by simp, by simp [sampleIndex]⟩
  have hgood := (addFixings_atomic sampleIndex emptyManager
    [(1, 1 / 50), (2, 3 / 100), (1, 1 / 25)]).2
    (by
      intro p hp
      simp only [List.mem_cons, List.mem_singleton, List.not_mem_nil, or_false] at hp
      rcases hp with rfl | rfl | rfl <;> simp [sampleIndex])
  refine ⟨hbad.2, ?_, ?_⟩
  · exact hgood.2.1 1 (1 / 25) [(1, 1 / 50), (2, 3 / 100)] [] rfl (by simp)
  · exact hgood.2.1 2 (3 / 100) [(1, 1 / 50)] [(1, 1 / 25)] rfl (by simp)

end QuantLib
